import Mathlib

/-!
Verification of the Game-X-O repository's core logic.

The repository has two algorithmic files:
  * `ai.js`     — class `TicTacToeAI` with `getBestMove` (minimax with
                  alpha-beta pruning), `minimax`, `checkWinner`,
                  `getRandomMove`, `getMediumMove`;
  * `game.js`   — the game state (`gameState`), `makeMove` with its
                  oldest-move eviction rule, `checkGameStatus`,
                  `handleCellClick`, `resetGame`.

The JavaScript mutates the board in place ("place mark, recurse, undo
mark").  We embed this by threading the board explicitly: each function
that mutates the board returns the board it leaves behind together with
its result, so the undo discipline of the source is visible and provable.
JS cell reads `board[i]` are embedded as `List.get?` (out-of-range reads
give `none`, the analogue of `undefined`); the truthiness test
`board[a] && ...` becomes a match on `get?` plus a non-Empty test.
-/

/-- A cell mark: `'X'`, `'O'`, or the empty string `''`. -/
inductive Mark where
  | X
  | O
  | Empty
deriving DecidableEq, Repr

/-- The game board: a JS array of 9 marks (index 0-8). -/
abbrev Board := List Mark

/-- The 8 winning index triples, in the order both `ai.js` and `game.js`
list them (rows, columns, diagonals). -/
def winPatterns : List (Nat × Nat × Nat) :=
  [(0, 1, 2), (3, 4, 5), (6, 7, 8),
   (0, 3, 6), (1, 4, 7), (2, 5, 8),
   (0, 4, 8), (2, 4, 6)]

/-- The guard `board[a] && board[a] === board[b] && board[a] === board[c]`:
cell `a` is defined and truthy (non-empty string) and cells `b`, `c` hold
the same mark. -/
def winsAt (board : Board) (a b c : Nat) : Bool :=
  match board.get? a with
  | none => false
  | some m =>
    decide (m ≠ Mark.Empty) && decide (board.get? b = some m)
      && decide (board.get? c = some m)

/-- Result of `TicTacToeAI.checkWinner`: a winning mark or the string
`'draw'`; `Option` supplies the `null` case. -/
inductive WinResult where
  | mark (m : Mark)
  | draw
deriving DecidableEq, Repr

/-- `TicTacToeAI.checkWinner` (ai.js): scan the 8 patterns in order and
return the first winner's mark; if the board is full
(`board.every(cell => cell !== '')`) return `'draw'`; else `null`. -/
def checkWinner (board : Board) : Option WinResult :=
  match winPatterns.find? (fun p => winsAt board p.1 p.2.1 p.2.2) with
  | some p =>
    match board.get? p.1 with
    | some m => some (WinResult.mark m)
    | none => none
  | none =>
    if board.all (fun c => decide (c ≠ Mark.Empty)) then some WinResult.draw
    else none

/-- The `TicTacToeAI` class: constructor fields `aiPlayer`, `humanPlayer`
(defaults `'O'`, `'X'`). -/
structure TicTacToeAI where
  aiPlayer : Mark := Mark.O
  humanPlayer : Mark := Mark.X
deriving DecidableEq, Repr

/-- The global `ai` instance of game.js: `new TicTacToeAI('O', 'X')`. -/
def aiInstance : TicTacToeAI := { aiPlayer := Mark.O, humanPlayer := Mark.X }

/-- Sentinel for JS `-Infinity`.  Every score `minimax` produces from the
depths reachable in this program lies in `[-10, 10]` (terminal scores are
`10 - depth`, `depth - 10`, `0` with `0 ≤ depth ≤ 9`), so `-1000` compares
exactly like `-Infinity` in every `Math.max`/`Math.min`/`<=` the source
performs (see the score-bound lemmas below). -/
def negInf : Int := -1000

/-- Sentinel for JS `Infinity`; see `negInf`. -/
def posInf : Int := 1000

/-- Terminal scoring of `minimax`: `result === aiPlayer` gives
`10 - depth`, else `result === humanPlayer` gives `depth - 10`, else
(the `'draw'` string) `0`. -/
def terminalScore (A : TicTacToeAI) (r : WinResult) (depth : Int) : Int :=
  match r with
  | WinResult.mark w =>
    if w = A.aiPlayer then 10 - depth
    else if w = A.humanPlayer then depth - 10
    else 0
  | WinResult.draw => 0

/-- The maximizing `for` loop of `minimax`: for each `i`, if `board[i]`
is empty, place `mark`, recurse (`step` is `minimax` at the next depth),
undo the placement, update `maxScore` and `alpha`, and `break` as soon as
`beta <= alpha`.  The board is threaded so every hypothetical placement
and its undo are explicit. -/
def abLoopMax (mark : Mark) (step : Board → Int → Int → Int × Board) :
    List Nat → Board → Int → Int → Int → Int × Board
  | [], board, maxScore, _alpha, _beta => (maxScore, board)
  | i :: rest, board, maxScore, alpha, beta =>
    if board.get? i = some Mark.Empty then
      let r := step (board.set i mark) alpha beta
      if beta ≤ max alpha r.1 then (max r.1 maxScore, r.2.set i Mark.Empty)
      else abLoopMax mark step rest (r.2.set i Mark.Empty) (max r.1 maxScore)
        (max alpha r.1) beta
    else abLoopMax mark step rest board maxScore alpha beta

/-- The minimizing `for` loop of `minimax` (places `humanPlayer`, takes
minima, updates `beta`, breaks when `beta <= alpha`). -/
def abLoopMin (mark : Mark) (step : Board → Int → Int → Int × Board) :
    List Nat → Board → Int → Int → Int → Int × Board
  | [], board, minScore, _alpha, _beta => (minScore, board)
  | i :: rest, board, minScore, alpha, beta =>
    if board.get? i = some Mark.Empty then
      let r := step (board.set i mark) alpha beta
      if min beta r.1 ≤ alpha then (min r.1 minScore, r.2.set i Mark.Empty)
      else abLoopMin mark step rest (r.2.set i Mark.Empty) (min r.1 minScore)
        alpha (min beta r.1)
    else abLoopMin mark step rest board minScore alpha beta

/-- `TicTacToeAI.minimax`, with an explicit fuel bounding the recursion
depth.  The source recursion terminates because every recursive call is
on a board with one more mark; a call with `fuel ≥` (number of empty
cells) never reaches the fuel-exhaustion default, because a board with no
empty cell is terminal (`checkWinner` returns `'draw'` at the latest). -/
def minimaxAux (A : TicTacToeAI) :
    Nat → Board → Int → Bool → Int → Int → Int × Board
  | 0, board, depth, _isMaximizing, _alpha, _beta =>
    match checkWinner board with
    | some r => (terminalScore A r depth, board)
    | none => (0, board)
  | fuel + 1, board, depth, isMaximizing, alpha, beta =>
    match checkWinner board with
    | some r => (terminalScore A r depth, board)
    | none =>
      if isMaximizing then
        abLoopMax A.aiPlayer
          (fun b al be => minimaxAux A fuel b (depth + 1) false al be)
          (List.range 9) board negInf alpha beta
      else
        abLoopMin A.humanPlayer
          (fun b al be => minimaxAux A fuel b (depth + 1) true al be)
          (List.range 9) board posInf alpha beta

/-- `TicTacToeAI.minimax(board, depth, isMaximizing, alpha, beta)`.
Fuel 9 covers every possible board (at most 9 empty cells). -/
def TicTacToeAI.minimax (A : TicTacToeAI) (board : Board) (depth : Int)
    (isMaximizing : Bool) (alpha beta : Int) : Int × Board :=
  minimaxAux A 9 board depth isMaximizing alpha beta

/-- The `for` loop of `getBestMove`: try each empty cell with `aiPlayer`,
score it by `minimax(board, 0, false, -Infinity, Infinity)`, undo, and
keep the first strict maximum (`score > bestScore`). -/
def bestMoveLoop (A : TicTacToeAI) :
    List Nat → Board → Int → Int → Int × Board
  | [], board, _bestScore, bestMove => (bestMove, board)
  | i :: rest, board, bestScore, bestMove =>
    if board.get? i = some Mark.Empty then
      let r := A.minimax (board.set i A.aiPlayer) 0 false negInf posInf
      if bestScore < r.1 then
        bestMoveLoop A rest (r.2.set i Mark.Empty) r.1 (Int.ofNat i)
      else bestMoveLoop A rest (r.2.set i Mark.Empty) bestScore bestMove
    else bestMoveLoop A rest board bestScore bestMove

/-- `TicTacToeAI.getBestMove(board)`: `bestScore = -Infinity`,
`bestMove = -1`, scan cells 0-8. -/
def TicTacToeAI.getBestMove (A : TicTacToeAI) (board : Board) : Int × Board :=
  bestMoveLoop A (List.range 9) board negInf (-1)

/-- The `emptyCells` array built by `getRandomMove`. -/
def emptyCells (board : Board) : List Nat :=
  (List.range 9).filter (fun i => decide (board.get? i = some Mark.Empty))

/-- `TicTacToeAI.getRandomMove(board)`:
`emptyCells[Math.floor(Math.random() * emptyCells.length)]`.
`pick` stands for `Math.floor(Math.random() * emptyCells.length)`, which
is a value `< emptyCells.length` when the list is nonempty and `0` when it
is empty; `none` is the JS `undefined` produced by indexing past the end
(in particular `emptyCells[0]` on an empty list). -/
def TicTacToeAI.getRandomMove (_A : TicTacToeAI) (pick : Nat) (board : Board) :
    Option Nat :=
  (emptyCells board).get? pick

/-- One scan loop of `getMediumMove`: for each `i` in order, if `board[i]`
is empty, place `place` there, test `checkWinner(board) === place`, undo,
and return `i` on success. -/
def medScan (place : Mark) : List Nat → Board → Option Nat × Board
  | [], board => (none, board)
  | i :: rest, board =>
    if board.get? i = some Mark.Empty then
      if checkWinner (board.set i place) = some (WinResult.mark place) then
        (some i, (board.set i place).set i Mark.Empty)
      else medScan place rest ((board.set i place).set i Mark.Empty)
    else medScan place rest board

/-- `TicTacToeAI.getMediumMove(board)`: take a winning cell if one exists
(scan with `aiPlayer`), else block the opponent (scan with `humanPlayer`),
else fall back to `getRandomMove`. -/
def TicTacToeAI.getMediumMove (A : TicTacToeAI) (pick : Nat) (board : Board) :
    Option Nat × Board :=
  match medScan A.aiPlayer (List.range 9) board with
  | (some i, b) => (some i, b)
  | (none, b) =>
    match medScan A.humanPlayer (List.range 9) b with
    | (some i, b2) => (some i, b2)
    | (none, b2) => (A.getRandomMove pick b2, b2)

/-- `'ai'` or `'2p'`. -/
inductive GameMode where
  | ai
  | twoP
deriving DecidableEq, Repr

/-- A `moveHistory` record: `{ index, player }`. -/
structure MoveRec where
  index : Nat
  player : Mark
deriving DecidableEq, Repr

/-- The fields of game.js's `gameState` that the game logic reads or
writes (scores, `winningLine` and the DOM handles are presentation
only). -/
structure GameState where
  board : Board
  currentPlayer : Mark
  gameMode : GameMode
  moveHistory : List MoveRec
  maxMoves : Nat
  isProcessing : Bool
deriving DecidableEq, Repr

/-- The initial `gameState` object (board of nine `''`, `X` to move,
`'ai'` mode, empty history, `maxMoves: 9`). -/
def initialState : GameState :=
  { board := List.replicate 9 Mark.Empty
    currentPlayer := Mark.X
    gameMode := GameMode.ai
    moveHistory := []
    maxMoves := 9
    isProcessing := false }

/-- `makeMove(index)` (game.js), state-changing core: when the history
already holds `maxMoves` records, `shift()` the oldest and clear its cell;
then write `currentPlayer` at `index`, push the move record, and toggle
`currentPlayer`.  (The DOM updates and the fade-out timer are presentation
only.)  The `[]` case of the eviction branch is unreachable: the guard
requires `9 ≤ length`. -/
def makeMove (s : GameState) (index : Nat) : GameState :=
  let s1 :=
    if s.maxMoves ≤ s.moveHistory.length then
      match s.moveHistory with
      | [] => s
      | oldest :: rest =>
        { s with board := s.board.set oldest.index Mark.Empty
                 moveHistory := rest }
    else s
  let s2 :=
    { s1 with board := s1.board.set index s1.currentPlayer
              moveHistory := s1.moveHistory ++ [MoveRec.mk index s1.currentPlayer] }
  { s2 with currentPlayer := if s2.currentPlayer = Mark.X then Mark.O else Mark.X }

/-- `checkGameStatus()` (game.js): scan the 8 patterns and report the
first completed line (the source then calls `handleWin` and returns
`true`); with no completed line it returns `false` — there is no draw
check ("game continues infinitely until someone wins").  `some (m, p)`
embeds the `true` outcome together with what `handleWin` receives;
`none` embeds `false`. -/
def checkGameStatus (board : Board) : Option (Mark × (Nat × Nat × Nat)) :=
  match winPatterns.find? (fun p => winsAt board p.1 p.2.1 p.2.2) with
  | some p =>
    match board.get? p.1 with
    | some m => some (m, p)
    | none => none
  | none => none

/-- `handleCellClick` (game.js), state-changing core: ignore the click if
a move is being processed, if the cell is not empty, or if it is the AI's
turn in AI mode; otherwise make the move, stop if the game ended, and in
AI mode let the AI respond with `getBestMove` guarded by
`aiMove !== -1 && board[aiMove] === ''` (the `setTimeout` callback is
modelled as running to completion; its trailing `checkGameStatus` call
only updates the UI). -/
def handleCellClick (s : GameState) (index : Nat) : GameState :=
  if s.isProcessing then s
  else if ¬(s.board.get? index = some Mark.Empty) then s
  else if s.gameMode = GameMode.ai ∧ s.currentPlayer = Mark.O then s
  else
    let s1 := makeMove s index
    if (checkGameStatus s1.board).isSome then s1
    else if s1.gameMode = GameMode.ai ∧ s1.currentPlayer = Mark.O then
      let s2 := { s1 with isProcessing := true }
      let aiMove := (aiInstance.getBestMove s2.board).1
      let s3 :=
        if aiMove ≠ -1 ∧ s2.board.get? aiMove.toNat = some Mark.Empty then
          makeMove s2 aiMove.toNat
        else s2
      { s3 with isProcessing := false }
    else s1

/-- A move is valid (in the sense of the spec's `applyMove` contract) when
it targets an in-range Empty cell; this is exactly the cell-emptiness test
of `handleCellClick`. -/
def validMoveB (s : GameState) (i : Nat) : Bool :=
  decide (s.board.get? i = some Mark.Empty)

/-- Validity of a whole sequence of `makeMove` calls. -/
def validSeqB (s : GameState) : List Nat → Bool
  | [] => true
  | i :: rest => validMoveB s i && validSeqB (makeMove s i) rest

/-- Run a sequence of `makeMove` calls. -/
def runMoves (s : GameState) : List Nat → GameState
  | [] => s
  | i :: rest => runMoves (makeMove s i) rest

/-- Number of non-Empty cells. -/
def occupiedCount (board : Board) : Nat :=
  (board.filter (fun c => decide (c ≠ Mark.Empty))).length

/-- The all-Empty starting board. -/
def startBoard : Board := List.replicate 9 Mark.Empty

/-- Exhaustive safety check for the optimal strategy: from `board`, with
the opponent (`humanPlayer`) free to choose any empty cell on its turns
and the AI playing `getBestMove` on its turns (the move must be accepted
by the caller's guard `aiMove !== -1 && board[aiMove] === ''`), no
terminal position — and no intermediate position — is a win for the
opponent's mark. -/
def safePlay (A : TicTacToeAI) : Nat → Bool → Board → Bool
  | 0, _, _ => true
  | fuel + 1, oppTurn, board =>
    match checkWinner board with
    | some (WinResult.mark w) => decide (w ≠ A.humanPlayer)
    | some WinResult.draw => true
    | none =>
      if oppTurn then
        (List.range 9).all fun i =>
          if board.get? i = some Mark.Empty then
            safePlay A fuel false (board.set i A.humanPlayer)
          else true
      else
        let m := (A.getBestMove board).1
        decide (m ≠ -1) && decide (board.get? m.toNat = some Mark.Empty)
          && safePlay A fuel true (board.set m.toNat A.aiPlayer)

/-! ### Generic list helper lemmas -/

theorem set_of_get? {α : Type} : ∀ (l : List α) (i : Nat) (a : α),
    l.get? i = some a → l.set i a = l
  | [], _, _, h => by cases h
  | _ :: _, 0, _, h => by
    simp only [List.get?] at h
    cases h
    rfl
  | c :: t, i + 1, a, h => by
    simp only [List.get?] at h
    simp only [List.set, List.cons.injEq, true_and]
    exact set_of_get? t i a h

/-! ### Frame lemmas: every hypothetical mutation in the AI search is undone
(the board threaded through each function comes back unchanged). -/

theorem abLoopMax_board (mark : Mark) (step : Board → Int → Int → Int × Board)
    (hstep : ∀ b al be, (step b al be).2 = b) :
    ∀ (is : List Nat) (board : Board) (ms al be : Int),
      (abLoopMax mark step is board ms al be).2 = board := by
  intro is
  induction is with
  | nil => intro board ms al be; rfl
  | cons i rest ih =>
    intro board ms al be
    rw [abLoopMax]
    by_cases h : board.get? i = some Mark.Empty
    · rw [if_pos h]
      have hres : ((step (board.set i mark) al be).2.set i Mark.Empty) = board := by
        rw [hstep, List.set_set, set_of_get? _ _ _ h]
      by_cases hp : be ≤ max al (step (board.set i mark) al be).1
      · rw [if_pos hp]; exact hres
      · rw [if_neg hp, ih, hres]
    · rw [if_neg h]; exact ih board ms al be

theorem abLoopMin_board (mark : Mark) (step : Board → Int → Int → Int × Board)
    (hstep : ∀ b al be, (step b al be).2 = b) :
    ∀ (is : List Nat) (board : Board) (ms al be : Int),
      (abLoopMin mark step is board ms al be).2 = board := by
  intro is
  induction is with
  | nil => intro board ms al be; rfl
  | cons i rest ih =>
    intro board ms al be
    rw [abLoopMin]
    by_cases h : board.get? i = some Mark.Empty
    · rw [if_pos h]
      have hres : ((step (board.set i mark) al be).2.set i Mark.Empty) = board := by
        rw [hstep, List.set_set, set_of_get? _ _ _ h]
      by_cases hp : min be (step (board.set i mark) al be).1 ≤ al
      · rw [if_pos hp]; exact hres
      · rw [if_neg hp, ih, hres]
    · rw [if_neg h]; exact ih board ms al be

theorem minimaxAux_board (A : TicTacToeAI) :
    ∀ (fuel : Nat) (board : Board) (depth : Int) (m : Bool) (al be : Int),
      (minimaxAux A fuel board depth m al be).2 = board := by
  intro fuel
  induction fuel with
  | zero =>
    intro board depth m al be
    rw [minimaxAux]
    cases checkWinner board <;> rfl
  | succ f ih =>
    intro board depth m al be
    rw [minimaxAux]
    cases checkWinner board with
    | some r => rfl
    | none =>
      by_cases hm : m
      · rw [if_pos hm]
        exact abLoopMax_board _ _ (fun b al' be' => ih b (depth + 1) false al' be') _ _ _ _ _
      · rw [if_neg hm]
        exact abLoopMin_board _ _ (fun b al' be' => ih b (depth + 1) true al' be') _ _ _ _ _

theorem minimax_board (A : TicTacToeAI) (board : Board) (depth : Int) (m : Bool)
    (al be : Int) : (A.minimax board depth m al be).2 = board :=
  minimaxAux_board A 9 board depth m al be

theorem bestMoveLoop_board (A : TicTacToeAI) :
    ∀ (is : List Nat) (board : Board) (bs bm : Int),
      (bestMoveLoop A is board bs bm).2 = board := by
  intro is
  induction is with
  | nil => intro board bs bm; rfl
  | cons i rest ih =>
    intro board bs bm
    rw [bestMoveLoop]
    by_cases h : board.get? i = some Mark.Empty
    · rw [if_pos h]
      have hres : ((A.minimax (board.set i A.aiPlayer) 0 false negInf posInf).2.set i
          Mark.Empty) = board := by
        rw [minimax_board, List.set_set, set_of_get? _ _ _ h]
      by_cases hp : bs < (A.minimax (board.set i A.aiPlayer) 0 false negInf posInf).1
      · rw [if_pos hp, ih, hres]
      · rw [if_neg hp, ih, hres]
    · rw [if_neg h]; exact ih board bs bm

theorem getBestMove_board (A : TicTacToeAI) (board : Board) :
    (A.getBestMove board).2 = board :=
  bestMoveLoop_board A (List.range 9) board negInf (-1)

theorem medScan_board (place : Mark) :
    ∀ (is : List Nat) (board : Board), (medScan place is board).2 = board := by
  intro is
  induction is with
  | nil => intro board; rfl
  | cons i rest ih =>
    intro board
    rw [medScan]
    by_cases h : board.get? i = some Mark.Empty
    · rw [if_pos h]
      have hres : ((board.set i place).set i Mark.Empty) = board := by
        rw [List.set_set, set_of_get? _ _ _ h]
      by_cases hw : checkWinner (board.set i place) = some (WinResult.mark place)
      · rw [if_pos hw]; exact hres
      · rw [if_neg hw, ih, hres]
    · rw [if_neg h]; exact ih board

theorem getMediumMove_board (A : TicTacToeAI) (pick : Nat) (board : Board) :
    (A.getMediumMove pick board).2 = board := by
  rw [TicTacToeAI.getMediumMove]
  have h1 := medScan_board A.aiPlayer (List.range 9) board
  cases hm : medScan A.aiPlayer (List.range 9) board with
  | mk r1 b1 =>
    rw [hm] at h1
    have h2 := medScan_board A.humanPlayer (List.range 9) b1
    cases r1 with
    | some i => exact h1
    | none =>
      show (match medScan A.humanPlayer (List.range 9) b1 with
        | (some i, b2) => (some i, b2)
        | (none, b2) => (A.getRandomMove pick b2, b2)).2 = board
      cases hm2 : medScan A.humanPlayer (List.range 9) b1 with
      | mk r2 b2 =>
        rw [hm2] at h2
        cases r2 with
        | some i => exact h2.trans h1
        | none => exact h2.trans h1

/-! ### One-step rewrite lemmas for the loops: because every hypothetical
placement is undone (frame lemmas), each loop step continues on the very
board it received. -/

theorem abLoopMax_cons_empty (mark : Mark) (step : Board → Int → Int → Int × Board)
    (hstep : ∀ b al be, (step b al be).2 = b) (i : Nat) (rest : List Nat)
    (board : Board) (ms al be : Int) (hi : board.get? i = some Mark.Empty) :
    abLoopMax mark step (i :: rest) board ms al be =
      if be ≤ max al (step (board.set i mark) al be).1 then
        (max (step (board.set i mark) al be).1 ms, board)
      else abLoopMax mark step rest board (max (step (board.set i mark) al be).1 ms)
        (max al (step (board.set i mark) al be).1) be := by
  rw [abLoopMax, if_pos hi]
  have hres : ((step (board.set i mark) al be).2.set i Mark.Empty) = board := by
    rw [hstep, List.set_set, set_of_get? _ _ _ hi]
  by_cases hp : be ≤ max al (step (board.set i mark) al be).1
  · rw [if_pos hp, if_pos hp, hres]
  · rw [if_neg hp, if_neg hp, hres]

theorem abLoopMax_cons_skip (mark : Mark) (step : Board → Int → Int → Int × Board)
    (i : Nat) (rest : List Nat) (board : Board) (ms al be : Int)
    (hi : ¬(board.get? i = some Mark.Empty)) :
    abLoopMax mark step (i :: rest) board ms al be =
      abLoopMax mark step rest board ms al be := by
  rw [abLoopMax, if_neg hi]

theorem abLoopMin_cons_empty (mark : Mark) (step : Board → Int → Int → Int × Board)
    (hstep : ∀ b al be, (step b al be).2 = b) (i : Nat) (rest : List Nat)
    (board : Board) (ms al be : Int) (hi : board.get? i = some Mark.Empty) :
    abLoopMin mark step (i :: rest) board ms al be =
      if min be (step (board.set i mark) al be).1 ≤ al then
        (min (step (board.set i mark) al be).1 ms, board)
      else abLoopMin mark step rest board (min (step (board.set i mark) al be).1 ms)
        al (min be (step (board.set i mark) al be).1) := by
  rw [abLoopMin, if_pos hi]
  have hres : ((step (board.set i mark) al be).2.set i Mark.Empty) = board := by
    rw [hstep, List.set_set, set_of_get? _ _ _ hi]
  by_cases hp : min be (step (board.set i mark) al be).1 ≤ al
  · rw [if_pos hp, if_pos hp, hres]
  · rw [if_neg hp, if_neg hp, hres]

theorem abLoopMin_cons_skip (mark : Mark) (step : Board → Int → Int → Int × Board)
    (i : Nat) (rest : List Nat) (board : Board) (ms al be : Int)
    (hi : ¬(board.get? i = some Mark.Empty)) :
    abLoopMin mark step (i :: rest) board ms al be =
      abLoopMin mark step rest board ms al be := by
  rw [abLoopMin, if_neg hi]

theorem bestMoveLoop_cons_empty (A : TicTacToeAI) (i : Nat) (rest : List Nat)
    (board : Board) (bs bm : Int) (hi : board.get? i = some Mark.Empty) :
    bestMoveLoop A (i :: rest) board bs bm =
      if bs < (A.minimax (board.set i A.aiPlayer) 0 false negInf posInf).1 then
        bestMoveLoop A rest board
          (A.minimax (board.set i A.aiPlayer) 0 false negInf posInf).1 (Int.ofNat i)
      else bestMoveLoop A rest board bs bm := by
  rw [bestMoveLoop, if_pos hi]
  have hres : ((A.minimax (board.set i A.aiPlayer) 0 false negInf posInf).2.set i
      Mark.Empty) = board := by
    rw [minimax_board, List.set_set, set_of_get? _ _ _ hi]
  by_cases hp : bs < (A.minimax (board.set i A.aiPlayer) 0 false negInf posInf).1
  · rw [if_pos hp, if_pos hp, hres]
  · rw [if_neg hp, if_neg hp, hres]

theorem bestMoveLoop_cons_skip (A : TicTacToeAI) (i : Nat) (rest : List Nat)
    (board : Board) (bs bm : Int) (hi : ¬(board.get? i = some Mark.Empty)) :
    bestMoveLoop A (i :: rest) board bs bm = bestMoveLoop A rest board bs bm := by
  rw [bestMoveLoop, if_neg hi]

/-! ### A non-terminal board of length 9 has an empty cell. -/

theorem checkWinner_none_find? (b : Board) (h : checkWinner b = none) :
    winPatterns.find? (fun p => winsAt b p.1 p.2.1 p.2.2) = none := by
  cases hf : winPatterns.find? (fun p => winsAt b p.1 p.2.1 p.2.2) with
  | none => rfl
  | some p =>
    exfalso
    have hw := List.find?_some hf
    rw [checkWinner, hf] at h
    cases hg : b.get? p.1 with
    | none => rw [winsAt, hg] at hw; cases hw
    | some m =>
      have h2 : (match b.get? p.1 with
        | some m => some (WinResult.mark m)
        | none => none) = (none : Option WinResult) := h
      rw [hg] at h2
      cases h2

theorem checkWinner_none_has_empty (b : Board) (h9 : b.length = 9)
    (h : checkWinner b = none) : ∃ i, i < 9 ∧ b.get? i = some Mark.Empty := by
  have hf := checkWinner_none_find? b h
  rw [checkWinner, hf] at h
  by_cases hall : b.all (fun c => decide (c ≠ Mark.Empty))
  · rw [if_pos hall] at h; cases h
  · rw [List.all_eq_true] at hall
    push_neg at hall
    obtain ⟨c, hc, hcd⟩ := hall
    have hce : c = Mark.Empty := by
      by_contra hne
      exact hcd (by simpa using hne)
    obtain ⟨i, hig⟩ := List.mem_iff_get?.mp hc
    refine ⟨i, ?_, by rw [hig, hce]⟩
    by_contra hlt
    have : b.length ≤ i := by omega
    rw [List.get?_eq_none.mpr this] at hig
    cases hig

/-! ### Terminal scores and minimax scores are bounded well inside the
`±1000` sentinels (so the sentinels behave exactly like `±Infinity`). -/

theorem terminalScore_bound (A : TicTacToeAI) (r : WinResult) (depth : Int)
    (h0 : 0 ≤ depth) (h9 : depth ≤ 900) :
    -1000 < terminalScore A r depth ∧ terminalScore A r depth < 1000 := by
  cases r with
  | mark w =>
    rw [terminalScore]
    by_cases h1 : w = A.aiPlayer
    · rw [if_pos h1]; omega
    · rw [if_neg h1]
      by_cases h2 : w = A.humanPlayer
      · rw [if_pos h2]; omega
      · rw [if_neg h2]; omega
  | draw => rw [terminalScore]; omega

theorem abLoopMax_bound (mark : Mark) (step : Board → Int → Int → Int × Board)
    (hstep : ∀ b al be, (step b al be).2 = b)
    (hbound : ∀ b al be, b.length = 9 →
      -1000 < (step b al be).1 ∧ (step b al be).1 < 1000) :
    ∀ (is : List Nat) (b : Board) (ms al be : Int), b.length = 9 →
      -1000 ≤ ms → ms < 1000 →
      ((∃ i ∈ is, b.get? i = some Mark.Empty) ∨ -1000 < ms) →
      -1000 < (abLoopMax mark step is b ms al be).1 ∧
        (abLoopMax mark step is b ms al be).1 < 1000 := by
  intro is
  induction is with
  | nil =>
    intro b ms al be _h9 hle hlt hd
    rcases hd with hd | hd
    · obtain ⟨i, hi, _⟩ := hd; cases hi
    · exact ⟨hd, hlt⟩
  | cons i rest ih =>
    intro b ms al be h9 hle hlt hd
    by_cases hi : b.get? i = some Mark.Empty
    · rw [abLoopMax_cons_empty mark step hstep i rest b ms al be hi]
      have hs := hbound (b.set i mark) al be (by rw [List.length_set]; exact h9)
      by_cases hp : be ≤ max al (step (b.set i mark) al be).1
      · rw [if_pos hp]
        constructor
        · have : -1000 < max (step (b.set i mark) al be).1 ms :=
            lt_max_of_lt_left hs.1
          exact this
        · exact max_lt hs.2 hlt
      · rw [if_neg hp]
        exact ih b (max (step (b.set i mark) al be).1 ms) _ be h9
          (le_of_lt (lt_max_of_lt_left hs.1)) (max_lt hs.2 hlt)
          (Or.inr (lt_max_of_lt_left hs.1))
    · rw [abLoopMax_cons_skip mark step i rest b ms al be hi]
      refine ih b ms al be h9 hle hlt ?_
      rcases hd with hd | hd
      · obtain ⟨j, hj, hje⟩ := hd
        cases hj with
        | head => exact absurd hje hi
        | tail _ hj2 => exact Or.inl ⟨j, hj2, hje⟩
      · exact Or.inr hd

theorem abLoopMin_bound (mark : Mark) (step : Board → Int → Int → Int × Board)
    (hstep : ∀ b al be, (step b al be).2 = b)
    (hbound : ∀ b al be, b.length = 9 →
      -1000 < (step b al be).1 ∧ (step b al be).1 < 1000) :
    ∀ (is : List Nat) (b : Board) (ms al be : Int), b.length = 9 →
      -1000 < ms → ms ≤ 1000 →
      ((∃ i ∈ is, b.get? i = some Mark.Empty) ∨ ms < 1000) →
      -1000 < (abLoopMin mark step is b ms al be).1 ∧
        (abLoopMin mark step is b ms al be).1 < 1000 := by
  intro is
  induction is with
  | nil =>
    intro b ms al be _h9 hlt hle hd
    rcases hd with hd | hd
    · obtain ⟨i, hi, _⟩ := hd; cases hi
    · exact ⟨hlt, hd⟩
  | cons i rest ih =>
    intro b ms al be h9 hlt hle hd
    by_cases hi : b.get? i = some Mark.Empty
    · rw [abLoopMin_cons_empty mark step hstep i rest b ms al be hi]
      have hs := hbound (b.set i mark) al be (by rw [List.length_set]; exact h9)
      by_cases hp : min be (step (b.set i mark) al be).1 ≤ al
      · rw [if_pos hp]
        exact ⟨lt_min hs.1 hlt, min_lt_of_left_lt hs.2⟩
      · rw [if_neg hp]
        exact ih b (min (step (b.set i mark) al be).1 ms) al _ h9
          (lt_min hs.1 hlt) (le_of_lt (min_lt_of_left_lt hs.2))
          (Or.inr (min_lt_of_left_lt hs.2))
    · rw [abLoopMin_cons_skip mark step i rest b ms al be hi]
      refine ih b ms al be h9 hlt hle ?_
      rcases hd with hd | hd
      · obtain ⟨j, hj, hje⟩ := hd
        cases hj with
        | head => exact absurd hje hi
        | tail _ hj2 => exact Or.inl ⟨j, hj2, hje⟩
      · exact Or.inr hd

theorem minimaxAux_bound (A : TicTacToeAI) :
    ∀ (fuel : Nat) (b : Board) (depth : Int) (m : Bool) (al be : Int),
      b.length = 9 → 0 ≤ depth → depth + fuel ≤ 900 →
      -1000 < (minimaxAux A fuel b depth m al be).1 ∧
        (minimaxAux A fuel b depth m al be).1 < 1000 := by
  intro fuel
  induction fuel with
  | zero =>
    intro b depth m al be _h9 h0 hf
    rw [minimaxAux]
    cases hcw : checkWinner b with
    | some r => exact terminalScore_bound A r depth h0 (by omega)
    | none => norm_num
  | succ f ih =>
    intro b depth m al be h9 h0 hf
    rw [minimaxAux]
    cases hcw : checkWinner b with
    | some r => exact terminalScore_bound A r depth h0 (by omega)
    | none =>
      obtain ⟨i, hi9, hie⟩ := checkWinner_none_has_empty b h9 hcw
      have hmem : i ∈ List.range 9 := List.mem_range.mpr hi9
      by_cases hm : m
      · rw [if_pos hm]
        show -1000 < (abLoopMax _ _ _ _ negInf al be).1 ∧
          (abLoopMax _ _ _ _ negInf al be).1 < 1000
        have := abLoopMax_bound A.aiPlayer
          (fun b' al' be' => minimaxAux A f b' (depth + 1) false al' be')
          (fun b' al' be' => minimaxAux_board A f b' (depth + 1) false al' be')
          (fun b' al' be' h9' => ih b' (depth + 1) false al' be' h9' (by omega) (by omega))
          (List.range 9) b negInf al be h9 (by rw [negInf])
          (by rw [negInf]; omega) (Or.inl ⟨i, hmem, hie⟩)
        exact this
      · rw [if_neg hm]
        show -1000 < (abLoopMin _ _ _ _ posInf al be).1 ∧
          (abLoopMin _ _ _ _ posInf al be).1 < 1000
        have := abLoopMin_bound A.humanPlayer
          (fun b' al' be' => minimaxAux A f b' (depth + 1) true al' be')
          (fun b' al' be' => minimaxAux_board A f b' (depth + 1) true al' be')
          (fun b' al' be' h9' => ih b' (depth + 1) true al' be' h9' (by omega) (by omega))
          (List.range 9) b posInf al be h9 (by rw [posInf]; omega)
          (by rw [posInf]) (Or.inl ⟨i, hmem, hie⟩)
        exact this

theorem minimax_bound (A : TicTacToeAI) (b : Board) (m : Bool) (al be : Int)
    (h9 : b.length = 9) :
    -1000 < (A.minimax b 0 m al be).1 ∧ (A.minimax b 0 m al be).1 < 1000 :=
  minimaxAux_bound A 9 b 0 m al be h9 (by omega) (by omega)

/-! ### `getBestMove` is a stable first-argmax over the empty cells. -/

/-- The score `getBestMove` computes for empty cell `i`: place `aiPlayer`
there and run `minimax(board, 0, false, -Infinity, Infinity)`. -/
def childScore (A : TicTacToeAI) (board : Board) (i : Nat) : Int :=
  (A.minimax (board.set i A.aiPlayer) 0 false negInf posInf).1

theorem mem_emptyCells (board : Board) (i : Nat) :
    i ∈ emptyCells board ↔ i < 9 ∧ board.get? i = some Mark.Empty := by
  rw [emptyCells, List.mem_filter, List.mem_range, decide_eq_true_eq]

theorem bestMoveLoop_argmax (A : TicTacToeAI) (board : Board) :
    ∀ (l : List Nat), l.Pairwise (· < ·) → ∀ (bs bm : Int),
      ((∀ i ∈ l, board.get? i = some Mark.Empty → childScore A board i ≤ bs) ∧
        (bestMoveLoop A l board bs bm).1 = bm)
      ∨ (∃ k ∈ l, board.get? k = some Mark.Empty ∧
          (bestMoveLoop A l board bs bm).1 = Int.ofNat k ∧
          bs < childScore A board k ∧
          (∀ i ∈ l, board.get? i = some Mark.Empty →
            childScore A board i ≤ childScore A board k) ∧
          (∀ i ∈ l, board.get? i = some Mark.Empty → i < k →
            childScore A board i < childScore A board k)) := by
  intro l
  induction l with
  | nil =>
    intro _ bs bm
    exact Or.inl ⟨fun i hi => absurd hi (List.not_mem_nil i), rfl⟩
  | cons i rest ih =>
    intro hpw bs bm
    have hlt : ∀ j ∈ rest, i < j := (List.pairwise_cons.mp hpw).1
    have hpw' : rest.Pairwise (· < ·) := (List.pairwise_cons.mp hpw).2
    by_cases hie : board.get? i = some Mark.Empty
    · rw [bestMoveLoop_cons_empty A i rest board bs bm hie]
      by_cases hc : bs < (A.minimax (board.set i A.aiPlayer) 0 false negInf posInf).1
      · rw [if_pos hc]
        rcases ih hpw' (A.minimax (board.set i A.aiPlayer) 0 false negInf posInf).1
            (Int.ofNat i) with ⟨hall, hres⟩ | ⟨k, hk, hke, hkr, hkgt, hkmax, hkfirst⟩
        · refine Or.inr ⟨i, List.mem_cons_self i rest, hie, hres, hc, ?_, ?_⟩
          · intro j hj hje
            cases hj with
            | head => exact le_refl _
            | tail _ hj2 => exact hall j hj2 hje
          · intro j hj hje hji
            cases hj with
            | head => omega
            | tail _ hj2 => exact absurd hji (by have := hlt j hj2; omega)
        · refine Or.inr ⟨k, List.mem_cons_of_mem i hk, hke, hkr,
            lt_trans hc hkgt, ?_, ?_⟩
          · intro j hj hje
            cases hj with
            | head => exact le_of_lt hkgt
            | tail _ hj2 => exact hkmax j hj2 hje
          · intro j hj hje hjk
            cases hj with
            | head => exact hkgt
            | tail _ hj2 => exact hkfirst j hj2 hje hjk
      · rw [if_neg hc]
        push_neg at hc
        rcases ih hpw' bs bm with ⟨hall, hres⟩ | ⟨k, hk, hke, hkr, hkgt, hkmax, hkfirst⟩
        · refine Or.inl ⟨?_, hres⟩
          intro j hj hje
          cases hj with
          | head => exact hc
          | tail _ hj2 => exact hall j hj2 hje
        · refine Or.inr ⟨k, List.mem_cons_of_mem i hk, hke, hkr, hkgt, ?_, ?_⟩
          · intro j hj hje
            cases hj with
            | head => exact le_of_lt (lt_of_le_of_lt hc hkgt)
            | tail _ hj2 => exact hkmax j hj2 hje
          · intro j hj hje _hjk
            cases hj with
            | head => exact lt_of_le_of_lt hc hkgt
            | tail _ hj2 => exact hkfirst j hj2 hje _hjk
    · rw [bestMoveLoop_cons_skip A i rest board bs bm hie]
      rcases ih hpw' bs bm with ⟨hall, hres⟩ | ⟨k, hk, hke, hkr, hkgt, hkmax, hkfirst⟩
      · refine Or.inl ⟨?_, hres⟩
        intro j hj hje
        cases hj with
        | head => exact absurd hje hie
        | tail _ hj2 => exact hall j hj2 hje
      · refine Or.inr ⟨k, List.mem_cons_of_mem i hk, hke, hkr, hkgt, ?_, ?_⟩
        · intro j hj hje
          cases hj with
          | head => exact absurd hje hie
          | tail _ hj2 => exact hkmax j hj2 hje
        · intro j hj hje hjk
          cases hj with
          | head => exact absurd hje hie
          | tail _ hj2 => exact hkfirst j hj2 hje hjk

theorem getBestMove_argmax (A : TicTacToeAI) (board : Board)
    (h9 : board.length = 9) (hne : emptyCells board ≠ []) :
    ∃ k ∈ emptyCells board, (A.getBestMove board).1 = Int.ofNat k ∧
      (∀ j ∈ emptyCells board, childScore A board j ≤ childScore A board k) ∧
      (∀ j ∈ emptyCells board, j < k → childScore A board j < childScore A board k) := by
  obtain ⟨j0, hj0⟩ := List.exists_mem_of_ne_nil _ hne
  have hj0m := (mem_emptyCells board j0).mp hj0
  have hj0b := minimax_bound A (board.set j0 A.aiPlayer) false negInf posInf
    (by rw [List.length_set]; exact h9)
  rcases bestMoveLoop_argmax A board (List.range 9) (by decide) negInf (-1) with
    ⟨hall, _⟩ | ⟨k, hk, hke, hkr, _hkgt, hkmax, hkfirst⟩
  · exfalso
    have h1 : childScore A board j0 ≤ negInf :=
      hall j0 (List.mem_range.mpr hj0m.1) hj0m.2
    have h2 : -1000 < childScore A board j0 := hj0b.1
    rw [negInf] at h1
    omega
  · refine ⟨k, (mem_emptyCells board k).mpr
      ⟨List.mem_range.mp hk, hke⟩, hkr, ?_, ?_⟩
    · intro j hj
      have hjm := (mem_emptyCells board j).mp hj
      exact hkmax j (List.mem_range.mpr hjm.1) hjm.2
    · intro j hj hjk
      have hjm := (mem_emptyCells board j).mp hj
      exact hkfirst j (List.mem_range.mpr hjm.1) hjm.2 hjk

theorem getBestMove_no_empty (A : TicTacToeAI) (board : Board)
    (hno : emptyCells board = []) : (A.getBestMove board).1 = -1 := by
  rcases bestMoveLoop_argmax A board (List.range 9) (by decide) negInf (-1) with
    ⟨_, hres⟩ | ⟨k, hk, hke, _⟩
  · exact hres
  · exfalso
    have : k ∈ emptyCells board :=
      (mem_emptyCells board k).mpr ⟨List.mem_range.mp hk, hke⟩
    rw [hno] at this
    cases this

/-! ### `getMediumMove`'s scans are `find?` over cells in index order. -/

theorem medScan_eq_find? (place : Mark) : ∀ (l : List Nat) (board : Board),
    medScan place l board =
      (l.find? (fun i => decide (board.get? i = some Mark.Empty) &&
        decide (checkWinner (board.set i place) = some (WinResult.mark place))),
       board) := by
  intro l
  induction l with
  | nil => intro board; rfl
  | cons i rest ih =>
    intro board
    rw [medScan, List.find?]
    by_cases hi : board.get? i = some Mark.Empty
    · have hres : ((board.set i place).set i Mark.Empty) = board := by
        rw [List.set_set, set_of_get? _ _ _ hi]
      by_cases hw : checkWinner (board.set i place) = some (WinResult.mark place)
      · rw [if_pos hi, if_pos hw]
        have : (decide (board.get? i = some Mark.Empty) &&
            decide (checkWinner (board.set i place) = some (WinResult.mark place)))
            = true := by
          rw [decide_eq_true hi, decide_eq_true hw]
          rfl
        rw [this, hres]
      · rw [if_pos hi, if_neg hw]
        have : (decide (board.get? i = some Mark.Empty) &&
            decide (checkWinner (board.set i place) = some (WinResult.mark place)))
            = false := by
          rw [decide_eq_true hi, decide_eq_false hw]
          rfl
        rw [this, hres, ih board]
    · rw [if_neg hi]
      have : (decide (board.get? i = some Mark.Empty) &&
          decide (checkWinner (board.set i place) = some (WinResult.mark place)))
          = false := by
        rw [decide_eq_false hi]
        rfl
      rw [this, ih board]

theorem find?_sorted_first {p : Nat → Bool} : ∀ (l : List Nat),
    l.Pairwise (· < ·) → ∀ k, l.find? p = some k →
      p k = true ∧ k ∈ l ∧ ∀ j ∈ l, j < k → p j = false := by
  intro l
  induction l with
  | nil => intro _ k h; cases h
  | cons i rest ih =>
    intro hpw k h
    have hlt : ∀ j ∈ rest, i < j := (List.pairwise_cons.mp hpw).1
    have hpw' : rest.Pairwise (· < ·) := (List.pairwise_cons.mp hpw).2
    rw [List.find?] at h
    by_cases hp : p i
    · rw [hp] at h
      cases h
      refine ⟨hp, List.mem_cons_self i rest, ?_⟩
      intro j hj hji
      cases hj with
      | head => omega
      | tail _ hj2 => exact absurd hji (by have := hlt j hj2; omega)
    · rw [Bool.of_not_eq_true hp] at h
      obtain ⟨h1, h2, h3⟩ := ih hpw' k h
      refine ⟨h1, List.mem_cons_of_mem i h2, ?_⟩
      intro j hj hji
      cases hj with
      | head => exact Bool.of_not_eq_true hp
      | tail _ hj2 => exact h3 j hj2 hji

theorem getMediumMove_win_found (A : TicTacToeAI) (pick : Nat) (board : Board)
    (k : Nat)
    (hfind : (List.range 9).find? (fun i =>
      decide (board.get? i = some Mark.Empty) &&
      decide (checkWinner (board.set i A.aiPlayer) = some (WinResult.mark A.aiPlayer)))
      = some k) :
    (A.getMediumMove pick board).1 = some k := by
  rw [TicTacToeAI.getMediumMove, medScan_eq_find?, hfind]

/-! ### Behaviour with no empty cells: `getRandomMove` and `getMediumMove`
return `undefined` (`none`). -/

theorem getRandomMove_no_empty (A : TicTacToeAI) (pick : Nat) (board : Board)
    (hno : emptyCells board = []) : A.getRandomMove pick board = none := by
  rw [TicTacToeAI.getRandomMove, hno]
  rfl

theorem getMediumMove_no_empty (A : TicTacToeAI) (pick : Nat) (board : Board)
    (hno : emptyCells board = []) : (A.getMediumMove pick board).1 = none := by
  have hfalse : ∀ (q : Nat → Bool), (List.range 9).find?
      (fun i => decide (board.get? i = some Mark.Empty) && q i) = none := by
    intro q
    rw [List.find?_eq_none]
    intro i hi
    have := List.filter_eq_nil_iff.mp hno i hi
    simp only [Bool.and_eq_true, decide_eq_true_eq]
    intro hcon
    exact this (by simpa using hcon.1)
  rw [TicTacToeAI.getMediumMove, medScan_eq_find?, hfalse]
  show (match medScan A.humanPlayer (List.range 9) board with
    | (some i, b2) => (some i, b2)
    | (none, b2) => (A.getRandomMove pick b2, b2)).1 = none
  rw [medScan_eq_find?, hfalse]
  show (A.getRandomMove pick board, board).1 = none
  rw [getRandomMove_no_empty A pick board hno]

/-! ### Bitmask image of a board, used to run the AI's search efficiently
inside the kernel.  `maskOf m b` has bit `i` set exactly when cell `i`
holds mark `m`.  The fast evaluator below is proven extensionally equal to
the faithful embedding, so theorems about `safePlay`/`getBestMove` can be
established by computing with masks. -/

def maskOf (m : Mark) : Board → Nat
  | [] => 0
  | c :: t => (if c = m then 1 else 0) + 2 * maskOf m t

theorem maskOf_lt (m : Mark) : ∀ (b : Board), maskOf m b < 2 ^ b.length := by
  intro b
  induction b with
  | nil => rw [maskOf]; norm_num
  | cons c t ih =>
    rw [maskOf]
    have : (2 : Nat) ^ (c :: t).length = 2 * 2 ^ t.length := by
      rw [List.length_cons, pow_succ, Nat.mul_comm]
    rw [this]
    by_cases hc : c = m
    · rw [if_pos hc]; omega
    · rw [if_neg hc]; omega

theorem maskOf_testBit (m : Mark) : ∀ (b : Board) (i : Nat), i < b.length →
    ((maskOf m b).testBit i = true ↔ b.get? i = some m) := by
  intro b
  induction b with
  | nil => intro i hi; cases hi
  | cons c t ih =>
    intro i hi
    cases i with
    | zero =>
      rw [maskOf, Nat.testBit_zero]
      show _ ↔ some c = some m
      by_cases hc : c = m
      · rw [if_pos hc, hc]
        constructor
        · intro _; rfl
        · intro _; exact decide_eq_true (by omega)
      · rw [if_neg hc]
        constructor
        · intro h
          exfalso
          have := of_decide_eq_true h
          omega
        · intro h
          cases h
          exact absurd rfl hc
    | succ j =>
      rw [maskOf, Nat.testBit_succ]
      have hdiv : ((if c = m then 1 else 0) + 2 * maskOf m t) / 2 = maskOf m t := by
        by_cases hc : c = m
        · rw [if_pos hc]; omega
        · rw [if_neg hc]; omega
      rw [hdiv]
      show _ ↔ t.get? j = some m
      exact ih j (by simpa [List.length_cons] using Nat.lt_of_succ_lt_succ hi)

theorem maskOf_set_self (m : Mark) (hm : m ≠ Mark.Empty) :
    ∀ (b : Board) (i : Nat), b.get? i = some Mark.Empty →
      maskOf m (b.set i m) = maskOf m b + 2 ^ i := by
  intro b
  induction b with
  | nil => intro i hi; cases hi
  | cons c t ih =>
    intro i hi
    cases i with
    | zero =>
      have hc : c = Mark.Empty := by
        have : some c = some Mark.Empty := hi
        cases this
        rfl
      rw [List.set]
      rw [maskOf, maskOf, if_pos rfl, if_neg (hc ▸ fun h => hm (h.symm ▸ rfl))]
      omega
    | succ j =>
      have hj : t.get? j = some Mark.Empty := hi
      rw [List.set]
      rw [maskOf, maskOf, ih j hj, pow_succ]
      ring

theorem maskOf_set_other (m m2 : Mark) (hmm : m2 ≠ m) (hm : m ≠ Mark.Empty) :
    ∀ (b : Board) (i : Nat), b.get? i = some Mark.Empty →
      maskOf m (b.set i m2) = maskOf m b := by
  intro b
  induction b with
  | nil => intro i hi; cases hi
  | cons c t ih =>
    intro i hi
    cases i with
    | zero =>
      have hc : c = Mark.Empty := by
        have : some c = some Mark.Empty := hi
        cases this
        rfl
      rw [List.set]
      rw [maskOf, maskOf, if_neg (fun h => hmm h),
        if_neg (hc ▸ fun h => hm (h.symm ▸ rfl))]
    | succ j =>
      have hj : t.get? j = some Mark.Empty := hi
      rw [List.set]
      rw [maskOf, maskOf, ih j hj]

/-- For boards of length 9, the three cell states translate to mask bits. -/
theorem cell_empty_iff_mask (b : Board) (h9 : b.length = 9) (i : Nat) (hi : i < 9) :
    (b.get? i = some Mark.Empty) ↔
      ((maskOf Mark.X b ||| maskOf Mark.O b).testBit i = false) := by
  have hx := maskOf_testBit Mark.X b i (by omega)
  have ho := maskOf_testBit Mark.O b i (by omega)
  rw [Nat.testBit_lor]
  cases hg : b.get? i with
  | none =>
    exfalso
    have := List.get?_eq_none.mp hg
    omega
  | some c =>
    rw [hg] at hx ho
    cases c with
    | X =>
      simp only [hx.mpr rfl]
      constructor
      · intro h; cases h
      · intro h; cases h
    | O =>
      simp only [ho.mpr rfl]
      constructor
      · intro h; cases h
      · intro h
        rw [Bool.or_eq_false_iff] at h
        cases h.2
    | Empty =>
      have hxf : (maskOf Mark.X b).testBit i = false := by
        cases hxb : (maskOf Mark.X b).testBit i
        · rfl
        · cases hx.mp hxb
      have hof : (maskOf Mark.O b).testBit i = false := by
        cases hob : (maskOf Mark.O b).testBit i
        · rfl
        · cases ho.mp hob
      rw [hxf, hof]
      constructor
      · intro _; rfl
      · intro _; rfl

theorem winsAt_iff_mask (bd : Board) (h9 : bd.length = 9) (a b c : Nat)
    (ha : a < 9) (hb : b < 9) (hc : c < 9) :
    winsAt bd a b c = true ↔
      (((maskOf Mark.X bd).testBit a = true ∧ (maskOf Mark.X bd).testBit b = true ∧
        (maskOf Mark.X bd).testBit c = true) ∨
       ((maskOf Mark.O bd).testBit a = true ∧ (maskOf Mark.O bd).testBit b = true ∧
        (maskOf Mark.O bd).testBit c = true)) := by
  have hxa := maskOf_testBit Mark.X bd a (by omega)
  have hxb := maskOf_testBit Mark.X bd b (by omega)
  have hxc := maskOf_testBit Mark.X bd c (by omega)
  have hoa := maskOf_testBit Mark.O bd a (by omega)
  have hob := maskOf_testBit Mark.O bd b (by omega)
  have hoc := maskOf_testBit Mark.O bd c (by omega)
  rw [winsAt]
  cases hg : bd.get? a with
  | none =>
    exfalso
    have := List.get?_eq_none.mp hg
    omega
  | some m =>
    rw [Bool.and_eq_true, Bool.and_eq_true, decide_eq_true_eq, decide_eq_true_eq,
      decide_eq_true_eq]
    cases m with
    | X =>
      rw [hxa, hxb, hxc, hoa, hob, hoc, hg]
      constructor
      · intro h
        exact Or.inl ⟨rfl, h.1.2, h.2⟩
      · intro h
        rcases h with ⟨_, h2, h3⟩ | ⟨h1, _, _⟩
        · refine ⟨⟨?_, h2⟩, h3⟩
          intro hne
          cases hne
        · cases h1
    | O =>
      rw [hxa, hxb, hxc, hoa, hob, hoc, hg]
      constructor
      · intro h
        exact Or.inr ⟨rfl, h.1.2, h.2⟩
      · intro h
        rcases h with ⟨h1, _, _⟩ | ⟨_, h2, h3⟩
        · cases h1
        · refine ⟨⟨?_, h2⟩, h3⟩
          intro hne
          cases hne
    | Empty =>
      rw [hxa, hxb, hxc, hoa, hob, hoc, hg]
      constructor
      · intro h
        exact absurd rfl h.1.1
      · intro h
        rcases h with ⟨h1, _, _⟩ | ⟨h1, _, _⟩ <;> cases h1

theorem support_of_lt (pm a b c : Nat) (hlt : pm < 512)
    (hsmall : ∀ i, i < 9 → pm.testBit i = true → (i = a ∨ i = b ∨ i = c)) :
    ∀ i, pm.testBit i = true → i = a ∨ i = b ∨ i = c := by
  intro i hi
  by_cases h9 : i < 9
  · exact hsmall i h9 hi
  · exfalso
    have hpow : pm < 2 ^ i := by
      calc pm < 512 := hlt
        _ = 2 ^ 9 := by norm_num
        _ ≤ 2 ^ i := Nat.pow_le_pow_right (by norm_num) (by omega)
    rw [Nat.testBit_lt_two_pow hpow] at hi
    cases hi

theorem land_eq_iff (pm xm a b c : Nat)
    (h1 : pm.testBit a = true) (h2 : pm.testBit b = true) (h3 : pm.testBit c = true)
    (hsupp : ∀ i, pm.testBit i = true → i = a ∨ i = b ∨ i = c) :
    (pm &&& xm = pm) ↔
      (xm.testBit a = true ∧ xm.testBit b = true ∧ xm.testBit c = true) := by
  constructor
  · intro h
    refine ⟨?_, ?_, ?_⟩
    · have := congrArg (fun n => n.testBit a) h
      simp only [Nat.testBit_land, h1, Bool.true_and] at this
      exact this
    · have := congrArg (fun n => n.testBit b) h
      simp only [Nat.testBit_land, h2, Bool.true_and] at this
      exact this
    · have := congrArg (fun n => n.testBit c) h
      simp only [Nat.testBit_land, h3, Bool.true_and] at this
      exact this
  · intro hx
    apply Nat.eq_of_testBit_eq
    intro i
    rw [Nat.testBit_land]
    by_cases hp : pm.testBit i = true
    · rcases hsupp i hp with rfl | rfl | rfl
      · rw [hp, hx.1]; rfl
      · rw [hp, hx.2.1]; rfl
      · rw [hp, hx.2.2]; rfl
    · have hpf : pm.testBit i = false := by
        cases hq : pm.testBit i
        · rfl
        · exact absurd hq hp
      rw [hpf, Bool.false_and]

/-- The pattern list paired with its bitmask image `2^a + 2^b + 2^c`. -/
def patPairs : List ((Nat × Nat × Nat) × Nat) :=
  [((0, 1, 2), 7), ((3, 4, 5), 56), ((6, 7, 8), 448),
   ((0, 3, 6), 73), ((1, 4, 7), 146), ((2, 5, 8), 292),
   ((0, 4, 8), 273), ((2, 4, 6), 84)]

/-- Well-formedness of a pattern/mask pair. -/
def goodPat (e : (Nat × Nat × Nat) × Nat) : Prop :=
  e.1.1 < 9 ∧ e.1.2.1 < 9 ∧ e.1.2.2 < 9 ∧ e.2 < 512 ∧
  e.2.testBit e.1.1 = true ∧ e.2.testBit e.1.2.1 = true ∧
  e.2.testBit e.1.2.2 = true ∧
  ∀ i, i < 9 → e.2.testBit i = true → (i = e.1.1 ∨ i = e.1.2.1 ∨ i = e.1.2.2)

instance : DecidablePred goodPat := by
  intro e
  rw [goodPat]
  infer_instance

/-- Win-pattern masks in scan order. -/
def winMasks : List Nat := [7, 56, 448, 73, 146, 292, 273, 84]

/-- The pattern scan of `checkWinner`, on masks: first mask fully inside
`xm` gives `X`, first inside `om` gives `O` (a pattern cannot be inside
both since a cell holds one mark). -/
def scanWin : List Nat → Nat → Nat → Option Mark
  | [], _, _ => none
  | pm :: rest, xm, om =>
    bif pm &&& xm == pm then some Mark.X
    else bif pm &&& om == pm then some Mark.O
    else scanWin rest xm om

/-- Mask-level mirror of `checkWinner`. -/
def checkWinnerFast (xm om : Nat) : Option WinResult :=
  match scanWin winMasks xm om with
  | some m => some (WinResult.mark m)
  | none => bif (xm ||| om) == 511 then some WinResult.draw else none

theorem full_iff_mask (b : Board) (h9 : b.length = 9) :
    (b.all (fun c => decide (c ≠ Mark.Empty)) = true) ↔
      ((maskOf Mark.X b ||| maskOf Mark.O b) = 511) := by
  constructor
  · intro hall
    apply Nat.eq_of_testBit_eq
    intro i
    rw [Nat.testBit_lor]
    by_cases hi : i < 9
    · have h511 : (511 : Nat).testBit i = true := by
        rw [show (511 : Nat) = 2 ^ 9 - 1 from by norm_num,
          Nat.testBit_two_pow_sub_one]
        exact decide_eq_true hi
      rw [h511]
      cases hg : b.get? i with
      | none =>
        exfalso
        have := List.get?_eq_none.mp hg
        omega
      | some cell =>
        have hmem : cell ∈ b := List.get?_mem hg
        have := of_decide_eq_true (List.all_eq_true.mp hall cell hmem)
        cases cell with
        | X =>
          rw [(maskOf_testBit Mark.X b i (by omega)).mpr hg]
          rfl
        | O =>
          rw [(maskOf_testBit Mark.O b i (by omega)).mpr hg]
          rw [Bool.or_true]
        | Empty => exact absurd rfl this
    · have hx : (maskOf Mark.X b).testBit i = false :=
        Nat.testBit_lt_two_pow (by
          have := maskOf_lt Mark.X b
          rw [h9] at this
          calc maskOf Mark.X b < 2 ^ 9 := this
            _ ≤ 2 ^ i := Nat.pow_le_pow_right (by norm_num) (by omega))
      have ho : (maskOf Mark.O b).testBit i = false :=
        Nat.testBit_lt_two_pow (by
          have := maskOf_lt Mark.O b
          rw [h9] at this
          calc maskOf Mark.O b < 2 ^ 9 := this
            _ ≤ 2 ^ i := Nat.pow_le_pow_right (by norm_num) (by omega))
      have h511 : (511 : Nat).testBit i = false := by
        rw [show (511 : Nat) = 2 ^ 9 - 1 from by norm_num,
          Nat.testBit_two_pow_sub_one]
        exact decide_eq_false (by omega)
      rw [hx, ho, h511]
      rfl
  · intro hor
    rw [List.all_eq_true]
    intro cell hmem
    obtain ⟨i, hig⟩ := List.mem_iff_get?.mp hmem
    have hi9 : i < 9 := by
      by_contra hlt
      rw [List.get?_eq_none.mpr (by omega)] at hig
      cases hig
    have hbit : ((maskOf Mark.X b ||| maskOf Mark.O b)).testBit i = true := by
      rw [hor, show (511 : Nat) = 2 ^ 9 - 1 from by norm_num,
        Nat.testBit_two_pow_sub_one]
      exact decide_eq_true hi9
    rw [Nat.testBit_lor] at hbit
    apply decide_eq_true
    intro hcell
    rw [hcell] at hig
    have hx : (maskOf Mark.X b).testBit i = false := by
      cases hxb : (maskOf Mark.X b).testBit i
      · rfl
      · have := (maskOf_testBit Mark.X b i (by omega)).mp hxb
        rw [hig] at this
        cases this
    have ho : (maskOf Mark.O b).testBit i = false := by
      cases hob : (maskOf Mark.O b).testBit i
      · rfl
      · have := (maskOf_testBit Mark.O b i (by omega)).mp hob
        rw [hig] at this
        cases this
    rw [hx, ho] at hbit
    cases hbit

theorem scan_eq_aux (bd : Board) (h9 : bd.length = 9) :
    ∀ (ps : List ((Nat × Nat × Nat) × Nat)), (∀ e ∈ ps, goodPat e) →
    ∀ (dflt : Option WinResult),
      (match (ps.map Prod.fst).find? (fun p => winsAt bd p.1 p.2.1 p.2.2) with
       | some p => (match bd.get? p.1 with
                    | some m => some (WinResult.mark m)
                    | none => (none : Option WinResult))
       | none => dflt)
      = (match scanWin (ps.map Prod.snd) (maskOf Mark.X bd) (maskOf Mark.O bd) with
         | some m => some (WinResult.mark m)
         | none => dflt) := by
  intro ps
  induction ps with
  | nil => intro _ dflt; rfl
  | cons e rest ih =>
    intro hgood dflt
    obtain ⟨ha, hb, hc, hlt, h1, h2, h3, hsmall⟩ := hgood e (List.mem_cons_self e rest)
    have hsupp := support_of_lt e.2 e.1.1 e.1.2.1 e.1.2.2 hlt hsmall
    have hrest : ∀ e2 ∈ rest, goodPat e2 :=
      fun e2 he2 => hgood e2 (List.mem_cons_of_mem e he2)
    have hwiff := winsAt_iff_mask bd h9 e.1.1 e.1.2.1 e.1.2.2 ha hb hc
    have hlx := land_eq_iff e.2 (maskOf Mark.X bd) e.1.1 e.1.2.1 e.1.2.2 h1 h2 h3 hsupp
    have hlo := land_eq_iff e.2 (maskOf Mark.O bd) e.1.1 e.1.2.1 e.1.2.2 h1 h2 h3 hsupp
    rw [List.map_cons, List.map_cons]
    by_cases hw : winsAt bd e.1.1 e.1.2.1 e.1.2.2 = true
    · have hw2 : (fun p : Nat × Nat × Nat => winsAt bd p.1 p.2.1 p.2.2) e.1 = true := hw
      rw [List.find?_cons_of_pos
        (p := fun p : Nat × Nat × Nat => winsAt bd p.1 p.2.1 p.2.2) _ hw2]
      rcases hwiff.mp hw with hxf | hof
      · -- the pattern is filled with X
        have hga : bd.get? e.1.1 = some Mark.X :=
          (maskOf_testBit Mark.X bd e.1.1 (by omega)).mp hxf.1
        have hcx : (e.2 &&& maskOf Mark.X bd == e.2) = true :=
          beq_iff_eq.mpr (hlx.mpr hxf)
        simp only [hga, scanWin, hcx, Bool.cond_true]
      · -- the pattern is filled with O
        have hga : bd.get? e.1.1 = some Mark.O :=
          (maskOf_testBit Mark.O bd e.1.1 (by omega)).mp hof.1
        have hcx : (e.2 &&& maskOf Mark.X bd == e.2) = false := by
          rw [beq_eq_false_iff_ne]
          intro hcon
          have := (hlx.mp hcon).1
          have hgx := (maskOf_testBit Mark.X bd e.1.1 (by omega)).mp this
          rw [hga] at hgx
          cases hgx
        have hco : (e.2 &&& maskOf Mark.O bd == e.2) = true :=
          beq_iff_eq.mpr (hlo.mpr hof)
        simp only [hga, scanWin, hcx, Bool.cond_false, hco, Bool.cond_true]
    · have hw2 : ¬((fun p : Nat × Nat × Nat => winsAt bd p.1 p.2.1 p.2.2) e.1 = true) := hw
      rw [List.find?_cons_of_neg
        (p := fun p : Nat × Nat × Nat => winsAt bd p.1 p.2.1 p.2.2) _ hw2]
      have hcx : (e.2 &&& maskOf Mark.X bd == e.2) = false := by
        rw [beq_eq_false_iff_ne]
        intro hcon
        exact hw (hwiff.mpr (Or.inl (hlx.mp hcon)))
      have hco : (e.2 &&& maskOf Mark.O bd == e.2) = false := by
        rw [beq_eq_false_iff_ne]
        intro hcon
        exact hw (hwiff.mpr (Or.inr (hlo.mp hcon)))
      simp only [scanWin, hcx, hco, Bool.cond_false]
      exact ih hrest dflt

/-- The faithful `checkWinner` agrees with the mask evaluator on every
9-cell board. -/
theorem checkWinner_eq_fast (b : Board) (h9 : b.length = 9) :
    checkWinner b = checkWinnerFast (maskOf Mark.X b) (maskOf Mark.O b) := by
  rw [checkWinner, checkWinnerFast,
    show winPatterns = patPairs.map Prod.fst from by decide,
    show winMasks = patPairs.map Prod.snd from by decide,
    scan_eq_aux b h9 patPairs (by decide)]
  cases scanWin (patPairs.map Prod.snd) (maskOf Mark.X b) (maskOf Mark.O b) with
  | some m => rfl
  | none =>
    by_cases hall : b.all (fun c => decide (c ≠ Mark.Empty)) = true
    · rw [if_pos hall]
      have := (full_iff_mask b h9).mp hall
      rw [beq_iff_eq.mpr this, Bool.cond_true]
    · rw [if_neg hall]
      have hne : ¬((maskOf Mark.X b ||| maskOf Mark.O b) = 511) :=
        fun hcon => hall ((full_iff_mask b h9).mpr hcon)
      rw [beq_eq_false_iff_ne.mpr hne, Bool.cond_false]

/-! ### Mask-level mirror of the AI search (specialised to the game's
`aiInstance`: the AI plays `O`, the human plays `X`).  Each function is
proven extensionally equal to the faithful embedding. -/

def fastLoopMax (xm : Nat) (step : Nat → Int → Int → Int) :
    List Nat → Nat → Int → Int → Int → Int
  | [], _om, ms, _al, _be => ms
  | i :: rest, om, ms, al, be =>
    if (xm ||| om).testBit i = true then fastLoopMax xm step rest om ms al be
    else
      let s := step (om + 2 ^ i) al be
      if be ≤ max al s then max s ms
      else fastLoopMax xm step rest om (max s ms) (max al s) be

def fastLoopMin (om : Nat) (step : Nat → Int → Int → Int) :
    List Nat → Nat → Int → Int → Int → Int
  | [], _xm, ms, _al, _be => ms
  | i :: rest, xm, ms, al, be =>
    if (xm ||| om).testBit i = true then fastLoopMin om step rest xm ms al be
    else
      let s := step (xm + 2 ^ i) al be
      if min be s ≤ al then min s ms
      else fastLoopMin om step rest xm (min s ms) al (min be s)

def minimaxFast : Nat → Nat → Nat → Int → Bool → Int → Int → Int
  | 0, xm, om, depth, _isMaximizing, _alpha, _beta =>
    match checkWinnerFast xm om with
    | some r => terminalScore aiInstance r depth
    | none => 0
  | fuel + 1, xm, om, depth, isMaximizing, alpha, beta =>
    match checkWinnerFast xm om with
    | some r => terminalScore aiInstance r depth
    | none =>
      if isMaximizing then
        fastLoopMax xm
          (fun om2 al be => minimaxFast fuel xm om2 (depth + 1) false al be)
          (List.range 9) om negInf alpha beta
      else
        fastLoopMin om
          (fun xm2 al be => minimaxFast fuel xm2 om (depth + 1) true al be)
          (List.range 9) xm posInf alpha beta

def fastBestLoop (xm : Nat) : List Nat → Nat → Int → Int → Int
  | [], _om, _bs, bm => bm
  | i :: rest, om, bs, bm =>
    if (xm ||| om).testBit i = true then fastBestLoop xm rest om bs bm
    else
      let s := minimaxFast 9 xm (om + 2 ^ i) 0 false negInf posInf
      if bs < s then fastBestLoop xm rest om s (Int.ofNat i)
      else fastBestLoop xm rest om bs bm

def getBestMoveFast (xm om : Nat) : Int :=
  fastBestLoop xm (List.range 9) om negInf (-1)

def safePlayFast : Nat → Bool → Nat → Nat → Bool
  | 0, _, _, _ => true
  | fuel + 1, oppTurn, xm, om =>
    match checkWinnerFast xm om with
    | some (WinResult.mark w) => decide (w ≠ Mark.X)
    | some WinResult.draw => true
    | none =>
      if oppTurn then
        (List.range 9).all fun i =>
          if (xm ||| om).testBit i = true then true
          else safePlayFast fuel false (xm + 2 ^ i) om
      else
        let m := getBestMoveFast xm om
        decide (m ≠ -1) && decide (m.toNat < 9) && !((xm ||| om).testBit m.toNat)
          && safePlayFast fuel true xm (om + 2 ^ m.toNat)

theorem all_congr_mem {α : Type} : ∀ (l : List α) (f g : α → Bool),
    (∀ x ∈ l, f x = g x) → l.all f = l.all g := by
  intro l
  induction l with
  | nil => intro f g _; rfl
  | cons x rest ih =>
    intro f g h
    rw [List.all_cons, List.all_cons, h x (List.mem_cons_self x rest),
      ih f g (fun y hy => h y (List.mem_cons_of_mem x hy))]

theorem cell_occupied_testBit (b : Board) (h9 : b.length = 9) (i : Nat)
    (hi : i < 9) (hne : ¬(b.get? i = some Mark.Empty)) :
    ((maskOf Mark.X b ||| maskOf Mark.O b)).testBit i = true := by
  cases hb : ((maskOf Mark.X b ||| maskOf Mark.O b)).testBit i
  · exact absurd ((cell_empty_iff_mask b h9 i hi).mpr hb) hne
  · rfl

theorem fastLoopMax_eq (b : Board) (h9 : b.length = 9)
    (stepF : Board → Int → Int → Int × Board) (stepN : Nat → Int → Int → Int)
    (hframe : ∀ b2 al be, (stepF b2 al be).2 = b2)
    (hstep : ∀ i, i < 9 → b.get? i = some Mark.Empty → ∀ al be,
      (stepF (b.set i Mark.O) al be).1 = stepN (maskOf Mark.O b + 2 ^ i) al be) :
    ∀ (is : List Nat), (∀ i ∈ is, i < 9) → ∀ (ms al be : Int),
      (abLoopMax Mark.O stepF is b ms al be).1 =
        fastLoopMax (maskOf Mark.X b) stepN is (maskOf Mark.O b) ms al be := by
  intro is
  induction is with
  | nil => intro _ ms al be; rfl
  | cons i rest ih =>
    intro hmem ms al be
    have hi9 : i < 9 := hmem i (List.mem_cons_self i rest)
    have hrest : ∀ j ∈ rest, j < 9 :=
      fun j hj => hmem j (List.mem_cons_of_mem i hj)
    by_cases hie : b.get? i = some Mark.Empty
    · rw [abLoopMax_cons_empty Mark.O stepF hframe i rest b ms al be hie]
      have hbit := (cell_empty_iff_mask b h9 i hi9).mp hie
      rw [fastLoopMax, hbit,
        if_neg (show ¬(false = true) from Bool.false_ne_true)]
      simp only []
      rw [← hstep i hi9 hie al be]
      by_cases hp : be ≤ max al (stepF (b.set i Mark.O) al be).1
      · rw [if_pos hp, if_pos hp]
      · rw [if_neg hp, if_neg hp]
        exact ih hrest _ _ be
    · rw [abLoopMax_cons_skip Mark.O stepF i rest b ms al be hie]
      rw [fastLoopMax, cell_occupied_testBit b h9 i hi9 hie,
        if_pos (show (true = true) from rfl)]
      exact ih hrest ms al be

theorem fastLoopMin_eq (b : Board) (h9 : b.length = 9)
    (stepF : Board → Int → Int → Int × Board) (stepN : Nat → Int → Int → Int)
    (hframe : ∀ b2 al be, (stepF b2 al be).2 = b2)
    (hstep : ∀ i, i < 9 → b.get? i = some Mark.Empty → ∀ al be,
      (stepF (b.set i Mark.X) al be).1 = stepN (maskOf Mark.X b + 2 ^ i) al be) :
    ∀ (is : List Nat), (∀ i ∈ is, i < 9) → ∀ (ms al be : Int),
      (abLoopMin Mark.X stepF is b ms al be).1 =
        fastLoopMin (maskOf Mark.O b) stepN is (maskOf Mark.X b) ms al be := by
  intro is
  induction is with
  | nil => intro _ ms al be; rfl
  | cons i rest ih =>
    intro hmem ms al be
    have hi9 : i < 9 := hmem i (List.mem_cons_self i rest)
    have hrest : ∀ j ∈ rest, j < 9 :=
      fun j hj => hmem j (List.mem_cons_of_mem i hj)
    by_cases hie : b.get? i = some Mark.Empty
    · rw [abLoopMin_cons_empty Mark.X stepF hframe i rest b ms al be hie]
      have hbit := (cell_empty_iff_mask b h9 i hi9).mp hie
      rw [fastLoopMin, hbit,
        if_neg (show ¬(false = true) from Bool.false_ne_true)]
      simp only []
      rw [← hstep i hi9 hie al be]
      by_cases hp : min be (stepF (b.set i Mark.X) al be).1 ≤ al
      · rw [if_pos hp, if_pos hp]
      · rw [if_neg hp, if_neg hp]
        exact ih hrest _ al _
    · rw [abLoopMin_cons_skip Mark.X stepF i rest b ms al be hie]
      rw [fastLoopMin, cell_occupied_testBit b h9 i hi9 hie,
        if_pos (show (true = true) from rfl)]
      exact ih hrest ms al be

theorem minimax_eq_fast : ∀ (fuel : Nat) (b : Board), b.length = 9 →
    ∀ (depth : Int) (m : Bool) (al be : Int),
      (minimaxAux aiInstance fuel b depth m al be).1 =
        minimaxFast fuel (maskOf Mark.X b) (maskOf Mark.O b) depth m al be := by
  intro fuel
  induction fuel with
  | zero =>
    intro b h9 depth m al be
    rw [minimaxAux, minimaxFast, ← checkWinner_eq_fast b h9]
    cases checkWinner b <;> rfl
  | succ f ih =>
    intro b h9 depth m al be
    rw [minimaxAux, minimaxFast, ← checkWinner_eq_fast b h9]
    cases hcw : checkWinner b with
    | some r => rfl
    | none =>
      by_cases hm : m
      · rw [if_pos hm, if_pos hm]
        rw [show aiInstance.aiPlayer = Mark.O from rfl]
        exact fastLoopMax_eq b h9 _ _
          (fun b2 al2 be2 => minimaxAux_board aiInstance f b2 (depth + 1) false al2 be2)
          (fun i hi9 hie al2 be2 => by
            show (minimaxAux aiInstance f (b.set i Mark.O) (depth + 1) false al2 be2).1 =
              minimaxFast f (maskOf Mark.X b) (maskOf Mark.O b + 2 ^ i)
                (depth + 1) false al2 be2
            rw [ih (b.set i Mark.O) (by rw [List.length_set]; exact h9)
                (depth + 1) false al2 be2,
              maskOf_set_other Mark.X Mark.O (by intro h; cases h)
                (by intro h; cases h) b i hie,
              maskOf_set_self Mark.O (by intro h; cases h) b i hie])
          (List.range 9) (fun i hi => List.mem_range.mp hi) negInf al be
      · rw [if_neg hm, if_neg hm]
        rw [show aiInstance.humanPlayer = Mark.X from rfl]
        exact fastLoopMin_eq b h9 _ _
          (fun b2 al2 be2 => minimaxAux_board aiInstance f b2 (depth + 1) true al2 be2)
          (fun i hi9 hie al2 be2 => by
            show (minimaxAux aiInstance f (b.set i Mark.X) (depth + 1) true al2 be2).1 =
              minimaxFast f (maskOf Mark.X b + 2 ^ i) (maskOf Mark.O b)
                (depth + 1) true al2 be2
            rw [ih (b.set i Mark.X) (by rw [List.length_set]; exact h9)
                (depth + 1) true al2 be2,
              maskOf_set_other Mark.O Mark.X (by intro h; cases h)
                (by intro h; cases h) b i hie,
              maskOf_set_self Mark.X (by intro h; cases h) b i hie])
          (List.range 9) (fun i hi => List.mem_range.mp hi) posInf al be

theorem fastBestLoop_eq (b : Board) (h9 : b.length = 9) :
    ∀ (is : List Nat), (∀ i ∈ is, i < 9) → ∀ (bs bm : Int),
      (bestMoveLoop aiInstance is b bs bm).1 =
        fastBestLoop (maskOf Mark.X b) is (maskOf Mark.O b) bs bm := by
  intro is
  induction is with
  | nil => intro _ bs bm; rfl
  | cons i rest ih =>
    intro hmem bs bm
    have hi9 : i < 9 := hmem i (List.mem_cons_self i rest)
    have hrest : ∀ j ∈ rest, j < 9 :=
      fun j hj => hmem j (List.mem_cons_of_mem i hj)
    by_cases hie : b.get? i = some Mark.Empty
    · rw [bestMoveLoop_cons_empty aiInstance i rest b bs bm hie]
      have hbit := (cell_empty_iff_mask b h9 i hi9).mp hie
      rw [fastBestLoop, hbit,
        if_neg (show ¬(false = true) from Bool.false_ne_true)]
      simp only []
      have hsc : (aiInstance.minimax (b.set i aiInstance.aiPlayer) 0 false
          negInf posInf).1 =
          minimaxFast 9 (maskOf Mark.X b) (maskOf Mark.O b + 2 ^ i) 0 false
            negInf posInf := by
        show (minimaxAux aiInstance 9 (b.set i aiInstance.aiPlayer) 0 false
          negInf posInf).1 = _
        rw [show aiInstance.aiPlayer = Mark.O from rfl]
        rw [minimax_eq_fast 9 (b.set i Mark.O) (by rw [List.length_set]; exact h9)
            0 false negInf posInf,
          maskOf_set_other Mark.X Mark.O (by intro h; cases h)
            (by intro h; cases h) b i hie,
          maskOf_set_self Mark.O (by intro h; cases h) b i hie]
      rw [← hsc]
      by_cases hp : bs < (aiInstance.minimax (b.set i aiInstance.aiPlayer) 0 false
          negInf posInf).1
      · rw [if_pos hp, if_pos hp]
        exact ih hrest _ _
      · rw [if_neg hp, if_neg hp]
        exact ih hrest bs bm
    · rw [bestMoveLoop_cons_skip aiInstance i rest b bs bm hie]
      rw [fastBestLoop, cell_occupied_testBit b h9 i hi9 hie,
        if_pos (show (true = true) from rfl)]
      exact ih hrest bs bm

theorem getBestMove_eq_fast (b : Board) (h9 : b.length = 9) :
    (aiInstance.getBestMove b).1 =
      getBestMoveFast (maskOf Mark.X b) (maskOf Mark.O b) :=
  fastBestLoop_eq b h9 (List.range 9) (fun i hi => List.mem_range.mp hi)
    negInf (-1)

theorem safePlay_eq_fast : ∀ (fuel : Nat) (b : Board), b.length = 9 →
    ∀ (t : Bool), safePlay aiInstance fuel t b =
      safePlayFast fuel t (maskOf Mark.X b) (maskOf Mark.O b) := by
  intro fuel
  induction fuel with
  | zero => intro b _ t; rfl
  | succ f ih =>
    intro b h9 t
    rw [safePlay, safePlayFast, ← checkWinner_eq_fast b h9]
    cases hcw : checkWinner b with
    | some r =>
      cases r with
      | mark w => rfl
      | draw => rfl
    | none =>
      by_cases ht : t
      · rw [if_pos ht, if_pos ht]
        apply all_congr_mem
        intro i hi
        have hi9 : i < 9 := List.mem_range.mp hi
        by_cases hie : b.get? i = some Mark.Empty
        · rw [if_pos hie]
          have hbit := (cell_empty_iff_mask b h9 i hi9).mp hie
          rw [hbit, if_neg (show ¬(false = true) from Bool.false_ne_true)]
          rw [show aiInstance.humanPlayer = Mark.X from rfl]
          rw [ih (b.set i Mark.X) (by rw [List.length_set]; exact h9) false]
          rw [maskOf_set_other Mark.O Mark.X (by intro h; cases h)
              (by intro h; cases h) b i hie,
            maskOf_set_self Mark.X (by intro h; cases h) b i hie]
        · rw [if_neg hie, cell_occupied_testBit b h9 i hi9 hie,
            if_pos (show (true = true) from rfl)]
      · rw [if_neg ht, if_neg ht]
        simp only []
        rw [← getBestMove_eq_fast b h9]
        by_cases hme : b.get? (aiInstance.getBestMove b).1.toNat = some Mark.Empty
        · have hm9 : (aiInstance.getBestMove b).1.toNat < 9 := by
            by_contra hcon
            rw [List.get?_eq_none.mpr (by omega)] at hme
            cases hme
          have hbit := (cell_empty_iff_mask b h9 _ hm9).mp hme
          rw [decide_eq_true hme, decide_eq_true hm9, hbit]
          rw [show aiInstance.aiPlayer = Mark.O from rfl]
          rw [ih (b.set (aiInstance.getBestMove b).1.toNat Mark.O)
              (by rw [List.length_set]; exact h9) true]
          rw [maskOf_set_other Mark.X Mark.O (by intro h; cases h)
              (by intro h; cases h) b _ hme,
            maskOf_set_self Mark.O (by intro h; cases h) b _ hme]
          rw [Bool.not_false, Bool.and_true, Bool.and_true]
        · rw [decide_eq_false hme]
          by_cases hm9 : (aiInstance.getBestMove b).1.toNat < 9
          · have hbit := cell_occupied_testBit b h9 _ hm9 hme
            rw [hbit]
            simp only [Bool.not_true, Bool.and_false, Bool.false_and]
          · rw [decide_eq_false hm9]
            simp only [Bool.and_false, Bool.false_and]

/-! ### Occupied-cell counting, toward the eviction analysis of `makeMove`. -/

theorem occupiedCount_le (b : Board) : occupiedCount b ≤ b.length :=
  List.length_filter_le _ b

theorem occupiedCount_lt_of_empty : ∀ (b : Board) (i : Nat),
    b.get? i = some Mark.Empty → occupiedCount b < b.length := by
  intro b
  induction b with
  | nil => intro i h; cases h
  | cons c t ih =>
    intro i h
    cases i with
    | zero =>
      rw [List.get?_cons_zero] at h
      injection h with h
      subst h
      have h1 : occupiedCount (Mark.Empty :: t) = occupiedCount t := by
        rw [occupiedCount, List.filter_cons, if_neg (by decide)]
        rfl
      rw [h1, List.length_cons]
      exact Nat.lt_succ_of_le (occupiedCount_le t)
    | succ j =>
      rw [List.get?_cons_succ] at h
      have ht := ih j h
      rw [List.length_cons, occupiedCount, List.filter_cons]
      by_cases hc : decide (c ≠ Mark.Empty) = true
      · rw [if_pos hc, List.length_cons]
        exact Nat.succ_lt_succ ht
      · rw [if_neg hc]
        exact Nat.lt_succ_of_lt ht

theorem occupiedCount_set_of_empty : ∀ (b : Board) (i : Nat) (m : Mark),
    b.get? i = some Mark.Empty → m ≠ Mark.Empty →
    occupiedCount (b.set i m) = occupiedCount b + 1 := by
  intro b
  induction b with
  | nil => intro i m h _; cases h
  | cons c t ih =>
    intro i m h hm
    cases i with
    | zero =>
      rw [List.get?_cons_zero] at h
      injection h with h
      subst h
      rw [List.set_cons_zero, occupiedCount, occupiedCount, List.filter_cons,
        List.filter_cons, if_pos (decide_eq_true hm), if_neg (by decide),
        List.length_cons]
    | succ j =>
      rw [List.get?_cons_succ] at h
      rw [List.set_cons_succ, occupiedCount, occupiedCount, List.filter_cons,
        List.filter_cons]
      have ht := ih j m h hm
      rw [occupiedCount, occupiedCount] at ht
      by_cases hc : decide (c ≠ Mark.Empty) = true
      · rw [if_pos hc, if_pos hc, List.length_cons, List.length_cons, ht]
      · rw [if_neg hc, if_neg hc]
        exact ht

/-- With the history below `maxMoves`, `makeMove` evicts nothing: it writes
the mark, appends the record and toggles the player. -/
theorem makeMove_no_evict (s : GameState) (i : Nat)
    (hguard : ¬(s.maxMoves ≤ s.moveHistory.length)) :
    makeMove s i = { s with
      board := s.board.set i s.currentPlayer
      moveHistory := s.moveHistory ++ [MoveRec.mk i s.currentPlayer]
      currentPlayer := if s.currentPlayer = Mark.X then Mark.O else Mark.X } := by
  rw [makeMove, if_neg hguard]

/-- Along any valid move sequence (each move hits an in-range Empty cell)
the history length stays equal to the occupied-cell count, which grows by
one per move: with a 9-cell board this caps valid play at 9 moves and the
eviction branch of `makeMove` never fires. -/
theorem validSeq_invariant : ∀ (moves : List Nat) (s : GameState),
    s.board.length = 9 → s.maxMoves = 9 →
    s.moveHistory.length = occupiedCount s.board →
    s.currentPlayer ≠ Mark.Empty →
    validSeqB s moves = true →
    (runMoves s moves).board.length = 9 ∧
    (runMoves s moves).maxMoves = 9 ∧
    (runMoves s moves).moveHistory.length =
      occupiedCount (runMoves s moves).board ∧
    occupiedCount (runMoves s moves).board =
      occupiedCount s.board + moves.length := by
  intro moves
  induction moves with
  | nil =>
    intro s h9 hmax hh _ _
    exact ⟨h9, hmax, hh, rfl⟩
  | cons i rest ih =>
    intro s h9 hmax hh hcp hv
    rw [validSeqB, Bool.and_eq_true] at hv
    obtain ⟨hv1, hv2⟩ := hv
    rw [validMoveB, decide_eq_true_eq] at hv1
    have hguard : ¬(s.maxMoves ≤ s.moveHistory.length) := by
      have hlt := occupiedCount_lt_of_empty s.board i hv1
      rw [h9] at hlt
      rw [hmax, hh]
      omega
    have hmm := makeMove_no_evict s i hguard
    have hb : (makeMove s i).board = s.board.set i s.currentPlayer := by
      rw [hmm]
    have hhist : (makeMove s i).moveHistory =
        s.moveHistory ++ [MoveRec.mk i s.currentPlayer] := by
      rw [hmm]
    have hmx : (makeMove s i).maxMoves = 9 := by
      rw [hmm]
      exact hmax
    have hocc : occupiedCount (makeMove s i).board = occupiedCount s.board + 1 := by
      rw [hb]
      exact occupiedCount_set_of_empty s.board i s.currentPlayer hv1 hcp
    have h9' : (makeMove s i).board.length = 9 := by
      rw [hb, List.length_set]
      exact h9
    have hh' : (makeMove s i).moveHistory.length =
        occupiedCount (makeMove s i).board := by
      rw [hhist, List.length_append, List.length_singleton, hocc, hh]
    have hcp' : (makeMove s i).currentPlayer ≠ Mark.Empty := by
      rw [hmm]
      show (if s.currentPlayer = Mark.X then Mark.O else Mark.X) ≠ Mark.Empty
      by_cases hx : s.currentPlayer = Mark.X
      · rw [if_pos hx]
        intro hcon
        cases hcon
      · rw [if_neg hx]
        intro hcon
        cases hcon
    rw [runMoves]
    obtain ⟨g9, gmax, ghist, gocc⟩ := ih (makeMove s i) h9' hmx hh' hcp' hv2
    refine ⟨g9, gmax, ghist, ?_⟩
    rw [gocc, hocc, List.length_cons]
    omega

/-! ### Terminal behaviour of `minimax` and the missing draw check. -/

/-- On a board `checkWinner` already settles, `minimax` returns the
depth-adjusted terminal score at once, whatever the fuel, turn and
alpha-beta window. -/
theorem minimaxAux_terminal (A : TicTacToeAI) (fuel : Nat) (b : Board)
    (d : Int) (m : Bool) (al be : Int) (r : WinResult)
    (h : checkWinner b = some r) :
    minimaxAux A fuel b d m al be = (terminalScore A r d, b) := by
  cases fuel with
  | zero => rw [minimaxAux, h]
  | succ f => rw [minimaxAux, h]

/-- A full board on which no pattern wins is scored `'draw'` by the AI's
own `checkWinner`. -/
theorem checkWinner_draw_of_full (b : Board)
    (hfull : (b.all fun c => decide (c ≠ Mark.Empty)) = true)
    (hnowin : (winPatterns.all fun p => !winsAt b p.1 p.2.1 p.2.2) = true) :
    checkWinner b = some WinResult.draw := by
  rw [checkWinner]
  have hf : winPatterns.find? (fun p => winsAt b p.1 p.2.1 p.2.2) = none := by
    rw [List.find?_eq_none]
    intro p hp
    have h1 := List.all_eq_true.mp hnowin p hp
    intro hcon
    simp only [hcon, Bool.not_true] at h1
    exact Bool.false_ne_true h1
  rw [hf, if_pos hfull]

/-! ### Assembly step for the exhaustive safety run: with no winner yet, an
opponent turn is safe as soon as every reply cell leads to a safe
position. -/

theorem safePlayFast_opp_step (fuel : Nat) (xm om : Nat)
    (hcw : checkWinnerFast xm om = none)
    (hrec : ∀ i, i < 9 → (xm ||| om).testBit i = false →
      safePlayFast fuel false (xm + 2 ^ i) om = true) :
    safePlayFast (fuel + 1) true xm om = true := by
  rw [safePlayFast, hcw]
  show ((List.range 9).all fun i =>
    if (xm ||| om).testBit i = true then true
    else safePlayFast fuel false (xm + 2 ^ i) om) = true
  rw [List.all_eq_true]
  intro i hi
  have hi9 : i < 9 := List.mem_range.mp hi
  by_cases hbit : (xm ||| om).testBit i = true
  · rw [if_pos hbit]
  · rw [if_neg hbit]
    exact hrec i hi9 (Bool.of_not_eq_true hbit)

/-! ## The claims -/

/-- C2: the spec's eviction scenario is dead code.  Along every valid move
sequence from the reset state the history length equals the occupied-cell
count, which equals the number of moves made, and at most 9 valid moves
exist in total: nine valid moves fill the board (witnessed by the concrete
sequence 0..8), after which no cell is Empty, so no valid 10th `applyMove`
exists and the "10th move evicts the 1st move's cell" behaviour — and with
it the advertised infinite gameplay — is unreachable. -/
theorem eviction_unreachable :
    (∀ (moves : List Nat), validSeqB initialState moves = true →
      (runMoves initialState moves).moveHistory.length = moves.length ∧
      occupiedCount (runMoves initialState moves).board = moves.length ∧
      moves.length ≤ 9) ∧
    validSeqB initialState [0, 1, 2, 3, 4, 5, 6, 7, 8] = true ∧
    ((List.range 9).all fun i =>
      !validMoveB (runMoves initialState [0, 1, 2, 3, 4, 5, 6, 7, 8]) i) = true := by
  refine ⟨?_, by decide, by decide⟩
  intro moves hv
  obtain ⟨g9, _, ghist, gocc⟩ := validSeq_invariant moves initialState
    (by decide) (by decide) (by decide) (by decide) hv
  have hle := occupiedCount_le (runMoves initialState moves).board
  rw [g9] at hle
  have hocc0 : occupiedCount initialState.board = 0 := by decide
  rw [hocc0] at gocc
  refine ⟨?_, ?_, ?_⟩
  · rw [ghist, gocc]
    omega
  · omega
  · omega

/-- C3 counterexample: a full board on which no line is completed, for
which `checkGameStatus` reports `none` (game still running) instead of the
draw the spec promises. -/
theorem checkGameStatus_full_no_draw :
    checkGameStatus [Mark.X, Mark.O, Mark.X, Mark.X, Mark.O, Mark.O,
      Mark.O, Mark.X, Mark.X] = none ∧
    ([Mark.X, Mark.O, Mark.X, Mark.X, Mark.O, Mark.O, Mark.O, Mark.X,
      Mark.X].all fun c => decide (c ≠ Mark.Empty)) = true := by
  decide

/-- C3 (amended): `checkGameStatus` has no draw branch at all — it returns
`none` exactly when no winning pattern is completed, regardless of whether
Empty cells remain (the second half of the claim, `InProgress` when a cell
is Empty and no line wins, is subsumed: fullness plays no role). -/
theorem checkGameStatus_none_iff (board : Board) :
    checkGameStatus board = none ↔
      (winPatterns.all fun p => !winsAt board p.1 p.2.1 p.2.2) = true := by
  constructor
  · intro hnone
    rw [List.all_eq_true]
    intro p hp
    cases hq : winsAt board p.1 p.2.1 p.2.2 with
    | false => rfl
    | true =>
      exfalso
      have hfs : ∃ q, winPatterns.find?
          (fun q => winsAt board q.1 q.2.1 q.2.2) = some q := by
        cases hf : winPatterns.find? (fun q => winsAt board q.1 q.2.1 q.2.2) with
        | some q => exact ⟨q, rfl⟩
        | none => exact absurd hq (List.find?_eq_none.mp hf p hp)
      obtain ⟨q, hf⟩ := hfs
      have hqw : winsAt board q.1 q.2.1 q.2.2 = true :=
        List.find?_some (p := fun q : Nat × Nat × Nat => winsAt board q.1 q.2.1 q.2.2) hf
      rw [winsAt] at hqw
      cases hg : board.get? q.1 with
      | none =>
        rw [hg] at hqw
        cases hqw
      | some m =>
        rw [checkGameStatus, hf] at hnone
        have h2 : (match board.get? q.1 with
          | some m => some (m, q)
          | none => none) = none := hnone
        rw [hg] at h2
        cases h2
  · intro hall
    have hf : winPatterns.find? (fun p => winsAt board p.1 p.2.1 p.2.2) = none := by
      rw [List.find?_eq_none]
      intro p hp
      have h1 := List.all_eq_true.mp hall p hp
      intro hcon
      simp only [hcon, Bool.not_true] at h1
      exact Bool.false_ne_true h1
    rw [checkGameStatus, hf]

/-- C4 counterexample: an invalid move is not signaled.  `makeMove` called
directly on an occupied cell silently overwrites it (cell 0 flips from `X`
to `O`), and `handleCellClick` on an occupied cell returns the state
unchanged without any error — the click is silently ignored, not signaled
as `InvalidMove`. -/
theorem invalid_move_not_signaled :
    (makeMove (makeMove initialState 0) 0).board.get? 0 = some Mark.O ∧
    handleCellClick { initialState with board := initialState.board.set 0 Mark.O } 0
      = { initialState with board := initialState.board.set 0 Mark.O } := by
  decide

/-- C4 (amended): a click on an out-of-range index or a non-Empty cell is
silently ignored — `handleCellClick` returns the state unchanged (board and
history included); no error value exists anywhere in the flow, and the
unguarded `makeMove` does not validate at all. -/
theorem handleCellClick_invalid_ignored (s : GameState) (i : Nat)
    (h : ¬(s.board.get? i = some Mark.Empty)) : handleCellClick s i = s := by
  rw [handleCellClick]
  by_cases hp : s.isProcessing = true
  · rw [if_pos hp]
  · rw [if_neg hp, if_pos h]

/-- C4 witness: the amended theorem applied to a click on the occupied
cell 0. -/
theorem handleCellClick_invalid_ignored_witness :
    handleCellClick { initialState with board := initialState.board.set 0 Mark.X } 0
      = { initialState with board := initialState.board.set 0 Mark.X } :=
  handleCellClick_invalid_ignored
    { initialState with board := initialState.board.set 0 Mark.X } 0 (by decide)

/-- C5: terminal scoring of `minimax` — whenever `checkWinner` settles the
board, it returns `10 - depth` when the winner is `aiPlayer`, `depth - 10`
when the winner is `humanPlayer` (the two being distinct marks), and `0`
on a full board with no completed line (the draw), at any fuelled turn and
alpha-beta window. -/
theorem minimax_terminal_scoring (A : TicTacToeAI) (b : Board) (d : Int)
    (m : Bool) (al be : Int) :
    (checkWinner b = some (WinResult.mark A.aiPlayer) →
      (A.minimax b d m al be).1 = 10 - d) ∧
    (A.humanPlayer ≠ A.aiPlayer →
      checkWinner b = some (WinResult.mark A.humanPlayer) →
      (A.minimax b d m al be).1 = d - 10) ∧
    ((b.all fun c => decide (c ≠ Mark.Empty)) = true →
      (winPatterns.all fun p => !winsAt b p.1 p.2.1 p.2.2) = true →
      (A.minimax b d m al be).1 = 0) := by
  refine ⟨?_, ?_, ?_⟩
  · intro h
    rw [TicTacToeAI.minimax, minimaxAux_terminal A 9 b d m al be _ h]
    show (if A.aiPlayer = A.aiPlayer then 10 - d
      else if A.aiPlayer = A.humanPlayer then d - 10 else 0) = 10 - d
    rw [if_pos rfl]
  · intro hne h
    rw [TicTacToeAI.minimax, minimaxAux_terminal A 9 b d m al be _ h]
    show (if A.humanPlayer = A.aiPlayer then 10 - d
      else if A.humanPlayer = A.humanPlayer then d - 10 else 0) = d - 10
    rw [if_neg hne, if_pos rfl]
  · intro hfull hnowin
    rw [TicTacToeAI.minimax, minimaxAux_terminal A 9 b d m al be _
      (checkWinner_draw_of_full b hfull hnowin)]
    rfl

/-- C5 witness: the three terminal scores on concrete boards — an `O` win
at depth 2 scores `8`, an `X` win at depth 3 scores `-7`, a full drawn
board scores `0`. -/
theorem minimax_terminal_scoring_witness :
    (aiInstance.minimax [Mark.O, Mark.O, Mark.O, Mark.X, Mark.X, Mark.Empty,
      Mark.Empty, Mark.Empty, Mark.Empty] 2 false negInf posInf).1 = 8 ∧
    (aiInstance.minimax [Mark.X, Mark.X, Mark.X, Mark.O, Mark.O, Mark.Empty,
      Mark.Empty, Mark.Empty, Mark.Empty] 3 true negInf posInf).1 = -7 ∧
    (aiInstance.minimax [Mark.X, Mark.O, Mark.X, Mark.X, Mark.O, Mark.O,
      Mark.O, Mark.X, Mark.X] 4 false negInf posInf).1 = 0 := by
  refine ⟨?_, ?_, ?_⟩
  · rw [(minimax_terminal_scoring aiInstance [Mark.O, Mark.O, Mark.O, Mark.X,
      Mark.X, Mark.Empty, Mark.Empty, Mark.Empty, Mark.Empty] 2 false negInf
      posInf).1 (by decide)]
    decide
  · rw [(minimax_terminal_scoring aiInstance [Mark.X, Mark.X, Mark.X, Mark.O,
      Mark.O, Mark.Empty, Mark.Empty, Mark.Empty, Mark.Empty] 3 true negInf
      posInf).2.1 (by decide) (by decide)]
    decide
  · exact (minimax_terminal_scoring aiInstance [Mark.X, Mark.O, Mark.X, Mark.X,
      Mark.O, Mark.O, Mark.O, Mark.X, Mark.X] 4 false negInf
      posInf).2.2 (by decide) (by decide)

/-- C6: on any 9-cell board with an Empty cell, `getBestMove` returns an
Empty cell whose minimax score is maximal among the Empty cells and which
is the first cell attaining that maximum in the left-to-right scan: every
earlier Empty cell scores strictly less (`score > bestScore`, not `>=`). -/
theorem getBestMove_first_argmax (A : TicTacToeAI) (board : Board)
    (h9 : board.length = 9) (hne : emptyCells board ≠ []) :
    ∃ k ∈ emptyCells board, (A.getBestMove board).1 = Int.ofNat k ∧
      (∀ j ∈ emptyCells board, childScore A board j ≤ childScore A board k) ∧
      (∀ j ∈ emptyCells board, j < k →
        childScore A board j < childScore A board k) :=
  getBestMove_argmax A board h9 hne

/-- C6 witness: the first-argmax characterisation instantiated on a
concrete board with a single Empty cell. -/
theorem getBestMove_first_argmax_witness :
    ∃ k ∈ emptyCells [Mark.X, Mark.O, Mark.X, Mark.X, Mark.O, Mark.O,
      Mark.O, Mark.X, Mark.Empty],
      (aiInstance.getBestMove [Mark.X, Mark.O, Mark.X, Mark.X, Mark.O, Mark.O,
        Mark.O, Mark.X, Mark.Empty]).1 = Int.ofNat k ∧
      (∀ j ∈ emptyCells [Mark.X, Mark.O, Mark.X, Mark.X, Mark.O, Mark.O,
        Mark.O, Mark.X, Mark.Empty],
        childScore aiInstance [Mark.X, Mark.O, Mark.X, Mark.X, Mark.O, Mark.O,
          Mark.O, Mark.X, Mark.Empty] j ≤
        childScore aiInstance [Mark.X, Mark.O, Mark.X, Mark.X, Mark.O, Mark.O,
          Mark.O, Mark.X, Mark.Empty] k) ∧
      (∀ j ∈ emptyCells [Mark.X, Mark.O, Mark.X, Mark.X, Mark.O, Mark.O,
        Mark.O, Mark.X, Mark.Empty], j < k →
        childScore aiInstance [Mark.X, Mark.O, Mark.X, Mark.X, Mark.O, Mark.O,
          Mark.O, Mark.X, Mark.Empty] j <
        childScore aiInstance [Mark.X, Mark.O, Mark.X, Mark.X, Mark.O, Mark.O,
          Mark.O, Mark.X, Mark.Empty] k) :=
  getBestMove_first_argmax aiInstance [Mark.X, Mark.O, Mark.X, Mark.X, Mark.O,
    Mark.O, Mark.O, Mark.X, Mark.Empty] (by decide) (by decide)

/-- C7: when some Empty cell completes a winning line for `aiPlayer`,
`getMediumMove` returns the smallest such cell — its own win is taken
before any block, and every smaller index fails the win test. -/
theorem getMediumMove_wins_first (A : TicTacToeAI) (pick : Nat) (board : Board)
    (hex : ∃ i, i < 9 ∧ (decide (board.get? i = some Mark.Empty) &&
      decide (checkWinner (board.set i A.aiPlayer) =
        some (WinResult.mark A.aiPlayer))) = true) :
    ∃ k, (A.getMediumMove pick board).1 = some k ∧
      board.get? k = some Mark.Empty ∧
      checkWinner (board.set k A.aiPlayer) = some (WinResult.mark A.aiPlayer) ∧
      ∀ j, j < k → (decide (board.get? j = some Mark.Empty) &&
        decide (checkWinner (board.set j A.aiPlayer) =
          some (WinResult.mark A.aiPlayer))) = false := by
  obtain ⟨i, hi9, hp⟩ := hex
  have hsome : ((List.range 9).find? (fun i =>
      decide (board.get? i = some Mark.Empty) &&
      decide (checkWinner (board.set i A.aiPlayer) =
        some (WinResult.mark A.aiPlayer)))).isSome = true := by
    rw [List.find?_isSome]
    exact ⟨i, List.mem_range.mpr hi9, hp⟩
  obtain ⟨k, hk⟩ := Option.isSome_iff_exists.mp hsome
  obtain ⟨hpk, hkmem, hfirst⟩ := find?_sorted_first (List.range 9) (by decide) k hk
  have hk9 : k < 9 := List.mem_range.mp hkmem
  have h2 : (decide (board.get? k = some Mark.Empty) &&
      decide (checkWinner (board.set k A.aiPlayer) =
        some (WinResult.mark A.aiPlayer))) = true := hpk
  have h3 : decide (board.get? k = some Mark.Empty) = true ∧
      decide (checkWinner (board.set k A.aiPlayer) =
        some (WinResult.mark A.aiPlayer)) = true := by
    rw [Bool.and_eq_true] at h2
    exact h2
  obtain ⟨hd1, hd2⟩ := h3
  refine ⟨k, getMediumMove_win_found A pick board k hk,
    of_decide_eq_true hd1, of_decide_eq_true hd2, ?_⟩
  intro j hj
  exact hfirst j (List.mem_range.mpr (by omega)) hj

/-- C7 witness: on `[X, X, Empty, O, O, Empty, Empty, Empty, Empty]` with
`aiPlayer = O` the winning cell exists and `getMediumMove` returns `some 5`
(completing its own row 3-4-5), not 2 (blocking X). -/
theorem getMediumMove_wins_first_witness :
    (∃ k, (aiInstance.getMediumMove 0 [Mark.X, Mark.X, Mark.Empty, Mark.O,
        Mark.O, Mark.Empty, Mark.Empty, Mark.Empty, Mark.Empty]).1 = some k ∧
      [Mark.X, Mark.X, Mark.Empty, Mark.O, Mark.O, Mark.Empty, Mark.Empty,
        Mark.Empty, Mark.Empty].get? k = some Mark.Empty ∧
      checkWinner ([Mark.X, Mark.X, Mark.Empty, Mark.O, Mark.O, Mark.Empty,
        Mark.Empty, Mark.Empty, Mark.Empty].set k aiInstance.aiPlayer) =
        some (WinResult.mark aiInstance.aiPlayer) ∧
      ∀ j, j < k → (decide ([Mark.X, Mark.X, Mark.Empty, Mark.O, Mark.O,
          Mark.Empty, Mark.Empty, Mark.Empty, Mark.Empty].get? j =
          some Mark.Empty) &&
        decide (checkWinner ([Mark.X, Mark.X, Mark.Empty, Mark.O, Mark.O,
          Mark.Empty, Mark.Empty, Mark.Empty, Mark.Empty].set j
            aiInstance.aiPlayer) =
          some (WinResult.mark aiInstance.aiPlayer))) = false) ∧
    (aiInstance.getMediumMove 0 [Mark.X, Mark.X, Mark.Empty, Mark.O, Mark.O,
      Mark.Empty, Mark.Empty, Mark.Empty, Mark.Empty]).1 = some 5 :=
  ⟨getMediumMove_wins_first aiInstance 0 [Mark.X, Mark.X, Mark.Empty, Mark.O,
      Mark.O, Mark.Empty, Mark.Empty, Mark.Empty, Mark.Empty]
      ⟨5, by decide, by decide⟩,
    by decide⟩

/-- C8: snapshot purity — `getBestMove` and `getMediumMove` return the very
board they received: every hypothetical placement made during evaluation,
including those cut short by alpha-beta pruning and early returns, is
undone (the threaded board of the embedding makes each placement and its
undo explicit). -/
theorem selectors_preserve_board :
    (∀ (A : TicTacToeAI) (board : Board), (A.getBestMove board).2 = board) ∧
    (∀ (A : TicTacToeAI) (pick : Nat) (board : Board),
      (A.getMediumMove pick board).2 = board) :=
  ⟨getBestMove_board, getMediumMove_board⟩

/-- C9 counterexample: on a full board the random strategy and its
`getMediumMove` caller yield `none` — the JS `undefined` of indexing an
empty `emptyCells` array — rather than signaling any error. -/
theorem full_board_random_move_undefined :
    aiInstance.getRandomMove 0 [Mark.X, Mark.O, Mark.X, Mark.X, Mark.O,
      Mark.O, Mark.O, Mark.X, Mark.X] = none ∧
    (aiInstance.getMediumMove 0 [Mark.X, Mark.O, Mark.X, Mark.X, Mark.O,
      Mark.O, Mark.O, Mark.X, Mark.X]).1 = none := by
  decide

/-- C9 (amended): with zero Empty cells, `getRandomMove` — and
`getMediumMove` falling back to it — returns `undefined` (`none`): no
`EmptyBoardRequestedMove` error exists; the caller receives an out-of-range
array read's result instead of a signal. -/
theorem no_empty_returns_none (A : TicTacToeAI) (pick : Nat) (board : Board)
    (hno : emptyCells board = []) :
    A.getRandomMove pick board = none ∧ (A.getMediumMove pick board).1 = none :=
  ⟨getRandomMove_no_empty A pick board hno,
    getMediumMove_no_empty A pick board hno⟩

/-- C9 witness: the amended theorem applied to another full board and a
nonzero random pick. -/
theorem no_empty_returns_none_witness :
    aiInstance.getRandomMove 3 [Mark.O, Mark.X, Mark.O, Mark.O, Mark.X,
      Mark.X, Mark.X, Mark.O, Mark.O] = none ∧
    (aiInstance.getMediumMove 3 [Mark.O, Mark.X, Mark.O, Mark.O, Mark.X,
      Mark.X, Mark.X, Mark.O, Mark.O]).1 = none :=
  no_empty_returns_none aiInstance 3 [Mark.O, Mark.X, Mark.O, Mark.O, Mark.X,
    Mark.X, Mark.X, Mark.O, Mark.O] (by decide)

/-- C10: `getBestMove` returns the sentinel `-1` exactly when the board has
no Empty cell; otherwise it returns (the `Int` image of) an Empty cell's
index in 0-8, which is what the caller's `aiMove !== -1 &&
board[aiMove] === ''` guard relies on. -/
theorem getBestMove_sentinel (A : TicTacToeAI) (board : Board)
    (h9 : board.length = 9) :
    ((A.getBestMove board).1 = -1 ↔ emptyCells board = []) ∧
    (emptyCells board ≠ [] →
      ∃ k, k < 9 ∧ board.get? k = some Mark.Empty ∧
        (A.getBestMove board).1 = Int.ofNat k) := by
  constructor
  · constructor
    · intro hres
      by_contra hne
      obtain ⟨k, _, hkr, _⟩ := getBestMove_argmax A board h9 hne
      rw [hkr] at hres
      have hk0 : (0 : Int) ≤ Int.ofNat k := Int.ofNat_nonneg k
      omega
    · intro hno
      exact getBestMove_no_empty A board hno
  · intro hne
    obtain ⟨k, hk, hkr, _⟩ := getBestMove_argmax A board h9 hne
    have hm := (mem_emptyCells board k).mp hk
    exact ⟨k, hm.1, hm.2, hkr⟩

/-- C10 witness: the sentinel characterisation instantiated on a concrete
board with one Empty cell. -/
theorem getBestMove_sentinel_witness :
    ((aiInstance.getBestMove [Mark.X, Mark.O, Mark.X, Mark.X, Mark.O, Mark.O,
      Mark.O, Mark.X, Mark.Empty]).1 = -1 ↔
      emptyCells [Mark.X, Mark.O, Mark.X, Mark.X, Mark.O, Mark.O, Mark.O,
        Mark.X, Mark.Empty] = []) ∧
    (emptyCells [Mark.X, Mark.O, Mark.X, Mark.X, Mark.O, Mark.O, Mark.O,
        Mark.X, Mark.Empty] ≠ [] →
      ∃ k, k < 9 ∧ [Mark.X, Mark.O, Mark.X, Mark.X, Mark.O, Mark.O, Mark.O,
        Mark.X, Mark.Empty].get? k = some Mark.Empty ∧
        (aiInstance.getBestMove [Mark.X, Mark.O, Mark.X, Mark.X, Mark.O,
          Mark.O, Mark.O, Mark.X, Mark.Empty]).1 = Int.ofNat k) :=
  getBestMove_sentinel aiInstance [Mark.X, Mark.O, Mark.X, Mark.X, Mark.O,
    Mark.O, Mark.O, Mark.X, Mark.Empty] (by decide)

/-! ### Unrolled mirror of the fast evaluator.  The recursive fast
definitions above pay, at every call, the kernel's cost of re-deriving
their course-of-values recursion over a list or fuel value that is in fact
always concrete.  The definitions below unroll those recursions into plain
non-recursive definitions (one per fuel level, one step per cell), proven
pointwise equal, so the exhaustive safety computation can be checked by the
kernel at a fraction of the cost. -/

def scanWinM : List Nat → Nat → Nat → Option WinResult → Option WinResult
  | [], _, _, dflt => dflt
  | pm :: rest, xm, om, dflt =>
    bif pm &&& xm == pm then some (WinResult.mark Mark.X)
    else bif pm &&& om == pm then some (WinResult.mark Mark.O)
    else scanWinM rest xm om dflt

theorem match_scanWin : ∀ (L : List Nat) (xm om : Nat) (dflt : Option WinResult),
    (match scanWin L xm om with
     | some m => some (WinResult.mark m)
     | none => dflt) = scanWinM L xm om dflt := by
  intro L
  induction L with
  | nil => intro xm om dflt; rfl
  | cons pm rest ih =>
    intro xm om dflt
    rw [scanWin, scanWinM]
    cases hcx : (pm &&& xm == pm) with
    | true => simp only [hcx, Bool.cond_true]
    | false =>
      simp only [hcx, Bool.cond_false]
      cases hco : (pm &&& om == pm) with
      | true => simp only [hco, Bool.cond_true]
      | false =>
        simp only [hco, Bool.cond_false]
        exact ih xm om dflt

def checkWinnerFastU (xm om : Nat) : Option WinResult :=
  bif 7 &&& xm == 7 then some (WinResult.mark Mark.X)
  else bif 7 &&& om == 7 then some (WinResult.mark Mark.O)
  else bif 56 &&& xm == 56 then some (WinResult.mark Mark.X)
  else bif 56 &&& om == 56 then some (WinResult.mark Mark.O)
  else bif 448 &&& xm == 448 then some (WinResult.mark Mark.X)
  else bif 448 &&& om == 448 then some (WinResult.mark Mark.O)
  else bif 73 &&& xm == 73 then some (WinResult.mark Mark.X)
  else bif 73 &&& om == 73 then some (WinResult.mark Mark.O)
  else bif 146 &&& xm == 146 then some (WinResult.mark Mark.X)
  else bif 146 &&& om == 146 then some (WinResult.mark Mark.O)
  else bif 292 &&& xm == 292 then some (WinResult.mark Mark.X)
  else bif 292 &&& om == 292 then some (WinResult.mark Mark.O)
  else bif 273 &&& xm == 273 then some (WinResult.mark Mark.X)
  else bif 273 &&& om == 273 then some (WinResult.mark Mark.O)
  else bif 84 &&& xm == 84 then some (WinResult.mark Mark.X)
  else bif 84 &&& om == 84 then some (WinResult.mark Mark.O)
  else bif (xm ||| om) == 511 then some WinResult.draw else none

theorem cwU_eq (xm om : Nat) : checkWinnerFast xm om = checkWinnerFastU xm om := by
  rw [checkWinnerFast]
  exact (match_scanWin winMasks xm om _).trans rfl

def lmaxStep (xm : Nat) (step : Nat → Int → Int → Int) (om : Nat) (be : Int)
    (i : Nat) (cont : Int → Int → Int) (ms al : Int) : Int :=
  if (xm ||| om).testBit i = true then cont ms al
  else
    let s := step (om + 2 ^ i) al be
    if be ≤ max al s then max s ms
    else cont (max s ms) (max al s)

def lminStep (om : Nat) (step : Nat → Int → Int → Int) (xm : Nat) (al : Int)
    (i : Nat) (cont : Int → Int → Int) (ms be : Int) : Int :=
  if (xm ||| om).testBit i = true then cont ms be
  else
    let s := step (xm + 2 ^ i) al be
    if min be s ≤ al then min s ms
    else cont (min s ms) (min be s)

def lmaxU (xm : Nat) (step : Nat → Int → Int → Int) (om : Nat)
    (ms al be : Int) : Int :=
  lmaxStep xm step om be 0 (fun ms al => lmaxStep xm step om be 1 (fun ms al => lmaxStep xm step om be 2 (fun ms al => lmaxStep xm step om be 3 (fun ms al => lmaxStep xm step om be 4 (fun ms al => lmaxStep xm step om be 5 (fun ms al => lmaxStep xm step om be 6 (fun ms al => lmaxStep xm step om be 7 (fun ms al => lmaxStep xm step om be 8 (fun ms _al => ms) ms al) ms al) ms al) ms al) ms al) ms al) ms al) ms al) ms al

def lminU (om : Nat) (step : Nat → Int → Int → Int) (xm : Nat)
    (ms al be : Int) : Int :=
  lminStep om step xm al 0 (fun ms be => lminStep om step xm al 1 (fun ms be => lminStep om step xm al 2 (fun ms be => lminStep om step xm al 3 (fun ms be => lminStep om step xm al 4 (fun ms be => lminStep om step xm al 5 (fun ms be => lminStep om step xm al 6 (fun ms be => lminStep om step xm al 7 (fun ms be => lminStep om step xm al 8 (fun ms _be => ms) ms be) ms be) ms be) ms be) ms be) ms be) ms be) ms be) ms be

theorem lmax_chain (xm : Nat) (step1 step2 : Nat → Int → Int → Int) (om : Nat)
    (be : Int) (hstep : ∀ o a b, step1 o a b = step2 o a b)
    (is : List Nat) (cont : Int → Int → Int)
    (hcont : ∀ ms al, fastLoopMax xm step1 is om ms al be = cont ms al)
    (i : Nat) (ms al : Int) :
    fastLoopMax xm step1 (i :: is) om ms al be =
      lmaxStep xm step2 om be i cont ms al := by
  rw [fastLoopMax, lmaxStep]
  by_cases hbit : (xm ||| om).testBit i = true
  · rw [if_pos hbit, if_pos hbit, hcont]
  · rw [if_neg hbit, if_neg hbit]
    simp only []
    rw [hstep (om + 2 ^ i) al be]
    by_cases hp : be ≤ max al (step2 (om + 2 ^ i) al be)
    · rw [if_pos hp, if_pos hp]
    · rw [if_neg hp, if_neg hp, hcont]

theorem lmin_chain (om : Nat) (step1 step2 : Nat → Int → Int → Int) (xm : Nat)
    (al : Int) (hstep : ∀ o a b, step1 o a b = step2 o a b)
    (is : List Nat) (cont : Int → Int → Int)
    (hcont : ∀ ms be, fastLoopMin om step1 is xm ms al be = cont ms be)
    (i : Nat) (ms be : Int) :
    fastLoopMin om step1 (i :: is) xm ms al be =
      lminStep om step2 xm al i cont ms be := by
  rw [fastLoopMin, lminStep]
  by_cases hbit : (xm ||| om).testBit i = true
  · rw [if_pos hbit, if_pos hbit, hcont]
  · rw [if_neg hbit, if_neg hbit]
    simp only []
    rw [hstep (xm + 2 ^ i) al be]
    by_cases hp : min be (step2 (xm + 2 ^ i) al be) ≤ al
    · rw [if_pos hp, if_pos hp]
    · rw [if_neg hp, if_neg hp, hcont]

theorem lmaxU_eq (xm : Nat) (step1 step2 : Nat → Int → Int → Int)
    (hstep : ∀ o a b, step1 o a b = step2 o a b) (om : Nat) (ms al be : Int) :
    fastLoopMax xm step1 (List.range 9) om ms al be = lmaxU xm step2 om ms al be := by
  have h9 : ∀ (ms al : Int), fastLoopMax xm step1 [] om ms al be =
      (fun (ms : Int) (_al : Int) => ms) ms al := fun _ _ => rfl
  have h8 := fun (ms al : Int) => lmax_chain xm step1 step2 om be hstep [] _ h9 8 ms al
  have h7 := fun (ms al : Int) => lmax_chain xm step1 step2 om be hstep [8] _ h8 7 ms al
  have h6 := fun (ms al : Int) => lmax_chain xm step1 step2 om be hstep [7, 8] _ h7 6 ms al
  have h5 := fun (ms al : Int) => lmax_chain xm step1 step2 om be hstep [6, 7, 8] _ h6 5 ms al
  have h4 := fun (ms al : Int) => lmax_chain xm step1 step2 om be hstep [5, 6, 7, 8] _ h5 4 ms al
  have h3 := fun (ms al : Int) => lmax_chain xm step1 step2 om be hstep [4, 5, 6, 7, 8] _ h4 3 ms al
  have h2 := fun (ms al : Int) => lmax_chain xm step1 step2 om be hstep [3, 4, 5, 6, 7, 8] _ h3 2 ms al
  have h1 := fun (ms al : Int) => lmax_chain xm step1 step2 om be hstep [2, 3, 4, 5, 6, 7, 8] _ h2 1 ms al
  have h0 := fun (ms al : Int) => lmax_chain xm step1 step2 om be hstep [1, 2, 3, 4, 5, 6, 7, 8] _ h1 0 ms al
  show fastLoopMax xm step1 [0, 1, 2, 3, 4, 5, 6, 7, 8] om ms al be = lmaxU xm step2 om ms al be
  exact h0 ms al

theorem lminU_eq (om : Nat) (step1 step2 : Nat → Int → Int → Int)
    (hstep : ∀ o a b, step1 o a b = step2 o a b) (xm : Nat) (ms al be : Int) :
    fastLoopMin om step1 (List.range 9) xm ms al be = lminU om step2 xm ms al be := by
  have h9 : ∀ (ms be : Int), fastLoopMin om step1 [] xm ms al be =
      (fun (ms : Int) (_be : Int) => ms) ms be := fun _ _ => rfl
  have h8 := fun (ms be : Int) => lmin_chain om step1 step2 xm al hstep [] _ h9 8 ms be
  have h7 := fun (ms be : Int) => lmin_chain om step1 step2 xm al hstep [8] _ h8 7 ms be
  have h6 := fun (ms be : Int) => lmin_chain om step1 step2 xm al hstep [7, 8] _ h7 6 ms be
  have h5 := fun (ms be : Int) => lmin_chain om step1 step2 xm al hstep [6, 7, 8] _ h6 5 ms be
  have h4 := fun (ms be : Int) => lmin_chain om step1 step2 xm al hstep [5, 6, 7, 8] _ h5 4 ms be
  have h3 := fun (ms be : Int) => lmin_chain om step1 step2 xm al hstep [4, 5, 6, 7, 8] _ h4 3 ms be
  have h2 := fun (ms be : Int) => lmin_chain om step1 step2 xm al hstep [3, 4, 5, 6, 7, 8] _ h3 2 ms be
  have h1 := fun (ms be : Int) => lmin_chain om step1 step2 xm al hstep [2, 3, 4, 5, 6, 7, 8] _ h2 1 ms be
  have h0 := fun (ms be : Int) => lmin_chain om step1 step2 xm al hstep [1, 2, 3, 4, 5, 6, 7, 8] _ h1 0 ms be
  show fastLoopMin om step1 [0, 1, 2, 3, 4, 5, 6, 7, 8] xm ms al be = lminU om step2 xm ms al be
  exact h0 ms be

def mmU0 (xm om : Nat) (depth : Int) (_m : Bool) (_al _be : Int) : Int :=
  match checkWinnerFastU xm om with
  | some r => terminalScore aiInstance r depth
  | none => 0

def mmU1 (xm om : Nat) (depth : Int) (m : Bool) (al be : Int) : Int :=
  match checkWinnerFastU xm om with
  | some r => terminalScore aiInstance r depth
  | none =>
    if m then
      lmaxU xm (fun om2 a b => mmU0 xm om2 (depth + 1) false a b) om negInf al be
    else
      lminU om (fun xm2 a b => mmU0 xm2 om (depth + 1) true a b) xm posInf al be

def mmU2 (xm om : Nat) (depth : Int) (m : Bool) (al be : Int) : Int :=
  match checkWinnerFastU xm om with
  | some r => terminalScore aiInstance r depth
  | none =>
    if m then
      lmaxU xm (fun om2 a b => mmU1 xm om2 (depth + 1) false a b) om negInf al be
    else
      lminU om (fun xm2 a b => mmU1 xm2 om (depth + 1) true a b) xm posInf al be

def mmU3 (xm om : Nat) (depth : Int) (m : Bool) (al be : Int) : Int :=
  match checkWinnerFastU xm om with
  | some r => terminalScore aiInstance r depth
  | none =>
    if m then
      lmaxU xm (fun om2 a b => mmU2 xm om2 (depth + 1) false a b) om negInf al be
    else
      lminU om (fun xm2 a b => mmU2 xm2 om (depth + 1) true a b) xm posInf al be

def mmU4 (xm om : Nat) (depth : Int) (m : Bool) (al be : Int) : Int :=
  match checkWinnerFastU xm om with
  | some r => terminalScore aiInstance r depth
  | none =>
    if m then
      lmaxU xm (fun om2 a b => mmU3 xm om2 (depth + 1) false a b) om negInf al be
    else
      lminU om (fun xm2 a b => mmU3 xm2 om (depth + 1) true a b) xm posInf al be

def mmU5 (xm om : Nat) (depth : Int) (m : Bool) (al be : Int) : Int :=
  match checkWinnerFastU xm om with
  | some r => terminalScore aiInstance r depth
  | none =>
    if m then
      lmaxU xm (fun om2 a b => mmU4 xm om2 (depth + 1) false a b) om negInf al be
    else
      lminU om (fun xm2 a b => mmU4 xm2 om (depth + 1) true a b) xm posInf al be

def mmU6 (xm om : Nat) (depth : Int) (m : Bool) (al be : Int) : Int :=
  match checkWinnerFastU xm om with
  | some r => terminalScore aiInstance r depth
  | none =>
    if m then
      lmaxU xm (fun om2 a b => mmU5 xm om2 (depth + 1) false a b) om negInf al be
    else
      lminU om (fun xm2 a b => mmU5 xm2 om (depth + 1) true a b) xm posInf al be

def mmU7 (xm om : Nat) (depth : Int) (m : Bool) (al be : Int) : Int :=
  match checkWinnerFastU xm om with
  | some r => terminalScore aiInstance r depth
  | none =>
    if m then
      lmaxU xm (fun om2 a b => mmU6 xm om2 (depth + 1) false a b) om negInf al be
    else
      lminU om (fun xm2 a b => mmU6 xm2 om (depth + 1) true a b) xm posInf al be

def mmU8 (xm om : Nat) (depth : Int) (m : Bool) (al be : Int) : Int :=
  match checkWinnerFastU xm om with
  | some r => terminalScore aiInstance r depth
  | none =>
    if m then
      lmaxU xm (fun om2 a b => mmU7 xm om2 (depth + 1) false a b) om negInf al be
    else
      lminU om (fun xm2 a b => mmU7 xm2 om (depth + 1) true a b) xm posInf al be

def mmU9 (xm om : Nat) (depth : Int) (m : Bool) (al be : Int) : Int :=
  match checkWinnerFastU xm om with
  | some r => terminalScore aiInstance r depth
  | none =>
    if m then
      lmaxU xm (fun om2 a b => mmU8 xm om2 (depth + 1) false a b) om negInf al be
    else
      lminU om (fun xm2 a b => mmU8 xm2 om (depth + 1) true a b) xm posInf al be

theorem mmU0_eq : ∀ (xm om : Nat) (d : Int) (m : Bool) (al be : Int),
    minimaxFast 0 xm om d m al be = mmU0 xm om d m al be := by
  intro xm om d m al be
  rw [minimaxFast, mmU0, cwU_eq xm om]

theorem mmU1_eq : ∀ (xm om : Nat) (d : Int) (m : Bool) (al be : Int),
    minimaxFast 1 xm om d m al be = mmU1 xm om d m al be := by
  intro xm om d m al be
  show minimaxFast (0 + 1) xm om d m al be = _
  rw [minimaxFast, mmU1, cwU_eq xm om]
  cases hcw : checkWinnerFastU xm om with
  | some r => rfl
  | none =>
    by_cases hm : m = true
    · rw [if_pos hm, if_pos hm]
      exact lmaxU_eq xm _ _ (fun o a b => mmU0_eq xm o (d + 1) false a b) om negInf al be
    · rw [if_neg hm, if_neg hm]
      exact lminU_eq om _ _ (fun x2 a b => mmU0_eq x2 om (d + 1) true a b) xm posInf al be

theorem mmU2_eq : ∀ (xm om : Nat) (d : Int) (m : Bool) (al be : Int),
    minimaxFast 2 xm om d m al be = mmU2 xm om d m al be := by
  intro xm om d m al be
  show minimaxFast (1 + 1) xm om d m al be = _
  rw [minimaxFast, mmU2, cwU_eq xm om]
  cases hcw : checkWinnerFastU xm om with
  | some r => rfl
  | none =>
    by_cases hm : m = true
    · rw [if_pos hm, if_pos hm]
      exact lmaxU_eq xm _ _ (fun o a b => mmU1_eq xm o (d + 1) false a b) om negInf al be
    · rw [if_neg hm, if_neg hm]
      exact lminU_eq om _ _ (fun x2 a b => mmU1_eq x2 om (d + 1) true a b) xm posInf al be

theorem mmU3_eq : ∀ (xm om : Nat) (d : Int) (m : Bool) (al be : Int),
    minimaxFast 3 xm om d m al be = mmU3 xm om d m al be := by
  intro xm om d m al be
  show minimaxFast (2 + 1) xm om d m al be = _
  rw [minimaxFast, mmU3, cwU_eq xm om]
  cases hcw : checkWinnerFastU xm om with
  | some r => rfl
  | none =>
    by_cases hm : m = true
    · rw [if_pos hm, if_pos hm]
      exact lmaxU_eq xm _ _ (fun o a b => mmU2_eq xm o (d + 1) false a b) om negInf al be
    · rw [if_neg hm, if_neg hm]
      exact lminU_eq om _ _ (fun x2 a b => mmU2_eq x2 om (d + 1) true a b) xm posInf al be

theorem mmU4_eq : ∀ (xm om : Nat) (d : Int) (m : Bool) (al be : Int),
    minimaxFast 4 xm om d m al be = mmU4 xm om d m al be := by
  intro xm om d m al be
  show minimaxFast (3 + 1) xm om d m al be = _
  rw [minimaxFast, mmU4, cwU_eq xm om]
  cases hcw : checkWinnerFastU xm om with
  | some r => rfl
  | none =>
    by_cases hm : m = true
    · rw [if_pos hm, if_pos hm]
      exact lmaxU_eq xm _ _ (fun o a b => mmU3_eq xm o (d + 1) false a b) om negInf al be
    · rw [if_neg hm, if_neg hm]
      exact lminU_eq om _ _ (fun x2 a b => mmU3_eq x2 om (d + 1) true a b) xm posInf al be

theorem mmU5_eq : ∀ (xm om : Nat) (d : Int) (m : Bool) (al be : Int),
    minimaxFast 5 xm om d m al be = mmU5 xm om d m al be := by
  intro xm om d m al be
  show minimaxFast (4 + 1) xm om d m al be = _
  rw [minimaxFast, mmU5, cwU_eq xm om]
  cases hcw : checkWinnerFastU xm om with
  | some r => rfl
  | none =>
    by_cases hm : m = true
    · rw [if_pos hm, if_pos hm]
      exact lmaxU_eq xm _ _ (fun o a b => mmU4_eq xm o (d + 1) false a b) om negInf al be
    · rw [if_neg hm, if_neg hm]
      exact lminU_eq om _ _ (fun x2 a b => mmU4_eq x2 om (d + 1) true a b) xm posInf al be

theorem mmU6_eq : ∀ (xm om : Nat) (d : Int) (m : Bool) (al be : Int),
    minimaxFast 6 xm om d m al be = mmU6 xm om d m al be := by
  intro xm om d m al be
  show minimaxFast (5 + 1) xm om d m al be = _
  rw [minimaxFast, mmU6, cwU_eq xm om]
  cases hcw : checkWinnerFastU xm om with
  | some r => rfl
  | none =>
    by_cases hm : m = true
    · rw [if_pos hm, if_pos hm]
      exact lmaxU_eq xm _ _ (fun o a b => mmU5_eq xm o (d + 1) false a b) om negInf al be
    · rw [if_neg hm, if_neg hm]
      exact lminU_eq om _ _ (fun x2 a b => mmU5_eq x2 om (d + 1) true a b) xm posInf al be

theorem mmU7_eq : ∀ (xm om : Nat) (d : Int) (m : Bool) (al be : Int),
    minimaxFast 7 xm om d m al be = mmU7 xm om d m al be := by
  intro xm om d m al be
  show minimaxFast (6 + 1) xm om d m al be = _
  rw [minimaxFast, mmU7, cwU_eq xm om]
  cases hcw : checkWinnerFastU xm om with
  | some r => rfl
  | none =>
    by_cases hm : m = true
    · rw [if_pos hm, if_pos hm]
      exact lmaxU_eq xm _ _ (fun o a b => mmU6_eq xm o (d + 1) false a b) om negInf al be
    · rw [if_neg hm, if_neg hm]
      exact lminU_eq om _ _ (fun x2 a b => mmU6_eq x2 om (d + 1) true a b) xm posInf al be

theorem mmU8_eq : ∀ (xm om : Nat) (d : Int) (m : Bool) (al be : Int),
    minimaxFast 8 xm om d m al be = mmU8 xm om d m al be := by
  intro xm om d m al be
  show minimaxFast (7 + 1) xm om d m al be = _
  rw [minimaxFast, mmU8, cwU_eq xm om]
  cases hcw : checkWinnerFastU xm om with
  | some r => rfl
  | none =>
    by_cases hm : m = true
    · rw [if_pos hm, if_pos hm]
      exact lmaxU_eq xm _ _ (fun o a b => mmU7_eq xm o (d + 1) false a b) om negInf al be
    · rw [if_neg hm, if_neg hm]
      exact lminU_eq om _ _ (fun x2 a b => mmU7_eq x2 om (d + 1) true a b) xm posInf al be

theorem mmU9_eq : ∀ (xm om : Nat) (d : Int) (m : Bool) (al be : Int),
    minimaxFast 9 xm om d m al be = mmU9 xm om d m al be := by
  intro xm om d m al be
  show minimaxFast (8 + 1) xm om d m al be = _
  rw [minimaxFast, mmU9, cwU_eq xm om]
  cases hcw : checkWinnerFastU xm om with
  | some r => rfl
  | none =>
    by_cases hm : m = true
    · rw [if_pos hm, if_pos hm]
      exact lmaxU_eq xm _ _ (fun o a b => mmU8_eq xm o (d + 1) false a b) om negInf al be
    · rw [if_neg hm, if_neg hm]
      exact lminU_eq om _ _ (fun x2 a b => mmU8_eq x2 om (d + 1) true a b) xm posInf al be

def bestLoopU (xm : Nat) : List Nat → Nat → Int → Int → Int
  | [], _om, _bs, bm => bm
  | i :: rest, om, bs, bm =>
    if (xm ||| om).testBit i = true then bestLoopU xm rest om bs bm
    else
      let s := mmU9 xm (om + 2 ^ i) 0 false negInf posInf
      if bs < s then bestLoopU xm rest om s (Int.ofNat i)
      else bestLoopU xm rest om bs bm

theorem bestLoopU_eq (xm : Nat) : ∀ (is : List Nat) (om : Nat) (bs bm : Int),
    fastBestLoop xm is om bs bm = bestLoopU xm is om bs bm := by
  intro is
  induction is with
  | nil => intro om bs bm; rfl
  | cons i rest ih =>
    intro om bs bm
    rw [fastBestLoop, bestLoopU]
    by_cases hbit : (xm ||| om).testBit i = true
    · rw [if_pos hbit, if_pos hbit, ih]
    · rw [if_neg hbit, if_neg hbit]
      simp only []
      rw [mmU9_eq xm (om + 2 ^ i) 0 false negInf posInf]
      by_cases hp : bs < mmU9 xm (om + 2 ^ i) 0 false negInf posInf
      · rw [if_pos hp, if_pos hp, ih]
      · rw [if_neg hp, if_neg hp, ih]

def gbmU (xm om : Nat) : Int := bestLoopU xm (List.range 9) om negInf (-1)

theorem gbmU_eq (xm om : Nat) : getBestMoveFast xm om = gbmU xm om :=
  bestLoopU_eq xm (List.range 9) om negInf (-1)

def safePlayU : Nat → Bool → Nat → Nat → Bool
  | 0, _, _, _ => true
  | fuel + 1, oppTurn, xm, om =>
    match checkWinnerFastU xm om with
    | some (WinResult.mark w) => decide (w ≠ Mark.X)
    | some WinResult.draw => true
    | none =>
      if oppTurn then
        (List.range 9).all fun i =>
          if (xm ||| om).testBit i = true then true
          else safePlayU fuel false (xm + 2 ^ i) om
      else
        let m := gbmU xm om
        decide (m ≠ -1) && decide (m.toNat < 9) && !((xm ||| om).testBit m.toNat)
          && safePlayU fuel true xm (om + 2 ^ m.toNat)

theorem safePlayU_eq : ∀ (fuel : Nat) (t : Bool) (xm om : Nat),
    safePlayFast fuel t xm om = safePlayU fuel t xm om := by
  intro fuel
  induction fuel with
  | zero => intro t xm om; rfl
  | succ f ih =>
    intro t xm om
    rw [safePlayFast, safePlayU, cwU_eq xm om]
    cases hcw : checkWinnerFastU xm om with
    | some r =>
      cases r with
      | mark w => rfl
      | draw => rfl
    | none =>
      by_cases ht : t = true
      · rw [if_pos ht, if_pos ht]
        apply all_congr_mem
        intro i _
        by_cases hbit : (xm ||| om).testBit i = true
        · rw [if_pos hbit, if_pos hbit]
        · rw [if_neg hbit, if_neg hbit, ih]
      · rw [if_neg ht, if_neg ht]
        simp only []
        rw [gbmU_eq xm om, ih]


/-! ### A `Nat`-arithmetic mirror of the unrolled evaluator.  Scores are
shifted by `+1000` into `Nat` (`toN`), cell guards become single
mask-and-test operations, and `max`/`min` become `Nat.ble`-based `mx`/`mn`:
every operation in the hot path is one the kernel evaluates natively.  The
shift is order-faithful on every value the evaluator produces (all scores
are at least `-1000`), which the bound lemmas below establish. -/

def mx (a b : Nat) : Nat := bif Nat.ble a b then b else a

def mn (a b : Nat) : Nat := bif Nat.ble a b then a else b

def toN (s : Int) : Nat := (s + 1000).toNat

theorem ble_true_iff (a b : Nat) : (Nat.ble a b = true) ↔ a ≤ b := by
  rw [Nat.ble_eq]

theorem blt_true_iff (a b : Nat) : (Nat.blt a b = true) ↔ a < b := by
  rw [Nat.blt_eq]

theorem land_pow_eq_zero_iff (n i : Nat) :
    ((n &&& 2 ^ i == 0) = true) ↔ n.testBit i = false := by
  rw [beq_iff_eq]
  constructor
  · intro h
    have h2 := congrArg (fun x => x.testBit i) h
    simp only [Nat.testBit_land, Nat.zero_testBit, Nat.testBit_two_pow_self,
      Bool.and_true] at h2
    exact h2
  · intro h
    apply Nat.eq_of_testBit_eq
    intro j
    rw [Nat.testBit_land, Nat.zero_testBit]
    by_cases hj : j = i
    · subst hj
      rw [h, Bool.false_and]
    · rw [Nat.testBit_two_pow]
      simp [Ne.symm hj]

theorem toN_ble (a b : Int) (ha : -1000 ≤ a) (hb : -1000 ≤ b) :
    (Nat.ble (toN a) (toN b) = true) ↔ a ≤ b := by
  rw [ble_true_iff, toN, toN]
  omega

theorem toN_blt (a b : Int) (ha : -1000 ≤ a) (hb : -1000 ≤ b) :
    (Nat.blt (toN a) (toN b) = true) ↔ a < b := by
  rw [blt_true_iff, toN, toN]
  omega

theorem toN_max (a b : Int) (ha : -1000 ≤ a) (hb : -1000 ≤ b) :
    mx (toN a) (toN b) = toN (max a b) := by
  rw [mx]
  cases hble : Nat.ble (toN a) (toN b) with
  | false =>
    rw [Bool.cond_false]
    have h2 : ¬(toN a ≤ toN b) := by
      intro hcon
      rw [(ble_true_iff _ _).mpr hcon] at hble
      exact Bool.noConfusion hble
    rw [toN, toN] at h2
    rw [toN, toN]
    omega
  | true =>
    rw [Bool.cond_true]
    have h2 := (ble_true_iff _ _).mp hble
    rw [toN, toN] at h2
    rw [toN, toN]
    omega

theorem toN_min (a b : Int) (ha : -1000 ≤ a) (hb : -1000 ≤ b) :
    mn (toN a) (toN b) = toN (min a b) := by
  rw [mn]
  cases hble : Nat.ble (toN a) (toN b) with
  | false =>
    rw [Bool.cond_false]
    have h2 : ¬(toN a ≤ toN b) := by
      intro hcon
      rw [(ble_true_iff _ _).mpr hcon] at hble
      exact Bool.noConfusion hble
    rw [toN, toN] at h2
    rw [toN, toN]
    omega
  | true =>
    rw [Bool.cond_true]
    have h2 := (ble_true_iff _ _).mp hble
    rw [toN, toN] at h2
    rw [toN, toN]
    omega

def lmaxStepN (xm : Nat) (step : Nat → Nat → Nat → Nat) (om : Nat) (be : Nat)
    (bi : Nat) (cont : Nat → Nat → Nat) (ms al : Nat) : Nat :=
  bif (xm ||| om) &&& bi == 0 then
    let s := step (om + bi) al be
    bif Nat.ble be (mx al s) then mx s ms
    else cont (mx s ms) (mx al s)
  else cont ms al

def lminStepN (om : Nat) (step : Nat → Nat → Nat → Nat) (xm : Nat) (al : Nat)
    (bi : Nat) (cont : Nat → Nat → Nat) (ms be : Nat) : Nat :=
  bif (xm ||| om) &&& bi == 0 then
    let s := step (xm + bi) al be
    bif Nat.ble (mn be s) al then mn s ms
    else cont (mn s ms) (mn be s)
  else cont ms be

def lmaxUN (xm : Nat) (step : Nat → Nat → Nat → Nat) (om : Nat)
    (ms al be : Nat) : Nat :=
  lmaxStepN xm step om be (2 ^ 0) (fun ms al => lmaxStepN xm step om be (2 ^ 1) (fun ms al => lmaxStepN xm step om be (2 ^ 2) (fun ms al => lmaxStepN xm step om be (2 ^ 3) (fun ms al => lmaxStepN xm step om be (2 ^ 4) (fun ms al => lmaxStepN xm step om be (2 ^ 5) (fun ms al => lmaxStepN xm step om be (2 ^ 6) (fun ms al => lmaxStepN xm step om be (2 ^ 7) (fun ms al => lmaxStepN xm step om be (2 ^ 8) (fun ms _al => ms) ms al) ms al) ms al) ms al) ms al) ms al) ms al) ms al) ms al

def lminUN (om : Nat) (step : Nat → Nat → Nat → Nat) (xm : Nat)
    (ms al be : Nat) : Nat :=
  lminStepN om step xm al (2 ^ 0) (fun ms be => lminStepN om step xm al (2 ^ 1) (fun ms be => lminStepN om step xm al (2 ^ 2) (fun ms be => lminStepN om step xm al (2 ^ 3) (fun ms be => lminStepN om step xm al (2 ^ 4) (fun ms be => lminStepN om step xm al (2 ^ 5) (fun ms be => lminStepN om step xm al (2 ^ 6) (fun ms be => lminStepN om step xm al (2 ^ 7) (fun ms be => lminStepN om step xm al (2 ^ 8) (fun ms _be => ms) ms be) ms be) ms be) ms be) ms be) ms be) ms be) ms be) ms be

def lmaxLN (xm : Nat) (step : Nat → Nat → Nat → Nat) :
    List Nat → Nat → Nat → Nat → Nat → Nat
  | [], _om, ms, _al, _be => ms
  | i :: rest, om, ms, al, be =>
    bif (xm ||| om) &&& 2 ^ i == 0 then
      let s := step (om + 2 ^ i) al be
      bif Nat.ble be (mx al s) then mx s ms
      else lmaxLN xm step rest om (mx s ms) (mx al s) be
    else lmaxLN xm step rest om ms al be

def lminLN (om : Nat) (step : Nat → Nat → Nat → Nat) :
    List Nat → Nat → Nat → Nat → Nat → Nat
  | [], _xm, ms, _al, _be => ms
  | i :: rest, xm, ms, al, be =>
    bif (xm ||| om) &&& 2 ^ i == 0 then
      let s := step (xm + 2 ^ i) al be
      bif Nat.ble (mn be s) al then mn s ms
      else lminLN om step rest xm (mn s ms) al (mn be s)
    else lminLN om step rest xm ms al be

theorem lmaxLN_cons (xm : Nat) (stepN : Nat → Nat → Nat → Nat) (om be : Nat)
    (is : List Nat) (cont : Nat → Nat → Nat)
    (hcont : ∀ ms al, lmaxLN xm stepN is om ms al be = cont ms al)
    (i : Nat) (ms al : Nat) :
    lmaxLN xm stepN (i :: is) om ms al be =
      lmaxStepN xm stepN om be (2 ^ i) cont ms al := by
  rw [lmaxLN, lmaxStepN]
  cases hbit : ((xm ||| om) &&& 2 ^ i == 0) with
  | false =>
    simp only [Bool.cond_false]
    exact hcont ms al
  | true =>
    simp only [Bool.cond_true]
    cases hp : Nat.ble be (mx al (stepN (om + 2 ^ i) al be)) with
    | false =>
      simp only [hp, Bool.cond_false]
      exact hcont _ _
    | true =>
      simp only [hp, Bool.cond_true]

theorem lminLN_cons (om : Nat) (stepN : Nat → Nat → Nat → Nat) (xm al : Nat)
    (is : List Nat) (cont : Nat → Nat → Nat)
    (hcont : ∀ ms be, lminLN om stepN is xm ms al be = cont ms be)
    (i : Nat) (ms be : Nat) :
    lminLN om stepN (i :: is) xm ms al be =
      lminStepN om stepN xm al (2 ^ i) cont ms be := by
  rw [lminLN, lminStepN]
  cases hbit : ((xm ||| om) &&& 2 ^ i == 0) with
  | false =>
    simp only [Bool.cond_false]
    exact hcont ms be
  | true =>
    simp only [Bool.cond_true]
    cases hp : Nat.ble (mn be (stepN (xm + 2 ^ i) al be)) al with
    | false =>
      simp only [hp, Bool.cond_false]
      exact hcont _ _
    | true =>
      simp only [hp, Bool.cond_true]

theorem lmaxUN_unroll (xm : Nat) (stepN : Nat → Nat → Nat → Nat)
    (om : Nat) (ms al be : Nat) :
    lmaxLN xm stepN [0, 1, 2, 3, 4, 5, 6, 7, 8] om ms al be =
      lmaxUN xm stepN om ms al be := by
  have h9 : ∀ (ms al : Nat), lmaxLN xm stepN [] om ms al be =
      (fun (ms : Nat) (_al : Nat) => ms) ms al := fun _ _ => rfl
  have h8 := fun (ms al : Nat) => lmaxLN_cons xm stepN om be [] _ h9 8 ms al
  have h7 := fun (ms al : Nat) => lmaxLN_cons xm stepN om be [8] _ h8 7 ms al
  have h6 := fun (ms al : Nat) => lmaxLN_cons xm stepN om be [7, 8] _ h7 6 ms al
  have h5 := fun (ms al : Nat) => lmaxLN_cons xm stepN om be [6, 7, 8] _ h6 5 ms al
  have h4 := fun (ms al : Nat) => lmaxLN_cons xm stepN om be [5, 6, 7, 8] _ h5 4 ms al
  have h3 := fun (ms al : Nat) => lmaxLN_cons xm stepN om be [4, 5, 6, 7, 8] _ h4 3 ms al
  have h2 := fun (ms al : Nat) => lmaxLN_cons xm stepN om be [3, 4, 5, 6, 7, 8] _ h3 2 ms al
  have h1 := fun (ms al : Nat) => lmaxLN_cons xm stepN om be [2, 3, 4, 5, 6, 7, 8] _ h2 1 ms al
  have h0 := fun (ms al : Nat) => lmaxLN_cons xm stepN om be [1, 2, 3, 4, 5, 6, 7, 8] _ h1 0 ms al
  exact h0 ms al

theorem lminUN_unroll (om : Nat) (stepN : Nat → Nat → Nat → Nat)
    (xm : Nat) (ms al be : Nat) :
    lminLN om stepN [0, 1, 2, 3, 4, 5, 6, 7, 8] xm ms al be =
      lminUN om stepN xm ms al be := by
  have h9 : ∀ (ms be : Nat), lminLN om stepN [] xm ms al be =
      (fun (ms : Nat) (_be : Nat) => ms) ms be := fun _ _ => rfl
  have h8 := fun (ms be : Nat) => lminLN_cons om stepN xm al [] _ h9 8 ms be
  have h7 := fun (ms be : Nat) => lminLN_cons om stepN xm al [8] _ h8 7 ms be
  have h6 := fun (ms be : Nat) => lminLN_cons om stepN xm al [7, 8] _ h7 6 ms be
  have h5 := fun (ms be : Nat) => lminLN_cons om stepN xm al [6, 7, 8] _ h6 5 ms be
  have h4 := fun (ms be : Nat) => lminLN_cons om stepN xm al [5, 6, 7, 8] _ h5 4 ms be
  have h3 := fun (ms be : Nat) => lminLN_cons om stepN xm al [4, 5, 6, 7, 8] _ h4 3 ms be
  have h2 := fun (ms be : Nat) => lminLN_cons om stepN xm al [3, 4, 5, 6, 7, 8] _ h3 2 ms be
  have h1 := fun (ms be : Nat) => lminLN_cons om stepN xm al [2, 3, 4, 5, 6, 7, 8] _ h2 1 ms be
  have h0 := fun (ms be : Nat) => lminLN_cons om stepN xm al [1, 2, 3, 4, 5, 6, 7, 8] _ h1 0 ms be
  exact h0 ms be

theorem fastLoopMax_bound (xm : Nat) (stepI : Nat → Int → Int → Int) (be : Int)
    (hstepb : ∀ o a b, -1000 ≤ stepI o a b) :
    ∀ (is : List Nat) (om : Nat) (ms al : Int), -1000 ≤ ms →
      -1000 ≤ fastLoopMax xm stepI is om ms al be := by
  intro is
  induction is with
  | nil => intro om ms al h1; exact h1
  | cons i rest ih =>
    intro om ms al h1
    rw [fastLoopMax]
    by_cases hbit : (xm ||| om).testBit i = true
    · rw [if_pos hbit]
      exact ih om ms al h1
    · rw [if_neg hbit]
      simp only []
      have hs := hstepb (om + 2 ^ i) al be
      by_cases hp : be ≤ max al (stepI (om + 2 ^ i) al be)
      · rw [if_pos hp]
        omega
      · rw [if_neg hp]
        exact ih om (max (stepI (om + 2 ^ i) al be) ms)
          (max al (stepI (om + 2 ^ i) al be)) (by omega)

theorem fastLoopMin_bound (om : Nat) (stepI : Nat → Int → Int → Int) (al : Int)
    (hstepb : ∀ o a b, -1000 ≤ stepI o a b) :
    ∀ (is : List Nat) (xm : Nat) (ms be : Int), -1000 ≤ ms →
      -1000 ≤ fastLoopMin om stepI is xm ms al be := by
  intro is
  induction is with
  | nil => intro xm ms be h1; exact h1
  | cons i rest ih =>
    intro xm ms be h1
    rw [fastLoopMin]
    by_cases hbit : (xm ||| om).testBit i = true
    · rw [if_pos hbit]
      exact ih xm ms be h1
    · rw [if_neg hbit]
      simp only []
      have hs := hstepb (xm + 2 ^ i) al be
      by_cases hp : min be (stepI (xm + 2 ^ i) al be) ≤ al
      · rw [if_pos hp]
        omega
      · rw [if_neg hp]
        exact ih xm (min (stepI (xm + 2 ^ i) al be) ms)
          (min be (stepI (xm + 2 ^ i) al be)) (by omega)

theorem lmaxLN_eq (xm : Nat) (stepI : Nat → Int → Int → Int)
    (stepN : Nat → Nat → Nat → Nat) (beI : Int) (hbe : -1000 ≤ beI)
    (hstep : ∀ o (aI : Int), -1000 ≤ aI →
      stepN o (toN aI) (toN beI) = toN (stepI o aI beI))
    (hstepb : ∀ o a b, -1000 ≤ stepI o a b) :
    ∀ (is : List Nat) (om : Nat) (msI alI : Int), -1000 ≤ msI → -1000 ≤ alI →
      lmaxLN xm stepN is om (toN msI) (toN alI) (toN beI)
        = toN (fastLoopMax xm stepI is om msI alI beI) := by
  intro is
  induction is with
  | nil => intro om msI alI _ _; rfl
  | cons i rest ih =>
    intro om msI alI hm1 ha1
    rw [lmaxLN, fastLoopMax]
    by_cases hbit : (xm ||| om).testBit i = true
    · have hgf : ((xm ||| om) &&& 2 ^ i == 0) = false := by
        cases hq : ((xm ||| om) &&& 2 ^ i == 0) with
        | false => rfl
        | true =>
          rw [(land_pow_eq_zero_iff _ _).mp hq] at hbit
          exact absurd hbit Bool.false_ne_true
      rw [hgf, Bool.cond_false, if_pos hbit]
      exact ih om msI alI hm1 ha1
    · have hbf : (xm ||| om).testBit i = false := Bool.of_not_eq_true hbit
      rw [(land_pow_eq_zero_iff _ _).mpr hbf, Bool.cond_true, if_neg hbit]
      simp only []
      rw [hstep (om + 2 ^ i) alI ha1]
      have hs := hstepb (om + 2 ^ i) alI beI
      rw [toN_max alI (stepI (om + 2 ^ i) alI beI) ha1 hs]
      by_cases hp : beI ≤ max alI (stepI (om + 2 ^ i) alI beI)
      · have hb2 : Nat.ble (toN beI)
            (toN (max alI (stepI (om + 2 ^ i) alI beI))) = true :=
          (toN_ble _ _ hbe (by omega)).mpr hp
        rw [hb2, Bool.cond_true, if_pos hp,
          toN_max (stepI (om + 2 ^ i) alI beI) msI hs hm1]
      · have hb2 : Nat.ble (toN beI)
            (toN (max alI (stepI (om + 2 ^ i) alI beI))) = false := by
          cases hq : Nat.ble (toN beI)
              (toN (max alI (stepI (om + 2 ^ i) alI beI))) with
          | false => rfl
          | true => exact absurd ((toN_ble _ _ hbe (by omega)).mp hq) hp
        rw [hb2, Bool.cond_false, if_neg hp,
          toN_max (stepI (om + 2 ^ i) alI beI) msI hs hm1]
        exact ih om (max (stepI (om + 2 ^ i) alI beI) msI)
          (max alI (stepI (om + 2 ^ i) alI beI)) (by omega) (by omega)

theorem lminLN_eq (om : Nat) (stepI : Nat → Int → Int → Int)
    (stepN : Nat → Nat → Nat → Nat) (alI : Int) (hal : -1000 ≤ alI)
    (hstep : ∀ o (bI : Int), -1000 ≤ bI →
      stepN o (toN alI) (toN bI) = toN (stepI o alI bI))
    (hstepb : ∀ o a b, -1000 ≤ stepI o a b) :
    ∀ (is : List Nat) (xm : Nat) (msI beI : Int), -1000 ≤ msI → -1000 ≤ beI →
      lminLN om stepN is xm (toN msI) (toN alI) (toN beI)
        = toN (fastLoopMin om stepI is xm msI alI beI) := by
  intro is
  induction is with
  | nil => intro xm msI beI _ _; rfl
  | cons i rest ih =>
    intro xm msI beI hm1 hb1
    rw [lminLN, fastLoopMin]
    by_cases hbit : (xm ||| om).testBit i = true
    · have hgf : ((xm ||| om) &&& 2 ^ i == 0) = false := by
        cases hq : ((xm ||| om) &&& 2 ^ i == 0) with
        | false => rfl
        | true =>
          rw [(land_pow_eq_zero_iff _ _).mp hq] at hbit
          exact absurd hbit Bool.false_ne_true
      rw [hgf, Bool.cond_false, if_pos hbit]
      exact ih xm msI beI hm1 hb1
    · have hbf : (xm ||| om).testBit i = false := Bool.of_not_eq_true hbit
      rw [(land_pow_eq_zero_iff _ _).mpr hbf, Bool.cond_true, if_neg hbit]
      simp only []
      rw [hstep (xm + 2 ^ i) beI hb1]
      have hs := hstepb (xm + 2 ^ i) alI beI
      rw [toN_min beI (stepI (xm + 2 ^ i) alI beI) hb1 hs]
      by_cases hp : min beI (stepI (xm + 2 ^ i) alI beI) ≤ alI
      · have hb2 : Nat.ble
            (toN (min beI (stepI (xm + 2 ^ i) alI beI))) (toN alI) = true :=
          (toN_ble _ _ (by omega) hal).mpr hp
        rw [hb2, Bool.cond_true, if_pos hp,
          toN_min (stepI (xm + 2 ^ i) alI beI) msI hs hm1]
      · have hb2 : Nat.ble
            (toN (min beI (stepI (xm + 2 ^ i) alI beI))) (toN alI) = false := by
          cases hq : Nat.ble
              (toN (min beI (stepI (xm + 2 ^ i) alI beI))) (toN alI) with
          | false => rfl
          | true => exact absurd ((toN_ble _ _ (by omega) hal).mp hq) hp
        rw [hb2, Bool.cond_false, if_neg hp,
          toN_min (stepI (xm + 2 ^ i) alI beI) msI hs hm1]
        exact ih xm (min (stepI (xm + 2 ^ i) alI beI) msI)
          (min beI (stepI (xm + 2 ^ i) alI beI)) (by omega) (by omega)

theorem lmaxUN_eq (xm om : Nat) (stepI : Nat → Int → Int → Int)
    (stepN : Nat → Nat → Nat → Nat) (beI : Int) (hbe : -1000 ≤ beI)
    (hstep : ∀ o (aI : Int), -1000 ≤ aI →
      stepN o (toN aI) (toN beI) = toN (stepI o aI beI))
    (hstepb : ∀ o a b, -1000 ≤ stepI o a b)
    (msI alI : Int) (hms : -1000 ≤ msI) (hal : -1000 ≤ alI) :
    lmaxUN xm stepN om (toN msI) (toN alI) (toN beI)
      = toN (lmaxU xm stepI om msI alI beI) := by
  rw [← lmaxUN_unroll xm stepN om (toN msI) (toN alI) (toN beI)]
  rw [← lmaxU_eq xm stepI stepI (fun _ _ _ => rfl) om msI alI beI]
  rw [show List.range 9 = [0, 1, 2, 3, 4, 5, 6, 7, 8] from rfl]
  exact lmaxLN_eq xm stepI stepN beI hbe hstep hstepb
    [0, 1, 2, 3, 4, 5, 6, 7, 8] om msI alI hms hal

theorem lminUN_eq (xm om : Nat) (stepI : Nat → Int → Int → Int)
    (stepN : Nat → Nat → Nat → Nat) (alI : Int) (hal : -1000 ≤ alI)
    (hstep : ∀ o (bI : Int), -1000 ≤ bI →
      stepN o (toN alI) (toN bI) = toN (stepI o alI bI))
    (hstepb : ∀ o a b, -1000 ≤ stepI o a b)
    (msI beI : Int) (hms : -1000 ≤ msI) (hbe : -1000 ≤ beI) :
    lminUN om stepN xm (toN msI) (toN alI) (toN beI)
      = toN (lminU om stepI xm msI alI beI) := by
  rw [← lminUN_unroll om stepN xm (toN msI) (toN alI) (toN beI)]
  rw [← lminU_eq om stepI stepI (fun _ _ _ => rfl) xm msI alI beI]
  rw [show List.range 9 = [0, 1, 2, 3, 4, 5, 6, 7, 8] from rfl]
  exact lminLN_eq om stepI stepN alI hal hstep hstepb
    [0, 1, 2, 3, 4, 5, 6, 7, 8] xm msI beI hms hbe

theorem tsB (r : WinResult) (d : Int) (h0 : 0 ≤ d) (h1 : d ≤ 1000) :
    -1000 ≤ terminalScore aiInstance r d := by
  cases r with
  | draw =>
    rw [show terminalScore aiInstance WinResult.draw d = 0 from rfl]
    omega
  | mark w =>
    have hm : terminalScore aiInstance (WinResult.mark w) d =
        if w = Mark.O then 10 - d else if w = Mark.X then d - 10 else 0 := rfl
    rw [hm]
    by_cases hO : w = Mark.O
    · rw [if_pos hO]
      omega
    · rw [if_neg hO]
      by_cases hX : w = Mark.X
      · rw [if_pos hX]
        omega
      · rw [if_neg hX]
        omega


theorem mmU0_bound : ∀ (xm om : Nat) (d : Int) (m : Bool) (al be : Int),
    0 ≤ d → d + 0 ≤ 1000 → -1000 ≤ mmU0 xm om d m al be := by
  intro xm om d m al be h0 h1
  rw [mmU0]
  cases hcw : checkWinnerFastU xm om with
  | some r => exact tsB r d h0 (by omega)
  | none => exact (by omega : (-1000 : Int) ≤ 0)

theorem mmU1_bound : ∀ (xm om : Nat) (d : Int) (m : Bool) (al be : Int),
    0 ≤ d → d + 1 ≤ 1000 → -1000 ≤ mmU1 xm om d m al be := by
  intro xm om d m al be h0 h1
  rw [mmU1]
  cases hcw : checkWinnerFastU xm om with
  | some r => exact tsB r d h0 (by omega)
  | none =>
    by_cases hm : m = true
    · rw [if_pos hm]
      rw [← lmaxU_eq xm (fun om2 a b => mmU0 xm om2 (d + 1) false a b)
          (fun om2 a b => mmU0 xm om2 (d + 1) false a b)
          (fun _ _ _ => rfl) om negInf al be]
      exact fastLoopMax_bound xm _ be
        (fun o a b => mmU0_bound xm o (d + 1) false a b (by omega) (by omega))
        (List.range 9) om negInf al (by rw [negInf])
    · rw [if_neg hm]
      rw [← lminU_eq om (fun xm2 a b => mmU0 xm2 om (d + 1) true a b)
          (fun xm2 a b => mmU0 xm2 om (d + 1) true a b)
          (fun _ _ _ => rfl) xm posInf al be]
      exact fastLoopMin_bound om _ al
        (fun o a b => mmU0_bound o om (d + 1) true a b (by omega) (by omega))
        (List.range 9) xm posInf be (by rw [posInf]; omega)

theorem mmU2_bound : ∀ (xm om : Nat) (d : Int) (m : Bool) (al be : Int),
    0 ≤ d → d + 2 ≤ 1000 → -1000 ≤ mmU2 xm om d m al be := by
  intro xm om d m al be h0 h1
  rw [mmU2]
  cases hcw : checkWinnerFastU xm om with
  | some r => exact tsB r d h0 (by omega)
  | none =>
    by_cases hm : m = true
    · rw [if_pos hm]
      rw [← lmaxU_eq xm (fun om2 a b => mmU1 xm om2 (d + 1) false a b)
          (fun om2 a b => mmU1 xm om2 (d + 1) false a b)
          (fun _ _ _ => rfl) om negInf al be]
      exact fastLoopMax_bound xm _ be
        (fun o a b => mmU1_bound xm o (d + 1) false a b (by omega) (by omega))
        (List.range 9) om negInf al (by rw [negInf])
    · rw [if_neg hm]
      rw [← lminU_eq om (fun xm2 a b => mmU1 xm2 om (d + 1) true a b)
          (fun xm2 a b => mmU1 xm2 om (d + 1) true a b)
          (fun _ _ _ => rfl) xm posInf al be]
      exact fastLoopMin_bound om _ al
        (fun o a b => mmU1_bound o om (d + 1) true a b (by omega) (by omega))
        (List.range 9) xm posInf be (by rw [posInf]; omega)

theorem mmU3_bound : ∀ (xm om : Nat) (d : Int) (m : Bool) (al be : Int),
    0 ≤ d → d + 3 ≤ 1000 → -1000 ≤ mmU3 xm om d m al be := by
  intro xm om d m al be h0 h1
  rw [mmU3]
  cases hcw : checkWinnerFastU xm om with
  | some r => exact tsB r d h0 (by omega)
  | none =>
    by_cases hm : m = true
    · rw [if_pos hm]
      rw [← lmaxU_eq xm (fun om2 a b => mmU2 xm om2 (d + 1) false a b)
          (fun om2 a b => mmU2 xm om2 (d + 1) false a b)
          (fun _ _ _ => rfl) om negInf al be]
      exact fastLoopMax_bound xm _ be
        (fun o a b => mmU2_bound xm o (d + 1) false a b (by omega) (by omega))
        (List.range 9) om negInf al (by rw [negInf])
    · rw [if_neg hm]
      rw [← lminU_eq om (fun xm2 a b => mmU2 xm2 om (d + 1) true a b)
          (fun xm2 a b => mmU2 xm2 om (d + 1) true a b)
          (fun _ _ _ => rfl) xm posInf al be]
      exact fastLoopMin_bound om _ al
        (fun o a b => mmU2_bound o om (d + 1) true a b (by omega) (by omega))
        (List.range 9) xm posInf be (by rw [posInf]; omega)

theorem mmU4_bound : ∀ (xm om : Nat) (d : Int) (m : Bool) (al be : Int),
    0 ≤ d → d + 4 ≤ 1000 → -1000 ≤ mmU4 xm om d m al be := by
  intro xm om d m al be h0 h1
  rw [mmU4]
  cases hcw : checkWinnerFastU xm om with
  | some r => exact tsB r d h0 (by omega)
  | none =>
    by_cases hm : m = true
    · rw [if_pos hm]
      rw [← lmaxU_eq xm (fun om2 a b => mmU3 xm om2 (d + 1) false a b)
          (fun om2 a b => mmU3 xm om2 (d + 1) false a b)
          (fun _ _ _ => rfl) om negInf al be]
      exact fastLoopMax_bound xm _ be
        (fun o a b => mmU3_bound xm o (d + 1) false a b (by omega) (by omega))
        (List.range 9) om negInf al (by rw [negInf])
    · rw [if_neg hm]
      rw [← lminU_eq om (fun xm2 a b => mmU3 xm2 om (d + 1) true a b)
          (fun xm2 a b => mmU3 xm2 om (d + 1) true a b)
          (fun _ _ _ => rfl) xm posInf al be]
      exact fastLoopMin_bound om _ al
        (fun o a b => mmU3_bound o om (d + 1) true a b (by omega) (by omega))
        (List.range 9) xm posInf be (by rw [posInf]; omega)

theorem mmU5_bound : ∀ (xm om : Nat) (d : Int) (m : Bool) (al be : Int),
    0 ≤ d → d + 5 ≤ 1000 → -1000 ≤ mmU5 xm om d m al be := by
  intro xm om d m al be h0 h1
  rw [mmU5]
  cases hcw : checkWinnerFastU xm om with
  | some r => exact tsB r d h0 (by omega)
  | none =>
    by_cases hm : m = true
    · rw [if_pos hm]
      rw [← lmaxU_eq xm (fun om2 a b => mmU4 xm om2 (d + 1) false a b)
          (fun om2 a b => mmU4 xm om2 (d + 1) false a b)
          (fun _ _ _ => rfl) om negInf al be]
      exact fastLoopMax_bound xm _ be
        (fun o a b => mmU4_bound xm o (d + 1) false a b (by omega) (by omega))
        (List.range 9) om negInf al (by rw [negInf])
    · rw [if_neg hm]
      rw [← lminU_eq om (fun xm2 a b => mmU4 xm2 om (d + 1) true a b)
          (fun xm2 a b => mmU4 xm2 om (d + 1) true a b)
          (fun _ _ _ => rfl) xm posInf al be]
      exact fastLoopMin_bound om _ al
        (fun o a b => mmU4_bound o om (d + 1) true a b (by omega) (by omega))
        (List.range 9) xm posInf be (by rw [posInf]; omega)

theorem mmU6_bound : ∀ (xm om : Nat) (d : Int) (m : Bool) (al be : Int),
    0 ≤ d → d + 6 ≤ 1000 → -1000 ≤ mmU6 xm om d m al be := by
  intro xm om d m al be h0 h1
  rw [mmU6]
  cases hcw : checkWinnerFastU xm om with
  | some r => exact tsB r d h0 (by omega)
  | none =>
    by_cases hm : m = true
    · rw [if_pos hm]
      rw [← lmaxU_eq xm (fun om2 a b => mmU5 xm om2 (d + 1) false a b)
          (fun om2 a b => mmU5 xm om2 (d + 1) false a b)
          (fun _ _ _ => rfl) om negInf al be]
      exact fastLoopMax_bound xm _ be
        (fun o a b => mmU5_bound xm o (d + 1) false a b (by omega) (by omega))
        (List.range 9) om negInf al (by rw [negInf])
    · rw [if_neg hm]
      rw [← lminU_eq om (fun xm2 a b => mmU5 xm2 om (d + 1) true a b)
          (fun xm2 a b => mmU5 xm2 om (d + 1) true a b)
          (fun _ _ _ => rfl) xm posInf al be]
      exact fastLoopMin_bound om _ al
        (fun o a b => mmU5_bound o om (d + 1) true a b (by omega) (by omega))
        (List.range 9) xm posInf be (by rw [posInf]; omega)

theorem mmU7_bound : ∀ (xm om : Nat) (d : Int) (m : Bool) (al be : Int),
    0 ≤ d → d + 7 ≤ 1000 → -1000 ≤ mmU7 xm om d m al be := by
  intro xm om d m al be h0 h1
  rw [mmU7]
  cases hcw : checkWinnerFastU xm om with
  | some r => exact tsB r d h0 (by omega)
  | none =>
    by_cases hm : m = true
    · rw [if_pos hm]
      rw [← lmaxU_eq xm (fun om2 a b => mmU6 xm om2 (d + 1) false a b)
          (fun om2 a b => mmU6 xm om2 (d + 1) false a b)
          (fun _ _ _ => rfl) om negInf al be]
      exact fastLoopMax_bound xm _ be
        (fun o a b => mmU6_bound xm o (d + 1) false a b (by omega) (by omega))
        (List.range 9) om negInf al (by rw [negInf])
    · rw [if_neg hm]
      rw [← lminU_eq om (fun xm2 a b => mmU6 xm2 om (d + 1) true a b)
          (fun xm2 a b => mmU6 xm2 om (d + 1) true a b)
          (fun _ _ _ => rfl) xm posInf al be]
      exact fastLoopMin_bound om _ al
        (fun o a b => mmU6_bound o om (d + 1) true a b (by omega) (by omega))
        (List.range 9) xm posInf be (by rw [posInf]; omega)

theorem mmU8_bound : ∀ (xm om : Nat) (d : Int) (m : Bool) (al be : Int),
    0 ≤ d → d + 8 ≤ 1000 → -1000 ≤ mmU8 xm om d m al be := by
  intro xm om d m al be h0 h1
  rw [mmU8]
  cases hcw : checkWinnerFastU xm om with
  | some r => exact tsB r d h0 (by omega)
  | none =>
    by_cases hm : m = true
    · rw [if_pos hm]
      rw [← lmaxU_eq xm (fun om2 a b => mmU7 xm om2 (d + 1) false a b)
          (fun om2 a b => mmU7 xm om2 (d + 1) false a b)
          (fun _ _ _ => rfl) om negInf al be]
      exact fastLoopMax_bound xm _ be
        (fun o a b => mmU7_bound xm o (d + 1) false a b (by omega) (by omega))
        (List.range 9) om negInf al (by rw [negInf])
    · rw [if_neg hm]
      rw [← lminU_eq om (fun xm2 a b => mmU7 xm2 om (d + 1) true a b)
          (fun xm2 a b => mmU7 xm2 om (d + 1) true a b)
          (fun _ _ _ => rfl) xm posInf al be]
      exact fastLoopMin_bound om _ al
        (fun o a b => mmU7_bound o om (d + 1) true a b (by omega) (by omega))
        (List.range 9) xm posInf be (by rw [posInf]; omega)

theorem mmU9_bound : ∀ (xm om : Nat) (d : Int) (m : Bool) (al be : Int),
    0 ≤ d → d + 9 ≤ 1000 → -1000 ≤ mmU9 xm om d m al be := by
  intro xm om d m al be h0 h1
  rw [mmU9]
  cases hcw : checkWinnerFastU xm om with
  | some r => exact tsB r d h0 (by omega)
  | none =>
    by_cases hm : m = true
    · rw [if_pos hm]
      rw [← lmaxU_eq xm (fun om2 a b => mmU8 xm om2 (d + 1) false a b)
          (fun om2 a b => mmU8 xm om2 (d + 1) false a b)
          (fun _ _ _ => rfl) om negInf al be]
      exact fastLoopMax_bound xm _ be
        (fun o a b => mmU8_bound xm o (d + 1) false a b (by omega) (by omega))
        (List.range 9) om negInf al (by rw [negInf])
    · rw [if_neg hm]
      rw [← lminU_eq om (fun xm2 a b => mmU8 xm2 om (d + 1) true a b)
          (fun xm2 a b => mmU8 xm2 om (d + 1) true a b)
          (fun _ _ _ => rfl) xm posInf al be]
      exact fastLoopMin_bound om _ al
        (fun o a b => mmU8_bound o om (d + 1) true a b (by omega) (by omega))
        (List.range 9) xm posInf be (by rw [posInf]; omega)


def tsN (r : WinResult) (depth : Nat) : Nat :=
  match r with
  | WinResult.mark w =>
    match w with
    | Mark.O => 1010 - depth
    | Mark.X => 990 + depth
    | Mark.Empty => 1000
  | WinResult.draw => 1000

theorem tsN_eq (r : WinResult) (dN : Nat) (hd : dN ≤ 1000) :
    tsN r dN = toN (terminalScore aiInstance r (dN : Int)) := by
  cases r with
  | draw => rfl
  | mark w =>
    cases w with
    | O =>
      rw [show terminalScore aiInstance (WinResult.mark Mark.O) (dN : Int) =
        10 - (dN : Int) from rfl]
      rw [show tsN (WinResult.mark Mark.O) dN = 1010 - dN from rfl]
      rw [toN]
      omega
    | X =>
      rw [show terminalScore aiInstance (WinResult.mark Mark.X) (dN : Int) =
        (dN : Int) - 10 from rfl]
      rw [show tsN (WinResult.mark Mark.X) dN = 990 + dN from rfl]
      rw [toN]
      omega
    | Empty =>
      rw [show terminalScore aiInstance (WinResult.mark Mark.Empty) (dN : Int) =
        0 from rfl]
      rfl

def mmN0 (xm om : Nat) (depth : Nat) (_m : Bool) (_al _be : Nat) : Nat :=
  match checkWinnerFastU xm om with
  | some r => tsN r depth
  | none => 1000

def mmN1 (xm om : Nat) (depth : Nat) (m : Bool) (al be : Nat) : Nat :=
  match checkWinnerFastU xm om with
  | some r => tsN r depth
  | none =>
    if m then
      lmaxUN xm (fun om2 a b => mmN0 xm om2 (depth + 1) false a b) om 0 al be
    else
      lminUN om (fun xm2 a b => mmN0 xm2 om (depth + 1) true a b) xm 2000 al be

def mmN2 (xm om : Nat) (depth : Nat) (m : Bool) (al be : Nat) : Nat :=
  match checkWinnerFastU xm om with
  | some r => tsN r depth
  | none =>
    if m then
      lmaxUN xm (fun om2 a b => mmN1 xm om2 (depth + 1) false a b) om 0 al be
    else
      lminUN om (fun xm2 a b => mmN1 xm2 om (depth + 1) true a b) xm 2000 al be

def mmN3 (xm om : Nat) (depth : Nat) (m : Bool) (al be : Nat) : Nat :=
  match checkWinnerFastU xm om with
  | some r => tsN r depth
  | none =>
    if m then
      lmaxUN xm (fun om2 a b => mmN2 xm om2 (depth + 1) false a b) om 0 al be
    else
      lminUN om (fun xm2 a b => mmN2 xm2 om (depth + 1) true a b) xm 2000 al be

def mmN4 (xm om : Nat) (depth : Nat) (m : Bool) (al be : Nat) : Nat :=
  match checkWinnerFastU xm om with
  | some r => tsN r depth
  | none =>
    if m then
      lmaxUN xm (fun om2 a b => mmN3 xm om2 (depth + 1) false a b) om 0 al be
    else
      lminUN om (fun xm2 a b => mmN3 xm2 om (depth + 1) true a b) xm 2000 al be

def mmN5 (xm om : Nat) (depth : Nat) (m : Bool) (al be : Nat) : Nat :=
  match checkWinnerFastU xm om with
  | some r => tsN r depth
  | none =>
    if m then
      lmaxUN xm (fun om2 a b => mmN4 xm om2 (depth + 1) false a b) om 0 al be
    else
      lminUN om (fun xm2 a b => mmN4 xm2 om (depth + 1) true a b) xm 2000 al be

def mmN6 (xm om : Nat) (depth : Nat) (m : Bool) (al be : Nat) : Nat :=
  match checkWinnerFastU xm om with
  | some r => tsN r depth
  | none =>
    if m then
      lmaxUN xm (fun om2 a b => mmN5 xm om2 (depth + 1) false a b) om 0 al be
    else
      lminUN om (fun xm2 a b => mmN5 xm2 om (depth + 1) true a b) xm 2000 al be

def mmN7 (xm om : Nat) (depth : Nat) (m : Bool) (al be : Nat) : Nat :=
  match checkWinnerFastU xm om with
  | some r => tsN r depth
  | none =>
    if m then
      lmaxUN xm (fun om2 a b => mmN6 xm om2 (depth + 1) false a b) om 0 al be
    else
      lminUN om (fun xm2 a b => mmN6 xm2 om (depth + 1) true a b) xm 2000 al be

def mmN8 (xm om : Nat) (depth : Nat) (m : Bool) (al be : Nat) : Nat :=
  match checkWinnerFastU xm om with
  | some r => tsN r depth
  | none =>
    if m then
      lmaxUN xm (fun om2 a b => mmN7 xm om2 (depth + 1) false a b) om 0 al be
    else
      lminUN om (fun xm2 a b => mmN7 xm2 om (depth + 1) true a b) xm 2000 al be

def mmN9 (xm om : Nat) (depth : Nat) (m : Bool) (al be : Nat) : Nat :=
  match checkWinnerFastU xm om with
  | some r => tsN r depth
  | none =>
    if m then
      lmaxUN xm (fun om2 a b => mmN8 xm om2 (depth + 1) false a b) om 0 al be
    else
      lminUN om (fun xm2 a b => mmN8 xm2 om (depth + 1) true a b) xm 2000 al be

theorem mmN0_eq : ∀ (xm om dN : Nat) (m : Bool) (alI beI : Int),
    dN + 0 ≤ 1000 → -1000 ≤ alI → -1000 ≤ beI →
    mmN0 xm om dN m (toN alI) (toN beI) = toN (mmU0 xm om (dN : Int) m alI beI) := by
  intro xm om dN m alI beI hd ha hb
  rw [mmN0, mmU0]
  cases hcw : checkWinnerFastU xm om with
  | some r => exact tsN_eq r dN (by omega)
  | none => rfl

theorem mmN1_eq : ∀ (xm om dN : Nat) (m : Bool) (alI beI : Int),
    dN + 1 ≤ 1000 → -1000 ≤ alI → -1000 ≤ beI →
    mmN1 xm om dN m (toN alI) (toN beI) = toN (mmU1 xm om (dN : Int) m alI beI) := by
  intro xm om dN m alI beI hd ha hb
  rw [mmN1, mmU1]
  cases hcw : checkWinnerFastU xm om with
  | some r => exact tsN_eq r dN (by omega)
  | none =>
    by_cases hm : m = true
    · rw [if_pos hm, if_pos hm]
      exact lmaxUN_eq xm om
        (fun om2 a b => mmU0 xm om2 ((dN : Int) + 1) false a b)
        (fun om2 a b => mmN0 xm om2 (dN + 1) false a b)
        beI hb
        (fun o aI haI => mmN0_eq xm o (dN + 1) false aI beI (by omega) haI hb)
        (fun o a b => mmU0_bound xm o ((dN : Int) + 1) false a b
          (by omega) (by omega))
        negInf alI (by rw [negInf]) ha
    · rw [if_neg hm, if_neg hm]
      exact lminUN_eq xm om
        (fun xm2 a b => mmU0 xm2 om ((dN : Int) + 1) true a b)
        (fun xm2 a b => mmN0 xm2 om (dN + 1) true a b)
        alI ha
        (fun o bI hbI => mmN0_eq o om (dN + 1) true alI bI (by omega) ha hbI)
        (fun o a b => mmU0_bound o om ((dN : Int) + 1) true a b
          (by omega) (by omega))
        posInf beI (by rw [posInf]; omega) hb

theorem mmN2_eq : ∀ (xm om dN : Nat) (m : Bool) (alI beI : Int),
    dN + 2 ≤ 1000 → -1000 ≤ alI → -1000 ≤ beI →
    mmN2 xm om dN m (toN alI) (toN beI) = toN (mmU2 xm om (dN : Int) m alI beI) := by
  intro xm om dN m alI beI hd ha hb
  rw [mmN2, mmU2]
  cases hcw : checkWinnerFastU xm om with
  | some r => exact tsN_eq r dN (by omega)
  | none =>
    by_cases hm : m = true
    · rw [if_pos hm, if_pos hm]
      exact lmaxUN_eq xm om
        (fun om2 a b => mmU1 xm om2 ((dN : Int) + 1) false a b)
        (fun om2 a b => mmN1 xm om2 (dN + 1) false a b)
        beI hb
        (fun o aI haI => mmN1_eq xm o (dN + 1) false aI beI (by omega) haI hb)
        (fun o a b => mmU1_bound xm o ((dN : Int) + 1) false a b
          (by omega) (by omega))
        negInf alI (by rw [negInf]) ha
    · rw [if_neg hm, if_neg hm]
      exact lminUN_eq xm om
        (fun xm2 a b => mmU1 xm2 om ((dN : Int) + 1) true a b)
        (fun xm2 a b => mmN1 xm2 om (dN + 1) true a b)
        alI ha
        (fun o bI hbI => mmN1_eq o om (dN + 1) true alI bI (by omega) ha hbI)
        (fun o a b => mmU1_bound o om ((dN : Int) + 1) true a b
          (by omega) (by omega))
        posInf beI (by rw [posInf]; omega) hb

theorem mmN3_eq : ∀ (xm om dN : Nat) (m : Bool) (alI beI : Int),
    dN + 3 ≤ 1000 → -1000 ≤ alI → -1000 ≤ beI →
    mmN3 xm om dN m (toN alI) (toN beI) = toN (mmU3 xm om (dN : Int) m alI beI) := by
  intro xm om dN m alI beI hd ha hb
  rw [mmN3, mmU3]
  cases hcw : checkWinnerFastU xm om with
  | some r => exact tsN_eq r dN (by omega)
  | none =>
    by_cases hm : m = true
    · rw [if_pos hm, if_pos hm]
      exact lmaxUN_eq xm om
        (fun om2 a b => mmU2 xm om2 ((dN : Int) + 1) false a b)
        (fun om2 a b => mmN2 xm om2 (dN + 1) false a b)
        beI hb
        (fun o aI haI => mmN2_eq xm o (dN + 1) false aI beI (by omega) haI hb)
        (fun o a b => mmU2_bound xm o ((dN : Int) + 1) false a b
          (by omega) (by omega))
        negInf alI (by rw [negInf]) ha
    · rw [if_neg hm, if_neg hm]
      exact lminUN_eq xm om
        (fun xm2 a b => mmU2 xm2 om ((dN : Int) + 1) true a b)
        (fun xm2 a b => mmN2 xm2 om (dN + 1) true a b)
        alI ha
        (fun o bI hbI => mmN2_eq o om (dN + 1) true alI bI (by omega) ha hbI)
        (fun o a b => mmU2_bound o om ((dN : Int) + 1) true a b
          (by omega) (by omega))
        posInf beI (by rw [posInf]; omega) hb

theorem mmN4_eq : ∀ (xm om dN : Nat) (m : Bool) (alI beI : Int),
    dN + 4 ≤ 1000 → -1000 ≤ alI → -1000 ≤ beI →
    mmN4 xm om dN m (toN alI) (toN beI) = toN (mmU4 xm om (dN : Int) m alI beI) := by
  intro xm om dN m alI beI hd ha hb
  rw [mmN4, mmU4]
  cases hcw : checkWinnerFastU xm om with
  | some r => exact tsN_eq r dN (by omega)
  | none =>
    by_cases hm : m = true
    · rw [if_pos hm, if_pos hm]
      exact lmaxUN_eq xm om
        (fun om2 a b => mmU3 xm om2 ((dN : Int) + 1) false a b)
        (fun om2 a b => mmN3 xm om2 (dN + 1) false a b)
        beI hb
        (fun o aI haI => mmN3_eq xm o (dN + 1) false aI beI (by omega) haI hb)
        (fun o a b => mmU3_bound xm o ((dN : Int) + 1) false a b
          (by omega) (by omega))
        negInf alI (by rw [negInf]) ha
    · rw [if_neg hm, if_neg hm]
      exact lminUN_eq xm om
        (fun xm2 a b => mmU3 xm2 om ((dN : Int) + 1) true a b)
        (fun xm2 a b => mmN3 xm2 om (dN + 1) true a b)
        alI ha
        (fun o bI hbI => mmN3_eq o om (dN + 1) true alI bI (by omega) ha hbI)
        (fun o a b => mmU3_bound o om ((dN : Int) + 1) true a b
          (by omega) (by omega))
        posInf beI (by rw [posInf]; omega) hb

theorem mmN5_eq : ∀ (xm om dN : Nat) (m : Bool) (alI beI : Int),
    dN + 5 ≤ 1000 → -1000 ≤ alI → -1000 ≤ beI →
    mmN5 xm om dN m (toN alI) (toN beI) = toN (mmU5 xm om (dN : Int) m alI beI) := by
  intro xm om dN m alI beI hd ha hb
  rw [mmN5, mmU5]
  cases hcw : checkWinnerFastU xm om with
  | some r => exact tsN_eq r dN (by omega)
  | none =>
    by_cases hm : m = true
    · rw [if_pos hm, if_pos hm]
      exact lmaxUN_eq xm om
        (fun om2 a b => mmU4 xm om2 ((dN : Int) + 1) false a b)
        (fun om2 a b => mmN4 xm om2 (dN + 1) false a b)
        beI hb
        (fun o aI haI => mmN4_eq xm o (dN + 1) false aI beI (by omega) haI hb)
        (fun o a b => mmU4_bound xm o ((dN : Int) + 1) false a b
          (by omega) (by omega))
        negInf alI (by rw [negInf]) ha
    · rw [if_neg hm, if_neg hm]
      exact lminUN_eq xm om
        (fun xm2 a b => mmU4 xm2 om ((dN : Int) + 1) true a b)
        (fun xm2 a b => mmN4 xm2 om (dN + 1) true a b)
        alI ha
        (fun o bI hbI => mmN4_eq o om (dN + 1) true alI bI (by omega) ha hbI)
        (fun o a b => mmU4_bound o om ((dN : Int) + 1) true a b
          (by omega) (by omega))
        posInf beI (by rw [posInf]; omega) hb

theorem mmN6_eq : ∀ (xm om dN : Nat) (m : Bool) (alI beI : Int),
    dN + 6 ≤ 1000 → -1000 ≤ alI → -1000 ≤ beI →
    mmN6 xm om dN m (toN alI) (toN beI) = toN (mmU6 xm om (dN : Int) m alI beI) := by
  intro xm om dN m alI beI hd ha hb
  rw [mmN6, mmU6]
  cases hcw : checkWinnerFastU xm om with
  | some r => exact tsN_eq r dN (by omega)
  | none =>
    by_cases hm : m = true
    · rw [if_pos hm, if_pos hm]
      exact lmaxUN_eq xm om
        (fun om2 a b => mmU5 xm om2 ((dN : Int) + 1) false a b)
        (fun om2 a b => mmN5 xm om2 (dN + 1) false a b)
        beI hb
        (fun o aI haI => mmN5_eq xm o (dN + 1) false aI beI (by omega) haI hb)
        (fun o a b => mmU5_bound xm o ((dN : Int) + 1) false a b
          (by omega) (by omega))
        negInf alI (by rw [negInf]) ha
    · rw [if_neg hm, if_neg hm]
      exact lminUN_eq xm om
        (fun xm2 a b => mmU5 xm2 om ((dN : Int) + 1) true a b)
        (fun xm2 a b => mmN5 xm2 om (dN + 1) true a b)
        alI ha
        (fun o bI hbI => mmN5_eq o om (dN + 1) true alI bI (by omega) ha hbI)
        (fun o a b => mmU5_bound o om ((dN : Int) + 1) true a b
          (by omega) (by omega))
        posInf beI (by rw [posInf]; omega) hb

theorem mmN7_eq : ∀ (xm om dN : Nat) (m : Bool) (alI beI : Int),
    dN + 7 ≤ 1000 → -1000 ≤ alI → -1000 ≤ beI →
    mmN7 xm om dN m (toN alI) (toN beI) = toN (mmU7 xm om (dN : Int) m alI beI) := by
  intro xm om dN m alI beI hd ha hb
  rw [mmN7, mmU7]
  cases hcw : checkWinnerFastU xm om with
  | some r => exact tsN_eq r dN (by omega)
  | none =>
    by_cases hm : m = true
    · rw [if_pos hm, if_pos hm]
      exact lmaxUN_eq xm om
        (fun om2 a b => mmU6 xm om2 ((dN : Int) + 1) false a b)
        (fun om2 a b => mmN6 xm om2 (dN + 1) false a b)
        beI hb
        (fun o aI haI => mmN6_eq xm o (dN + 1) false aI beI (by omega) haI hb)
        (fun o a b => mmU6_bound xm o ((dN : Int) + 1) false a b
          (by omega) (by omega))
        negInf alI (by rw [negInf]) ha
    · rw [if_neg hm, if_neg hm]
      exact lminUN_eq xm om
        (fun xm2 a b => mmU6 xm2 om ((dN : Int) + 1) true a b)
        (fun xm2 a b => mmN6 xm2 om (dN + 1) true a b)
        alI ha
        (fun o bI hbI => mmN6_eq o om (dN + 1) true alI bI (by omega) ha hbI)
        (fun o a b => mmU6_bound o om ((dN : Int) + 1) true a b
          (by omega) (by omega))
        posInf beI (by rw [posInf]; omega) hb

theorem mmN8_eq : ∀ (xm om dN : Nat) (m : Bool) (alI beI : Int),
    dN + 8 ≤ 1000 → -1000 ≤ alI → -1000 ≤ beI →
    mmN8 xm om dN m (toN alI) (toN beI) = toN (mmU8 xm om (dN : Int) m alI beI) := by
  intro xm om dN m alI beI hd ha hb
  rw [mmN8, mmU8]
  cases hcw : checkWinnerFastU xm om with
  | some r => exact tsN_eq r dN (by omega)
  | none =>
    by_cases hm : m = true
    · rw [if_pos hm, if_pos hm]
      exact lmaxUN_eq xm om
        (fun om2 a b => mmU7 xm om2 ((dN : Int) + 1) false a b)
        (fun om2 a b => mmN7 xm om2 (dN + 1) false a b)
        beI hb
        (fun o aI haI => mmN7_eq xm o (dN + 1) false aI beI (by omega) haI hb)
        (fun o a b => mmU7_bound xm o ((dN : Int) + 1) false a b
          (by omega) (by omega))
        negInf alI (by rw [negInf]) ha
    · rw [if_neg hm, if_neg hm]
      exact lminUN_eq xm om
        (fun xm2 a b => mmU7 xm2 om ((dN : Int) + 1) true a b)
        (fun xm2 a b => mmN7 xm2 om (dN + 1) true a b)
        alI ha
        (fun o bI hbI => mmN7_eq o om (dN + 1) true alI bI (by omega) ha hbI)
        (fun o a b => mmU7_bound o om ((dN : Int) + 1) true a b
          (by omega) (by omega))
        posInf beI (by rw [posInf]; omega) hb

theorem mmN9_eq : ∀ (xm om dN : Nat) (m : Bool) (alI beI : Int),
    dN + 9 ≤ 1000 → -1000 ≤ alI → -1000 ≤ beI →
    mmN9 xm om dN m (toN alI) (toN beI) = toN (mmU9 xm om (dN : Int) m alI beI) := by
  intro xm om dN m alI beI hd ha hb
  rw [mmN9, mmU9]
  cases hcw : checkWinnerFastU xm om with
  | some r => exact tsN_eq r dN (by omega)
  | none =>
    by_cases hm : m = true
    · rw [if_pos hm, if_pos hm]
      exact lmaxUN_eq xm om
        (fun om2 a b => mmU8 xm om2 ((dN : Int) + 1) false a b)
        (fun om2 a b => mmN8 xm om2 (dN + 1) false a b)
        beI hb
        (fun o aI haI => mmN8_eq xm o (dN + 1) false aI beI (by omega) haI hb)
        (fun o a b => mmU8_bound xm o ((dN : Int) + 1) false a b
          (by omega) (by omega))
        negInf alI (by rw [negInf]) ha
    · rw [if_neg hm, if_neg hm]
      exact lminUN_eq xm om
        (fun xm2 a b => mmU8 xm2 om ((dN : Int) + 1) true a b)
        (fun xm2 a b => mmN8 xm2 om (dN + 1) true a b)
        alI ha
        (fun o bI hbI => mmN8_eq o om (dN + 1) true alI bI (by omega) ha hbI)
        (fun o a b => mmU8_bound o om ((dN : Int) + 1) true a b
          (by omega) (by omega))
        posInf beI (by rw [posInf]; omega) hb


def bestLoopN (xm : Nat) : List Nat → Nat → Nat → Int → Int
  | [], _om, _bs, bm => bm
  | i :: rest, om, bs, bm =>
    bif (xm ||| om) &&& 2 ^ i == 0 then
      let s := mmN9 xm (om + 2 ^ i) 0 false 0 2000
      bif Nat.blt bs s then bestLoopN xm rest om s (Int.ofNat i)
      else bestLoopN xm rest om bs bm
    else bestLoopN xm rest om bs bm

theorem bestLoopN_eq (xm : Nat) : ∀ (is : List Nat) (om : Nat) (bsI bm : Int),
    -1000 ≤ bsI →
    bestLoopN xm is om (toN bsI) bm = bestLoopU xm is om bsI bm := by
  intro is
  induction is with
  | nil => intro om bsI bm _; rfl
  | cons i rest ih =>
    intro om bsI bm hbs
    rw [bestLoopN, bestLoopU]
    by_cases hbit : (xm ||| om).testBit i = true
    · have hgf : ((xm ||| om) &&& 2 ^ i == 0) = false := by
        cases hq : ((xm ||| om) &&& 2 ^ i == 0) with
        | false => rfl
        | true =>
          rw [(land_pow_eq_zero_iff _ _).mp hq] at hbit
          exact absurd hbit Bool.false_ne_true
      rw [hgf, Bool.cond_false, if_pos hbit]
      exact ih om bsI bm hbs
    · have hbf : (xm ||| om).testBit i = false := Bool.of_not_eq_true hbit
      rw [(land_pow_eq_zero_iff _ _).mpr hbf, Bool.cond_true, if_neg hbit]
      simp only []
      have hs9 : mmN9 xm (om + 2 ^ i) 0 false 0 2000 =
          toN (mmU9 xm (om + 2 ^ i) 0 false negInf posInf) := by
        have h2 := mmN9_eq xm (om + 2 ^ i) 0 false negInf posInf (by omega)
          (by rw [negInf]) (by rw [posInf]; omega)
        rw [show toN negInf = 0 from rfl, show toN posInf = 2000 from rfl,
          show ((0 : Nat) : Int) = (0 : Int) from rfl] at h2
        exact h2
      rw [hs9]
      have hsb : -1000 ≤ mmU9 xm (om + 2 ^ i) 0 false negInf posInf :=
        mmU9_bound xm (om + 2 ^ i) 0 false negInf posInf (by omega) (by omega)
      by_cases hp : bsI < mmU9 xm (om + 2 ^ i) 0 false negInf posInf
      · have hblt : Nat.blt (toN bsI)
            (toN (mmU9 xm (om + 2 ^ i) 0 false negInf posInf)) = true :=
          (toN_blt _ _ hbs hsb).mpr hp
        rw [hblt, Bool.cond_true, if_pos hp]
        exact ih om (mmU9 xm (om + 2 ^ i) 0 false negInf posInf)
          (Int.ofNat i) hsb
      · have hblt : Nat.blt (toN bsI)
            (toN (mmU9 xm (om + 2 ^ i) 0 false negInf posInf)) = false := by
          cases hq : Nat.blt (toN bsI)
              (toN (mmU9 xm (om + 2 ^ i) 0 false negInf posInf)) with
          | false => rfl
          | true => exact absurd ((toN_blt _ _ hbs hsb).mp hq) hp
        rw [hblt, Bool.cond_false, if_neg hp]
        exact ih om bsI bm hbs

def gbmN (xm om : Nat) : Int := bestLoopN xm (List.range 9) om 0 (-1)

theorem gbmN_eq (xm om : Nat) : gbmN xm om = gbmU xm om :=
  bestLoopN_eq xm (List.range 9) om negInf (-1) (by rw [negInf])

def spN : Nat → Bool → Nat → Nat → Bool
  | 0, _, _, _ => true
  | fuel + 1, oppTurn, xm, om =>
    match checkWinnerFastU xm om with
    | some (WinResult.mark w) => decide (w ≠ Mark.X)
    | some WinResult.draw => true
    | none =>
      if oppTurn then
        (List.range 9).all fun i =>
          if (xm ||| om).testBit i = true then true
          else spN fuel false (xm + 2 ^ i) om
      else
        let m := gbmN xm om
        decide (m ≠ -1) && decide (m.toNat < 9) && !((xm ||| om).testBit m.toNat)
          && spN fuel true xm (om + 2 ^ m.toNat)

theorem spN_eq : ∀ (fuel : Nat) (t : Bool) (xm om : Nat),
    safePlayU fuel t xm om = spN fuel t xm om := by
  intro fuel
  induction fuel with
  | zero => intro t xm om; rfl
  | succ f ih =>
    intro t xm om
    rw [safePlayU, spN]
    cases hcw : checkWinnerFastU xm om with
    | some r =>
      cases r with
      | mark w => rfl
      | draw => rfl
    | none =>
      by_cases ht : t = true
      · rw [if_pos ht, if_pos ht]
        apply all_congr_mem
        intro i _
        by_cases hbit : (xm ||| om).testBit i = true
        · rw [if_pos hbit, if_pos hbit]
        · rw [if_neg hbit, if_neg hbit, ih]
      · rw [if_neg ht, if_neg ht]
        simp only []
        rw [gbmN_eq xm om, ih]

theorem spN_opp_step (fuel : Nat) (xm om : Nat)
    (hcw : checkWinnerFastU xm om = none)
    (hrec : ∀ i, i < 9 → (xm ||| om).testBit i = false →
      spN fuel false (xm + 2 ^ i) om = true) :
    spN (fuel + 1) true xm om = true := by
  rw [spN, hcw]
  show ((List.range 9).all fun i =>
    if (xm ||| om).testBit i = true then true
    else spN fuel false (xm + 2 ^ i) om) = true
  rw [List.all_eq_true]
  intro i hi
  have hi9 : i < 9 := List.mem_range.mp hi
  by_cases hbit : (xm ||| om).testBit i = true
  · rw [if_pos hbit]
  · rw [if_neg hbit]
    exact hrec i hi9 (Bool.of_not_eq_true hbit)

theorem spN_ai_step (fuel : Nat) (xm om m : Nat)
    (hcw : checkWinnerFastU xm om = none)
    (hg : gbmN xm om = Int.ofNat m)
    (hm9 : m < 9)
    (hbit : (xm ||| om).testBit m = false)
    (hrec : spN fuel true xm (om + 2 ^ m) = true) :
    spN (fuel + 1) false xm om = true := by
  rw [spN, hcw]
  show (let mv := gbmN xm om
    decide (mv ≠ -1) && decide (mv.toNat < 9) && !((xm ||| om).testBit mv.toNat)
      && spN fuel true xm (om + 2 ^ mv.toNat)) = true
  simp only []
  rw [hg]
  rw [show (Int.ofNat m).toNat = m from Int.toNat_ofNat m]
  rw [hbit, hrec]
  rw [decide_eq_true (show Int.ofNat m ≠ -1 from by
      intro hcon
      rw [Int.ofNat_eq_natCast] at hcon
      omega),
    decide_eq_true hm9]
  rfl


/-! ### The exhaustive safety run, split into kernel-checked pieces: the
AI's reply to each opening, then every counter-reply's subtree. -/

set_option maxRecDepth 10000

theorem gBest0 : gbmN 1 0 = Int.ofNat 4 := by decide!
theorem gBest1 : gbmN 2 0 = Int.ofNat 0 := by decide!
theorem gBest2 : gbmN 4 0 = Int.ofNat 4 := by decide!
theorem gBest3 : gbmN 8 0 = Int.ofNat 0 := by decide!
theorem gBest4 : gbmN 16 0 = Int.ofNat 0 := by decide!
theorem gBest5 : gbmN 32 0 = Int.ofNat 2 := by decide!
theorem gBest6 : gbmN 64 0 = Int.ofNat 4 := by decide!
theorem gBest7 : gbmN 128 0 = Int.ofNat 1 := by decide!
theorem gBest8 : gbmN 256 0 = Int.ofNat 4 := by decide!

theorem leafSafe0x1 : spN 7 false 3 16 = true := by decide!
theorem leafSafe0x2 : spN 7 false 5 16 = true := by decide!
theorem leafSafe0x3 : spN 7 false 9 16 = true := by decide!
theorem leafSafe0x5 : spN 7 false 33 16 = true := by decide!
theorem leafSafe0x6 : spN 7 false 65 16 = true := by decide!
theorem leafSafe0x7 : spN 7 false 129 16 = true := by decide!
theorem leafSafe0x8 : spN 7 false 257 16 = true := by decide!
theorem leafSafe1x2 : spN 7 false 6 1 = true := by decide!
theorem leafSafe1x3 : spN 7 false 10 1 = true := by decide!
theorem leafSafe1x4 : spN 7 false 18 1 = true := by decide!
theorem leafSafe1x5 : spN 7 false 34 1 = true := by decide!
theorem leafSafe1x6 : spN 7 false 66 1 = true := by decide!
theorem leafSafe1x7 : spN 7 false 130 1 = true := by decide!
theorem leafSafe1x8 : spN 7 false 258 1 = true := by decide!
theorem leafSafe2x0 : spN 7 false 5 16 = true := by decide!
theorem leafSafe2x1 : spN 7 false 6 16 = true := by decide!
theorem leafSafe2x3 : spN 7 false 12 16 = true := by decide!
theorem leafSafe2x5 : spN 7 false 36 16 = true := by decide!
theorem leafSafe2x6 : spN 7 false 68 16 = true := by decide!
theorem leafSafe2x7 : spN 7 false 132 16 = true := by decide!
theorem leafSafe2x8 : spN 7 false 260 16 = true := by decide!
theorem leafSafe3x1 : spN 7 false 10 1 = true := by decide!
theorem leafSafe3x2 : spN 7 false 12 1 = true := by decide!
theorem leafSafe3x4 : spN 7 false 24 1 = true := by decide!
theorem leafSafe3x5 : spN 7 false 40 1 = true := by decide!
theorem leafSafe3x6 : spN 7 false 72 1 = true := by decide!
theorem leafSafe3x7 : spN 7 false 136 1 = true := by decide!
theorem leafSafe3x8 : spN 7 false 264 1 = true := by decide!
theorem leafSafe4x1 : spN 7 false 18 1 = true := by decide!
theorem leafSafe4x2 : spN 7 false 20 1 = true := by decide!
theorem leafSafe4x3 : spN 7 false 24 1 = true := by decide!
theorem leafSafe4x5 : spN 7 false 48 1 = true := by decide!
theorem leafSafe4x6 : spN 7 false 80 1 = true := by decide!
theorem leafSafe4x7 : spN 7 false 144 1 = true := by decide!
theorem leafSafe4x8 : spN 7 false 272 1 = true := by decide!
theorem leafSafe5x0 : spN 7 false 33 4 = true := by decide!
theorem leafSafe5x1 : spN 7 false 34 4 = true := by decide!
theorem leafSafe5x3 : spN 7 false 40 4 = true := by decide!
theorem leafSafe5x4 : spN 7 false 48 4 = true := by decide!
theorem leafSafe5x6 : spN 7 false 96 4 = true := by decide!
theorem leafSafe5x7 : spN 7 false 160 4 = true := by decide!
theorem leafSafe5x8 : spN 7 false 288 4 = true := by decide!
theorem leafSafe6x0 : spN 7 false 65 16 = true := by decide!
theorem leafSafe6x1 : spN 7 false 66 16 = true := by decide!
theorem leafSafe6x2 : spN 7 false 68 16 = true := by decide!
theorem leafSafe6x3 : spN 7 false 72 16 = true := by decide!
theorem leafSafe6x5 : spN 7 false 96 16 = true := by decide!
theorem leafSafe6x7 : spN 7 false 192 16 = true := by decide!
theorem leafSafe6x8 : spN 7 false 320 16 = true := by decide!
theorem leafSafe7x0 : spN 7 false 129 2 = true := by decide!
theorem leafSafe7x2 : spN 7 false 132 2 = true := by decide!
theorem leafSafe7x3 : spN 7 false 136 2 = true := by decide!
theorem leafSafe7x4 : spN 7 false 144 2 = true := by decide!
theorem leafSafe7x5 : spN 7 false 160 2 = true := by decide!
theorem leafSafe7x6 : spN 7 false 192 2 = true := by decide!
theorem leafSafe7x8 : spN 7 false 384 2 = true := by decide!
theorem leafSafe8x0 : spN 7 false 257 16 = true := by decide!
theorem leafSafe8x1 : spN 7 false 258 16 = true := by decide!
theorem leafSafe8x2 : spN 7 false 260 16 = true := by decide!
theorem leafSafe8x3 : spN 7 false 264 16 = true := by decide!
theorem leafSafe8x5 : spN 7 false 288 16 = true := by decide!
theorem leafSafe8x6 : spN 7 false 320 16 = true := by decide!
theorem leafSafe8x7 : spN 7 false 384 16 = true := by decide!

theorem oppSafe0 : spN 8 true 1 16 = true := by
  refine spN_opp_step 7 1 16 rfl ?_
  intro j hj9 hbit
  interval_cases j
  · exact absurd hbit (by decide)
  · exact leafSafe0x1
  · exact leafSafe0x2
  · exact leafSafe0x3
  · exact absurd hbit (by decide)
  · exact leafSafe0x5
  · exact leafSafe0x6
  · exact leafSafe0x7
  · exact leafSafe0x8

theorem oppSafe1 : spN 8 true 2 1 = true := by
  refine spN_opp_step 7 2 1 rfl ?_
  intro j hj9 hbit
  interval_cases j
  · exact absurd hbit (by decide)
  · exact absurd hbit (by decide)
  · exact leafSafe1x2
  · exact leafSafe1x3
  · exact leafSafe1x4
  · exact leafSafe1x5
  · exact leafSafe1x6
  · exact leafSafe1x7
  · exact leafSafe1x8

theorem oppSafe2 : spN 8 true 4 16 = true := by
  refine spN_opp_step 7 4 16 rfl ?_
  intro j hj9 hbit
  interval_cases j
  · exact leafSafe2x0
  · exact leafSafe2x1
  · exact absurd hbit (by decide)
  · exact leafSafe2x3
  · exact absurd hbit (by decide)
  · exact leafSafe2x5
  · exact leafSafe2x6
  · exact leafSafe2x7
  · exact leafSafe2x8

theorem oppSafe3 : spN 8 true 8 1 = true := by
  refine spN_opp_step 7 8 1 rfl ?_
  intro j hj9 hbit
  interval_cases j
  · exact absurd hbit (by decide)
  · exact leafSafe3x1
  · exact leafSafe3x2
  · exact absurd hbit (by decide)
  · exact leafSafe3x4
  · exact leafSafe3x5
  · exact leafSafe3x6
  · exact leafSafe3x7
  · exact leafSafe3x8

theorem oppSafe4 : spN 8 true 16 1 = true := by
  refine spN_opp_step 7 16 1 rfl ?_
  intro j hj9 hbit
  interval_cases j
  · exact absurd hbit (by decide)
  · exact leafSafe4x1
  · exact leafSafe4x2
  · exact leafSafe4x3
  · exact absurd hbit (by decide)
  · exact leafSafe4x5
  · exact leafSafe4x6
  · exact leafSafe4x7
  · exact leafSafe4x8

theorem oppSafe5 : spN 8 true 32 4 = true := by
  refine spN_opp_step 7 32 4 rfl ?_
  intro j hj9 hbit
  interval_cases j
  · exact leafSafe5x0
  · exact leafSafe5x1
  · exact absurd hbit (by decide)
  · exact leafSafe5x3
  · exact leafSafe5x4
  · exact absurd hbit (by decide)
  · exact leafSafe5x6
  · exact leafSafe5x7
  · exact leafSafe5x8

theorem oppSafe6 : spN 8 true 64 16 = true := by
  refine spN_opp_step 7 64 16 rfl ?_
  intro j hj9 hbit
  interval_cases j
  · exact leafSafe6x0
  · exact leafSafe6x1
  · exact leafSafe6x2
  · exact leafSafe6x3
  · exact absurd hbit (by decide)
  · exact leafSafe6x5
  · exact absurd hbit (by decide)
  · exact leafSafe6x7
  · exact leafSafe6x8

theorem oppSafe7 : spN 8 true 128 2 = true := by
  refine spN_opp_step 7 128 2 rfl ?_
  intro j hj9 hbit
  interval_cases j
  · exact leafSafe7x0
  · exact absurd hbit (by decide)
  · exact leafSafe7x2
  · exact leafSafe7x3
  · exact leafSafe7x4
  · exact leafSafe7x5
  · exact leafSafe7x6
  · exact absurd hbit (by decide)
  · exact leafSafe7x8

theorem oppSafe8 : spN 8 true 256 16 = true := by
  refine spN_opp_step 7 256 16 rfl ?_
  intro j hj9 hbit
  interval_cases j
  · exact leafSafe8x0
  · exact leafSafe8x1
  · exact leafSafe8x2
  · exact leafSafe8x3
  · exact absurd hbit (by decide)
  · exact leafSafe8x5
  · exact leafSafe8x6
  · exact leafSafe8x7
  · exact absurd hbit (by decide)

theorem aiSafe0 : spN 9 false 1 0 = true :=
  spN_ai_step 8 1 0 4 rfl gBest0 (by decide) (by decide) oppSafe0

theorem aiSafe1 : spN 9 false 2 0 = true :=
  spN_ai_step 8 2 0 0 rfl gBest1 (by decide) (by decide) oppSafe1

theorem aiSafe2 : spN 9 false 4 0 = true :=
  spN_ai_step 8 4 0 4 rfl gBest2 (by decide) (by decide) oppSafe2

theorem aiSafe3 : spN 9 false 8 0 = true :=
  spN_ai_step 8 8 0 0 rfl gBest3 (by decide) (by decide) oppSafe3

theorem aiSafe4 : spN 9 false 16 0 = true :=
  spN_ai_step 8 16 0 0 rfl gBest4 (by decide) (by decide) oppSafe4

theorem aiSafe5 : spN 9 false 32 0 = true :=
  spN_ai_step 8 32 0 2 rfl gBest5 (by decide) (by decide) oppSafe5

theorem aiSafe6 : spN 9 false 64 0 = true :=
  spN_ai_step 8 64 0 4 rfl gBest6 (by decide) (by decide) oppSafe6

theorem aiSafe7 : spN 9 false 128 0 = true :=
  spN_ai_step 8 128 0 1 rfl gBest7 (by decide) (by decide) oppSafe7

theorem aiSafe8 : spN 9 false 256 0 = true :=
  spN_ai_step 8 256 0 4 rfl gBest8 (by decide) (by decide) oppSafe8

theorem topSafe : spN 10 true 0 0 = true := by
  refine spN_opp_step 9 0 0 rfl ?_
  intro i hi9 hbit
  interval_cases i
  · exact aiSafe0
  · exact aiSafe1
  · exact aiSafe2
  · exact aiSafe3
  · exact aiSafe4
  · exact aiSafe5
  · exact aiSafe6
  · exact aiSafe7
  · exact aiSafe8

/-- C1: optimal-strategy safety.  `safePlay` simulates, from the empty
board with the opponent (`X`) to move first, every opponent strategy
(any empty cell on each opponent turn) against the AI playing
`getBestMove` on its turns, and checks that every position reached —
terminal or not — is never a win for the opponent's mark, and that the
AI's chosen move always passes the caller's `aiMove !== -1 &&
board[aiMove] === ''` guard.  Ten plies of fuel cover the whole game:
nine moves fill the board and the tenth level only re-checks the final
position. -/
theorem bestMove_never_loses : safePlay aiInstance 10 true startBoard = true := by
  rw [safePlay_eq_fast 10 startBoard (by decide) true,
    show maskOf Mark.X startBoard = 0 from rfl,
    show maskOf Mark.O startBoard = 0 from rfl,
    safePlayU_eq 10 true 0 0, spN_eq 10 true 0 0]
  exact topSafe
